import Mathlib

/-!
# Verification of the prompt-canvas markdown parser/serializer

Shallow embedding of `src/unnamed/part_010` (the v2.0 parser/serializer,
i.e. the document that defines `parseV20Format`, `parseV11Format`,
`parseV10Format`, `parse`, `serialize`, `promoteContentHeadings`,
`demoteContentHeadings`) together with the document model of the repository
(`PromptSet`, `Session`, `Prompt`, `PromptMetadata`, `PromptDocument`).

Modelling conventions:
* Raw text is a `List Char` (named `Str`); `'\n'` is the line separator,
  mirroring the JavaScript `split('\n')` / template-literal joins.
* `nanoid()` is modelled by an id supply `gen : Nat → Str` together with a
  counter that is threaded through exactly where the source calls `nanoid()`.
* `new Date().toISOString()` is modelled by an arbitrary fixed string `now`.
* `JSON.parse` / `JSON.stringify` are modelled by an executable mini JSON
  reader/printer (`jsonParse` / `jsonStringify`) covering the value shapes
  these files contain: objects of strings, booleans, integers, null and
  nested objects.  Exotic JSON (arrays, floats, `\uXXXX` escapes) is mapped
  to a parse failure; the source's behaviour on such inputs is not needed by
  any claim.
* A thrown JavaScript exception is modelled by `Option`: `parse` returns
  `none` exactly when the source would throw.
-/

namespace PromptCanvas

/-- Raw text / strings are lists of characters. -/
abbrev Str := List Char

/-- The whitespace class used by JavaScript `\s` and `String.trim`
(restricted to the ASCII whitespace that can occur here). -/
def isWS (c : Char) : Bool := c = ' ' || c = '\t' || c = '\r' || c = '\n'

/-- `s.trimStart()` -/
def trimLeft (s : Str) : Str := s.dropWhile isWS

/-- `s.trimEnd()` -/
def trimRight (s : Str) : Str := (s.reverse.dropWhile isWS).reverse

/-- JavaScript `s.trim()` -/
def trim (s : Str) : Str := trimRight (trimLeft s)

/-- `content.split('\n')` — always returns at least one piece. -/
def splitlines : Str → List Str
  | [] => [[]]
  | c :: rest =>
    if c = '\n' then [] :: splitlines rest
    else (c :: (splitlines rest).headI) :: (splitlines rest).tail

/-- `pieces.join('\n')`, the inverse of `splitlines`. -/
def joinlines : List Str → Str
  | [] => []
  | [l] => l
  | l :: ls => l ++ '\n' :: joinlines ls

/-- Boolean prefix test (the literal line-anchored patterns of the
`replace(/^.../gm, ...)` calls). -/
def startsWith : Str → Str → Bool
  | [], _ => true
  | _ :: _, [] => false
  | p :: ps, c :: cs => p == c && startsWith ps cs

/-- Rewrite one line for a single `replace(/^PRE/gm, REP)` pass. -/
def lineRepl (pre rep : Str) (l : Str) : Str :=
  if startsWith pre l then rep ++ l.drop pre.length else l

/-- One pass of `content.replace(/^PRE/gm, REP)` for a line-anchored literal
pattern: rewrite the prefix on every line. -/
def replaceLinePrefix (pre rep : Str) (content : Str) : Str :=
  joinlines ((splitlines content).map (lineRepl pre rep))

/-- `promoteContentHeadings` (part_010 lines 491–496): `'### '→'###### '`,
then `'## '→'##### '`, then `'# '→'#### '`, each anchored at line starts. -/
def promoteContentHeadings (content : Str) : Str :=
  replaceLinePrefix ['#', ' '] ['#', '#', '#', '#', ' ']
    (replaceLinePrefix ['#', '#', ' '] ['#', '#', '#', '#', '#', ' ']
      (replaceLinePrefix ['#', '#', '#', ' ']
        ['#', '#', '#', '#', '#', '#', ' '] content))

/-- `demoteContentHeadings` (part_010 lines 502–507): `'###### '→'### '`,
then `'##### '→'## '`, then `'#### '→'# '`. -/
def demoteContentHeadings (content : Str) : Str :=
  replaceLinePrefix ['#', '#', '#', '#', ' '] ['#', ' ']
    (replaceLinePrefix ['#', '#', '#', '#', '#', ' '] ['#', '#', ' ']
      (replaceLinePrefix ['#', '#', '#', '#', '#', '#', ' ']
        ['#', '#', '#', ' '] content))

/-- The effect of `promoteContentHeadings` on a single line. -/
def promoteLine (l : Str) : Str :=
  lineRepl ['#', ' '] ['#', '#', '#', '#', ' ']
    (lineRepl ['#', '#', ' '] ['#', '#', '#', '#', '#', ' ']
      (lineRepl ['#', '#', '#', ' '] ['#', '#', '#', '#', '#', '#', ' '] l))

/-- The effect of `demoteContentHeadings` on a single line. -/
def demoteLine (l : Str) : Str :=
  lineRepl ['#', '#', '#', '#', ' '] ['#', ' ']
    (lineRepl ['#', '#', '#', '#', '#', ' '] ['#', '#', ' ']
      (lineRepl ['#', '#', '#', '#', '#', '#', ' '] ['#', '#', '#', ' '] l))

/-- `l` does not begin with four or more `'#'` characters followed by a
space (the heading shapes the promote/demote contract excludes). -/
def headingLevelOk (l : Str) : Bool :=
  !(4 ≤ (l.takeWhile (· == '#')).length &&
    (l.drop (l.takeWhile (· == '#')).length).head? == some ' ')

/-- JSON values occurring in these files. -/
inductive JVal where
  | jstr (s : Str)
  | jbool (b : Bool)
  | jnum (n : Int)
  | jnull
  | jobj (fields : List (Str × JVal))

/-- JavaScript property read with last-occurrence-wins semantics
(duplicate keys in a JSON text resolve to the last one). -/
def jlookup (fields : List (Str × JVal)) (k : Str) : Option JVal :=
  fields.foldl (fun acc kv => if kv.1 = k then some kv.2 else acc) none

/-- JavaScript truthiness of a JSON value. -/
def truthy : JVal → Bool
  | .jstr s => !s.isEmpty
  | .jbool b => b
  | .jnum n => n ≠ 0
  | .jnull => false
  | .jobj _ => true

/-- `(o.k as string) || dflt`: falls back on an absent key, an empty
string, and (as a modelling simplification) non-string values. -/
def getStrOr (o : List (Str × JVal)) (k : Str) (dflt : Str) : Str :=
  match jlookup o k with
  | some (.jstr s) => if s = [] then dflt else s
  | _ => dflt

/-- `o.k as string | undefined` (non-string values modelled as absent). -/
def getStrOpt (o : List (Str × JVal)) (k : Str) : Option Str :=
  match jlookup o k with
  | some (.jstr s) => some s
  | _ => none

/-- `(o.k as boolean) ?? dflt`: `??` fires on absent/null; any other
stored value acts through its truthiness. -/
def getBoolOr (o : List (Str × JVal)) (k : Str) (dflt : Bool) : Bool :=
  match jlookup o k with
  | none => dflt
  | some .jnull => dflt
  | some v => truthy v

/-- `o.k as boolean | undefined` (non-boolean values modelled as absent). -/
def getBoolOpt (o : List (Str × JVal)) (k : Str) : Option Bool :=
  match jlookup o k with
  | some (.jbool b) => some b
  | _ => none

/-- JSON string escaping as performed by `JSON.stringify`. -/
def escChar (c : Char) : Str :=
  if c = '"' then ['\\', '"']
  else if c = '\\' then ['\\', '\\']
  else if c = '\n' then ['\\', 'n']
  else if c = '\t' then ['\\', 't']
  else if c = '\r' then ['\\', 'r']
  else [c]

def escape (s : Str) : Str := (s.map escChar).flatten

/-- A JSON string literal: `"..."` with escaped body. -/
def quoteStr (s : Str) : Str := '"' :: escape s ++ ['"']

/-- Decimal rendering of an integer (only needed for totality). -/
def intToStr (n : Int) : Str :=
  if n < 0 then '-' :: Nat.toDigits 10 (-n).toNat
  else Nat.toDigits 10 n.toNat

mutual

/-- `JSON.stringify` for a single value. -/
def jvalToStr : JVal → Str
  | .jstr s => quoteStr s
  | .jbool true => ['t', 'r', 'u', 'e']
  | .jbool false => ['f', 'a', 'l', 's', 'e']
  | .jnull => ['n', 'u', 'l', 'l']
  | .jnum n => intToStr n
  | .jobj fields => '{' :: jfieldsToStr fields ++ ['}']

/-- `JSON.stringify` for the comma-separated fields of an object. -/
def jfieldsToStr : List (Str × JVal) → Str
  | [] => []
  | [(k, v)] => quoteStr k ++ ':' :: jvalToStr v
  | (k, v) :: rest => quoteStr k ++ ':' :: jvalToStr v ++ ',' :: jfieldsToStr rest

end

/-- `JSON.stringify` of an object literal with the given fields. -/
def jsonStringify (fields : List (Str × JVal)) : Str :=
  jvalToStr (.jobj fields)

/-- Inverse of `escChar` for the character after a backslash. -/
def unescChar (c : Char) : Option Char :=
  if c = '"' then some '"'
  else if c = '\\' then some '\\'
  else if c = '/' then some '/'
  else if c = 'n' then some '\n'
  else if c = 't' then some '\t'
  else if c = 'r' then some '\r'
  else none

/-- Parse the body of a JSON string literal (after the opening quote),
returning the decoded content and the remainder after the closing quote. -/
def parseStringBody : Str → Option (Str × Str)
  | [] => none
  | c :: rest =>
    if c = '"' then some ([], rest)
    else if c = '\\' then
      match rest with
      | [] => none
      | e :: rest2 =>
        match unescChar e, parseStringBody rest2 with
        | some c2, some (content, r) => some (c2 :: content, r)
        | _, _ => none
    else
      match parseStringBody rest with
      | some (content, r) => some (c :: content, r)
      | none => none

/-- Parse a run of decimal digits. -/
def parseNatNum (s : Str) : Option (Nat × Str) :=
  let ds := s.takeWhile Char.isDigit
  if ds = [] then none
  else some (ds.foldl (fun acc c => acc * 10 + (c.toNat - '0'.toNat)) 0,
    s.dropWhile Char.isDigit)

mutual

/-- Parse one JSON value, returning it and the remaining input. -/
def parseValue : Nat → Str → Option (JVal × Str)
  | 0, _ => none
  | fuel + 1, s =>
    match s.dropWhile isWS with
    | '"' :: rest => (parseStringBody rest).map fun p => (.jstr p.1, p.2)
    | 't' :: 'r' :: 'u' :: 'e' :: rest => some (.jbool true, rest)
    | 'f' :: 'a' :: 'l' :: 's' :: 'e' :: rest => some (.jbool false, rest)
    | 'n' :: 'u' :: 'l' :: 'l' :: rest => some (.jnull, rest)
    | '{' :: rest => (parseFields fuel rest true).map fun p => (.jobj p.1, p.2)
    | '-' :: rest => (parseNatNum rest).map fun p => (.jnum (-(p.1 : Int)), p.2)
    | c :: rest =>
      if c.isDigit then (parseNatNum (c :: rest)).map fun p => (.jnum p.1, p.2)
      else none
    | [] => none

/-- Parse the fields of a JSON object (after the opening brace);
`first` records whether an immediate `}` is allowed. -/
def parseFields : Nat → Str → Bool → Option (List (Str × JVal) × Str)
  | 0, _, _ => none
  | fuel + 1, s, first =>
    match s.dropWhile isWS, first with
    | '}' :: rest, true => some ([], rest)
    | '"' :: rest, _ =>
      match parseStringBody rest with
      | none => none
      | some (k, r1) =>
        match r1.dropWhile isWS with
        | ':' :: r3 =>
          match parseValue fuel r3 with
          | none => none
          | some (v, r4) =>
            match r4.dropWhile isWS with
            | ',' :: r6 =>
              (parseFields fuel r6 false).map fun p => ((k, v) :: p.1, p.2)
            | '}' :: r6 => some ([(k, v)], r6)
            | _ => none
        | _ => none
    | _, _ => none

end

/-- `JSON.parse`: succeeds only when the whole text is one value. -/
def jsonParse (s : Str) : Option JVal :=
  match parseValue (s.length + 1) s with
  | some (v, rest) => if rest.dropWhile isWS = [] then some v else none
  | none => none

/-- `JSON.parse(s) as <object type>`: the metadata casts in the source
always feed object-shaped captures. -/
def jsonParseObj (s : Str) : Option (List (Str × JVal)) :=
  match jsonParse s with
  | some (.jobj fields) => some fields
  | _ => none

/-! ## The document model (`src/src/lib/types.ts`, v2.0 revision) -/

/-- Legacy per-group metadata (`GroupMetadata`); `collapsed` may be absent
at runtime, hence the `Option`. -/
structure GroupMetadata where
  name : Option Str
  collapsed : Option Bool
deriving DecidableEq

/-- `FileMetadata`.  `groups := none` models a parsed JSON object whose
`groups` property is `undefined` (or `null`) — the shape on which
`parseV10Format`'s `fileMetadata.groups[...]` access throws. -/
structure FileMetadata where
  version : Str
  groups : Option (List (Str × GroupMetadata))
deriving DecidableEq

structure PromptSet where
  id : Str
  name : Option Str := none
  active : Bool
  collapsed : Bool
  created : Str
  folderLink : Option Str := none
deriving DecidableEq

structure Session where
  id : Str
  name : Option Str := none
  setId : Str
  collapsed : Option Bool := none
deriving DecidableEq

/-- `PromptMetadata`; fields that the runtime may leave absent are
`Option`s (`status` may be absent in hand-written legacy files even though
the TS type declares it required). -/
structure PromptMetadata where
  id : Str
  name : Option Str := none
  setId : Option Str := none
  sessionId : Option Str := none
  group : Option Str := none
  status : Option Str := none
  created : Option Str := none
  updated : Option Str := none
  folderLink : Option Str := none
  claudeSessionId : Option Str := none
  claudeMessageId : Option Str := none
  executedAt : Option Str := none
  responsePreview : Option Str := none
deriving DecidableEq

structure Prompt where
  id : Str
  content : Str
  metadata : PromptMetadata
deriving DecidableEq

structure PromptDocument where
  fileMetadata : FileMetadata
  sets : List PromptSet
  sessions : List Session
  prompts : List Prompt
  trailingNewline : Bool
deriving DecidableEq

/-! ## The regular expressions of part_010, as explicit scanners -/

/-- `trimmed.match(/^-{3,}$/)`: only dashes, at least three. -/
def isSeparatorLine (t : Str) : Bool :=
  3 ≤ t.length && t.all (· == '-')

/-- A run of dashes, at least three — one `---+` alternative of
`SEPARATOR_REGEX` (`/\n---+\n/`), which does NOT trim the line. -/
def isDashRun (l : Str) : Bool :=
  3 ≤ l.length && l.all (· == '-')

/-- Drop a literal if it is a prefix. -/
def dropLiteral (lit s : Str) : Option Str :=
  if startsWith lit s then some (s.drop lit.length) else none

/-- `\s*-->` anchored at the end of a line: the tail test performed by the
lazy capture `(\{.*?\})\s*-->$`. -/
def arrowEnd (s : Str) : Bool :=
  match s.dropWhile isWS with
  | '-' :: '-' :: '>' :: [] => true
  | _ => false

/-- `\s*-->` as a prefix (for the not-end-anchored `FILE_META_REGEX` and
`PROMPT_META_REGEX`); returns the remainder after `-->`. -/
def arrowAfter (s : Str) : Option Str :=
  match s.dropWhile isWS with
  | '-' :: '-' :: '>' :: r => some r
  | _ => none

/-- The lazy capture `(\{.*?\})` of the `$`-anchored metadata regexes:
starting just after the opening `{` (already in `acc`), extend until the
first `}` whose remainder is `\s*-->$`. -/
def lazyObjCapture (acc : Str) : Str → Option Str
  | [] => none
  | c :: rest =>
    if c = '}' then
      if arrowEnd rest then some ('}' :: acc).reverse
      else lazyObjCapture ('}' :: acc) rest
    else lazyObjCapture (c :: acc) rest

/-- The lazy capture for the prefix-matching (not `$`-anchored) metadata
regexes; `.` does not match a newline, so a newline aborts the capture.
Returns the capture and the remainder after `-->`. -/
def lazyObjCapturePrefix (acc : Str) : Str → Option (Str × Str)
  | [] => none
  | c :: rest =>
    if c = '\n' then none
    else if c = '}' then
      match arrowAfter rest with
      | some r => some (('}' :: acc).reverse, r)
      | none => lazyObjCapturePrefix ('}' :: acc) rest
    else lazyObjCapturePrefix (c :: acc) rest

/-- `line.match(METADATA_REGEX)` with
`METADATA_REGEX = /^<!--\s*(\{.*?\})\s*-->$/` → the captured JSON text. -/
def matchMetaLine (l : Str) : Option Str :=
  match l with
  | '<' :: '!' :: '-' :: '-' :: rest =>
    match rest.dropWhile isWS with
    | '{' :: r2 => lazyObjCapture ['{'] r2
    | _ => none
  | _ => none

/-- `^<!--\s*LABEL\s*(\{.*?\})\s*-->$` for a literal label
(`set:` / `prompt:` of the v1.1 format). -/
def matchLabeledMetaLine (label : Str) (l : Str) : Option Str :=
  match l with
  | '<' :: '!' :: '-' :: '-' :: rest =>
    match dropLiteral label (rest.dropWhile isWS) with
    | some r1 =>
      match r1.dropWhile isWS with
      | '{' :: r2 => lazyObjCapture ['{'] r2
      | _ => none
    | none => none
  | _ => none

/-- `text.match(FILE_META_REGEX)` with
`FILE_META_REGEX = /^<!--\s*prompt-canvas:\s*(\{.*?\})\s*-->/` (a prefix
match on the whole text; `\s` may cross newlines, `.` may not).
Returns the capture and the rest of the text after the match. -/
def matchFileMeta (text : Str) : Option (Str × Str) :=
  match dropLiteral ['<', '!', '-', '-'] text with
  | none => none
  | some r0 =>
    match dropLiteral
        ['p', 'r', 'o', 'm', 'p', 't', '-', 'c', 'a', 'n', 'v', 'a', 's', ':']
        (r0.dropWhile isWS) with
    | none => none
    | some r1 =>
      match r1.dropWhile isWS with
      | '{' :: r2 => lazyObjCapturePrefix ['{'] r2
      | _ => none

/-- `segment.match(PROMPT_META_REGEX)` with
`PROMPT_META_REGEX = /^<!--\s*prompt:\s*(\{.*?\})\s*-->\n?/` (prefix
match); returns the capture and the remainder after the match, the
optional trailing newline included. -/
def matchPromptMetaPrefix (s : Str) : Option (Str × Str) :=
  match dropLiteral ['<', '!', '-', '-'] s with
  | none => none
  | some r0 =>
    match dropLiteral ['p', 'r', 'o', 'm', 'p', 't', ':']
        (r0.dropWhile isWS) with
    | none => none
    | some r1 =>
      match r1.dropWhile isWS with
      | '{' :: r2 =>
        match lazyObjCapturePrefix ['{'] r2 with
        | some (cap, r3) =>
          some (cap, match r3 with | '\n' :: r4 => r4 | _ => r3)
        | none => none
      | _ => none

/-- `#` ... `###` heading matchers.  `matchHk hashes line` models
`line.match(Hk_REGEX) || line.match(EMPTY_Hk_REGEX)`:
`some (some cap)` for the capturing form `/^#+\s+(.*)$/`,
`some none` for the empty form `/^#+\s*$/` with no whitespace at all,
`none` when neither matches. -/
def matchHk (hashes : Str) (l : Str) : Option (Option Str) :=
  match dropLiteral hashes l with
  | none => none
  | some [] => some none
  | some (c :: r) =>
    if isWS c then some (some ((c :: r).dropWhile isWS)) else none



def matchH1 (l : Str) : Option (Option Str) := matchHk ['#'] l

def matchH2 (l : Str) : Option (Option Str) := matchHk ['#', '#'] l
def matchH3 (l : Str) : Option (Option Str) := matchHk ['#', '#', '#'] l

/-- `hMatch[1]?.trim() || undefined` applied to a heading match result. -/
def headingName (m : Option Str) : Option Str :=
  match m with
  | some cap => let t := trim cap; if t = [] then none else some t
  | none => none

/-- `haystack.includes(needle)`. -/
def includesList (needle : Str) : Str → Bool
  | [] => needle.isEmpty
  | c :: rest => startsWith needle (c :: rest) || includesList needle rest

/-- `detectV20Format`'s pairwise scan over the line array. -/
def detectV20Lines : List Str → Bool
  | [] => false
  | [_] => false
  | l :: next :: rest =>
    (((matchH1 l).isSome || (matchH2 l).isSome || (matchH3 l).isSome) &&
      (matchMetaLine next).isSome) || detectV20Lines (next :: rest)

/-- `detectV20Format` (part_010 lines 572–585). -/
def detectV20Format (content : Str) : Bool :=
  detectV20Lines (splitlines content)

/-- `text.endsWith('\n')`. -/
def endsWithNewline (s : Str) : Bool := s.getLast? == some '\n'

/-! ## JSON object → typed metadata (the `as T` casts of the source) -/

/-- `JSON.parse(x) as PromptMetadata` (fields kept by name; values of the
wrong runtime type are modelled as absent). -/
def jobjToPromptMetadata (o : List (Str × JVal)) : PromptMetadata :=
  { id := (getStrOpt o "id".toList).getD []
    name := getStrOpt o "name".toList
    setId := getStrOpt o "setId".toList
    sessionId := getStrOpt o "sessionId".toList
    group := getStrOpt o "group".toList
    status := getStrOpt o "status".toList
    created := getStrOpt o "created".toList
    updated := getStrOpt o "updated".toList
    folderLink := getStrOpt o "folderLink".toList
    claudeSessionId := getStrOpt o "claudeSessionId".toList
    claudeMessageId := getStrOpt o "claudeMessageId".toList
    executedAt := getStrOpt o "executedAt".toList
    responsePreview := getStrOpt o "responsePreview".toList }

/-- `JSON.parse(x) as PromptSet` with the explicit defaults of
`parseV11Format` (part_010 lines 808–819): `created`/`active`/`collapsed`
defaulted, `id` NOT defaulted (an id-less set keeps an empty id). -/
def jobjToPromptSet (o : List (Str × JVal)) (now : Str) : PromptSet :=
  { id := (getStrOpt o "id".toList).getD []
    name := getStrOpt o "name".toList
    active := getBoolOr o "active".toList false
    collapsed := getBoolOr o "collapsed".toList false
    created := getStrOr o "created".toList now
    folderLink := getStrOpt o "folderLink".toList }

def jvalToGroupMetadata : JVal → GroupMetadata
  | .jobj o => { name := getStrOpt o "name".toList
                 collapsed := getBoolOpt o "collapsed".toList }
  | _ => { name := none, collapsed := none }

/-- `JSON.parse(x) as FileMetadata`.  A missing or `null` `groups` becomes
`none` — exactly the shapes on which `fileMetadata.groups[...]` throws.
Any other non-object value of `groups` indexes to `undefined` without
throwing and is modelled as an empty map. -/
def jobjToFileMetadata (o : List (Str × JVal)) : FileMetadata :=
  { version := (getStrOpt o "version".toList).getD []
    groups :=
      match jlookup o "groups".toList with
      | some (.jobj entries) =>
        some (entries.map fun kv => (kv.1, jvalToGroupMetadata kv.2))
      | some .jnull => none
      | some _ => some []
      | none => none }

/-- Key access into the legacy `groups` record (last occurrence wins, as
for JavaScript object literals from JSON). -/
def glookup (m : List (Str × GroupMetadata)) (k : Str) : Option GroupMetadata :=
  m.foldl (fun acc kv => if kv.1 = k then some kv.2 else acc) none

/-! ## `parseV20Format` (part_010 lines 593–781) -/

/-- `while (...) pop/shift`: drop blank lines from both ends of the
buffered prompt content. -/
def trimBlankLines (ls : List Str) : List Str :=
  (((ls.reverse.dropWhile (fun l => (trim l).isEmpty)).reverse).dropWhile
    (fun l => (trim l).isEmpty))

/-- The mutable locals of `parseV20Format`'s line loop. -/
structure V20State where
  sets : List PromptSet
  sessions : List Session
  prompts : List Prompt
  currentSetId : Option Str
  currentSessionId : Option Str
  currentPrompt : Option Prompt
  buf : List Str
  n : Nat

/-- `saveCurrentPrompt` (lines 608–627): trim blank edge lines, demote
headings, push.  (Committed only for a truthy id; on a falsy id the
source leaves the prompt open — kept faithfully.) -/
def saveCurrentPrompt (st : V20State) : V20State :=
  match st.currentPrompt with
  | some p =>
    if p.id = [] then st
    else
      let raw := joinlines (trimBlankLines st.buf)
      { st with
        prompts := st.prompts ++ [{ p with content := demoteContentHeadings raw }]
        currentPrompt := none
        buf := [] }
  | none => st

/-- `ensureSet` (lines 629–641). -/
def ensureSet (gen : Nat → Str) (now : Str) (st : V20State) : Str × V20State :=
  match st.currentSetId with
  | some sid => (sid, st)
  | none =>
    let sid := gen st.n
    (sid,
      { st with
        sets := st.sets ++
          [{ id := sid, active := true, collapsed := false, created := now }]
        currentSetId := some sid
        n := st.n + 1 })

/-- The metadata lookahead performed after every heading: consume the very
next line only when it is a metadata comment whose JSON parses. -/
def metaLookahead (rest : List Str) : List (Str × JVal) × List Str :=
  match rest with
  | [] => ([], [])
  | next :: rest' =>
    match matchMetaLine next with
    | some jtext =>
      match jsonParseObj jtext with
      | some o => (o, rest')
      | none => ([], next :: rest')
    | none => ([], next :: rest')

/-- `prompt.metadata.sessionId` assignment `currentSessionId || undefined`. -/
def orUndefined (s : Option Str) : Option Str :=
  match s with
  | some x => if x = [] then none else some x
  | none => none

/-- The main line loop of `parseV20Format` (lines 643–775). -/
def parseV20Go (gen : Nat → Str) (now : Str) : List Str → V20State → V20State
  | [], st => saveCurrentPrompt st
  | line :: rest, st =>
    match matchH1 line with
    | some nm =>
      let st1 := saveCurrentPrompt st
      let setId := gen st1.n
      let st2 := { st1 with n := st1.n + 1 }
      let name := headingName nm
      let meta := (metaLookahead rest).1
      let theId := getStrOr meta "id".toList setId
      let st3 := { st2 with
        sets := st2.sets ++
          [{ id := theId
             name := name
             active := getBoolOr meta "active".toList st2.sets.isEmpty
             collapsed := getBoolOr meta "collapsed".toList false
             created := getStrOr meta "created".toList now
             folderLink := getStrOpt meta "folderLink".toList }]
        currentSetId := some theId
        currentSessionId := none }
      parseV20Go gen now (metaLookahead rest).2 st3
    | none =>
    match matchH2 line with
    | some nm =>
      let st1 := saveCurrentPrompt st
      let sessionId := gen st1.n
      let st2 := { st1 with n := st1.n + 1 }
      let name := headingName nm
      let (setId, st3) := ensureSet gen now st2
      let meta := (metaLookahead rest).1
      let theId := getStrOr meta "id".toList sessionId
      let st4 := { st3 with
        sessions := st3.sessions ++
          [{ id := theId
             name := name
             setId := setId
             collapsed := getBoolOpt meta "collapsed".toList }]
        currentSessionId := some theId }
      parseV20Go gen now (metaLookahead rest).2 st4
    | none =>
    match matchH3 line with
    | some nm =>
      let st1 := saveCurrentPrompt st
      let promptId := gen st1.n
      let st2 := { st1 with n := st1.n + 1 }
      let name := headingName nm
      let (setId, st3) := ensureSet gen now st2
      let meta := (metaLookahead rest).1
      let theId := getStrOr meta "id".toList promptId
      let st4 := { st3 with
        currentPrompt := some
          { id := theId
            content := []
            metadata :=
              { id := theId
                name := name
                setId := some setId
                sessionId := orUndefined st3.currentSessionId
                status := some (getStrOr meta "status".toList
                  ['q', 'u', 'e', 'u', 'e'])
                created := some (getStrOr meta "created".toList now)
                updated := getStrOpt meta "updated".toList
                folderLink := getStrOpt meta "folderLink".toList
                claudeSessionId := getStrOpt meta "claudeSessionId".toList
                claudeMessageId := getStrOpt meta "claudeMessageId".toList
                executedAt := getStrOpt meta "executedAt".toList
                responsePreview := getStrOpt meta "responsePreview".toList } }
        buf := [] }
      parseV20Go gen now (metaLookahead rest).2 st4
    | none =>
      if isSeparatorLine (trim line) then parseV20Go gen now rest st
      else if st.currentPrompt.isSome then
        parseV20Go gen now rest { st with buf := st.buf ++ [line] }
      else parseV20Go gen now rest st
  termination_by l _ => l.length
  decreasing_by
  all_goals simp only [List.length_cons]
  all_goals first
  | exact Nat.lt_succ_of_le (Nat.le_refl _)
  | · have hle : (metaLookahead rest).2.length ≤ rest.length := by
        unfold metaLookahead
        cases rest with
        | nil => simp
        | cons next rest' =>
          cases h : matchMetaLine next with
          | none => simp [h]
          | some jtext =>
            cases h2 : jsonParseObj jtext with
            | none => simp [h, h2]
            | some o => simp [h, h2]
      exact Nat.lt_succ_of_le hle

/-- `if (sets.length > 0 && !sets.some(s => s.active)) sets[0].active = true`
— the post-pass shared by all three parsers. -/
def ensureActiveSet (sets : List PromptSet) : List PromptSet :=
  match sets with
  | [] => []
  | s :: rest =>
    if (s :: rest).any (·.active) then s :: rest
    else { s with active := true } :: rest

/-- `parseV20Format`: returns the sets/sessions/prompts arrays and the
final id-supply counter. -/
def parseV20Format (gen : Nat → Str) (n₀ : Nat) (now : Str) (content : Str) :
    List PromptSet × List Session × List Prompt × Nat :=
  let st := parseV20Go gen now (splitlines content)
    ⟨[], [], [], none, none, none, [], n₀⟩
  (ensureActiveSet st.sets, st.sessions, st.prompts, st.n)

/-! ## `parseV11Format` (part_010 lines 783–860) and `savePrompt` -/

/-- `savePrompt` (lines 862–886). -/
def savePrompt (gen : Nat → Str) (n : Nat) (jsonStr : Str)
    (contentLines : List Str) (prompts : List Prompt) :
    List Prompt × Nat :=
  match jsonParseObj jsonStr with
  | none => (prompts, n)
  | some o =>
    let md := jobjToPromptMetadata o
    let (md, n') :=
      if md.id = [] then ({ md with id := gen n }, n + 1) else (md, n)
    let content := joinlines (trimBlankLines contentLines)
    (prompts ++ [{ id := md.id, content := content, metadata := md }], n')

/-- The mutable locals of `parseV11Format`'s line loop. -/
structure V11State where
  sets : List PromptSet
  prompts : List Prompt
  currentPromptJson : Option Str
  buf : List Str
  inPrompt : Bool
  n : Nat

/-- Flush a pending prompt (`if (inPrompt && currentPromptJson) ...`). -/
def v11Flush (gen : Nat → Str) (st : V11State) : V11State :=
  match st.inPrompt, st.currentPromptJson with
  | true, some j =>
    let (prompts, n') := savePrompt gen st.n j st.buf st.prompts
    { st with
        prompts := prompts
        buf := []
        currentPromptJson := none
        inPrompt := false
        n := n' }
  | _, _ => st

/-- The line loop of `parseV11Format`. -/
def parseV11Go (gen : Nat → Str) (now : Str) :
    List Str → V11State → V11State
  | [], st => v11Flush gen st
  | line :: rest, st =>
    let t := trim line
    match matchLabeledMetaLine ['s', 'e', 't', ':'] t with
    | some jtext =>
      let st1 := v11Flush gen st
      let st2 :=
        match jsonParseObj jtext with
        | some o => { st1 with sets := st1.sets ++ [jobjToPromptSet o now] }
        | none => st1
      parseV11Go gen now rest st2
    | none =>
    match matchLabeledMetaLine ['p', 'r', 'o', 'm', 'p', 't', ':'] t with
    | some jtext =>
      let st1 :=
        match st.inPrompt, st.currentPromptJson with
        | true, some j =>
          let (prompts, n') := savePrompt gen st.n j st.buf st.prompts
          { st with prompts := prompts, buf := [], n := n' }
        | _, _ => st
      parseV11Go gen now rest
        { st1 with currentPromptJson := some jtext, inPrompt := true }
    | none =>
      if isSeparatorLine t then parseV11Go gen now rest st
      else if st.inPrompt then
        parseV11Go gen now rest { st with buf := st.buf ++ [line] }
      else parseV11Go gen now rest st

/-- `parseV11Format`. -/
def parseV11Format (gen : Nat → Str) (n₀ : Nat) (now : Str) (content : Str) :
    List PromptSet × List Prompt × Nat :=
  let st := parseV11Go gen now (splitlines content)
    ⟨[], [], none, [], false, n₀⟩
  (ensureActiveSet st.sets, st.prompts, st.n)

/-! ## `parseV10Format` (part_010 lines 888–981) -/

/-- `content.split(SEPARATOR_REGEX)` with `SEPARATOR_REGEX = /\n---+\n/`,
expressed over the line array: a pure dash line separates segments when a
newline precedes it (it is not the first line after the previous match)
and follows it (it is not the last line). -/
def segGo (first : Bool) (acc : List Str) : List Str → List (List Str)
  | [] => [acc.reverse]
  | l :: rest =>
    if isDashRun l ∧ first = false ∧ rest ≠ [] then
      acc.reverse :: segGo true [] rest
    else segGo false (l :: acc) rest

def splitSegments (content : Str) : List Str :=
  (segGo true [] (splitlines content)).map joinlines

/-- The `if (!metadata.id) metadata.id = nanoid()` default. -/
def v10IdDefault (gen : Nat → Str) (md : PromptMetadata) (c : Str) (n : Nat) :
    PromptMetadata × Str × Nat :=
  if md.id = [] then ({ md with id := gen n }, c, n + 1) else (md, c, n)

/-- The first half of `parseV10Format`'s segment body: extract the
metadata comment (or synthesize defaults) and apply the id default.
Returns the metadata, the prompt content, and the advanced counter. -/
def v10SegMeta (gen : Nat → Str) (now : Str) (segment : Str) (n : Nat) :
    PromptMetadata × Str × Nat :=
  match matchPromptMetaPrefix (trim segment) with
  | some (cap, after) =>
    (match jsonParseObj cap with
     | some o => v10IdDefault gen (jobjToPromptMetadata o) after n
     | none =>
       v10IdDefault gen
         { id := gen n, status := some ['q', 'u', 'e', 'u', 'e'],
           created := some now } (trim segment) (n + 1))
  | none =>
    v10IdDefault gen
      { id := gen n, status := some ['q', 'u', 'e', 'u', 'e'],
        created := some now } (trim segment) (n + 1)

/-- The content the v1.0 segment loop stores for a segment (`none` for a
blank segment, which the loop skips). -/
def v10SegContent (seg : Str) : Option Str :=
  if trim seg = [] then none
  else some (
    match matchPromptMetaPrefix (trim seg) with
    | some (cap, after) =>
      (match jsonParseObj cap with
       | some _ => after
       | none => trim seg)
    | none => trim seg)

/-- One iteration of the `for (const segment of segments)` loop of
`parseV10Format`.  `none` models the `TypeError` thrown by
`fileMetadata.groups[metadata.group]` when `groups` is `undefined`/`null`. -/
def parseV10Seg (gen : Nat → Str) (now : Str) (fileMetadata : FileMetadata)
    (defaultSetId : Str) (segment : Str)
    (sets : List PromptSet) (prompts : List Prompt) (n : Nat) :
    Option (List PromptSet × List Prompt × Nat) :=
  if trim segment = [] then some (sets, prompts, n)
  else
    let metadata := (v10SegMeta gen now segment n).1
    let promptContent := (v10SegMeta gen now segment n).2.1
    let n2 := (v10SegMeta gen now segment n).2.2
    let withPrompt := fun (metadata : PromptMetadata)
        (sets : List PromptSet) (n : Nat) =>
      some (sets,
        prompts ++ [{ id := metadata.id
                      content := promptContent
                      metadata := metadata }], n)
    match metadata.group with
    | some g =>
      if g = [] then
        withPrompt { metadata with setId := some defaultSetId } sets n2
      else
        match sets.find? (fun s => s.name == some g) with
        | some groupSet =>
          withPrompt { metadata with setId := some groupSet.id } sets n2
        | none =>
          match fileMetadata.groups with
          | none => none
          | some groupsMap =>
            let collapsed :=
              match glookup groupsMap g with
              | some gm => gm.collapsed.getD false
              | none => false
            let groupSetId := gen n2
            let groupSet : PromptSet :=
              { id := groupSetId, name := some g, active := false,
                collapsed := collapsed, created := now }
            withPrompt { metadata with setId := some groupSetId }
              (sets ++ [groupSet]) (n2 + 1)
    | none =>
      withPrompt { metadata with setId := some defaultSetId } sets n2

/-- One fold step of the segment loop (`none` short-circuits a thrown
exception). -/
def v10Step (gen : Nat → Str) (now : Str) (fm : FileMetadata) (dId : Str)
    (acc : Option (List PromptSet × List Prompt × Nat)) (seg : Str) :
    Option (List PromptSet × List Prompt × Nat) :=
  match acc with
  | none => none
  | some r => parseV10Seg gen now fm dId seg r.1 r.2.1 r.2.2

/-- The segment loop of `parseV10Format`, starting from the synthetic
default set (pushed up front, marked active). -/
def parseV10Fold (gen : Nat → Str) (n₀ : Nat) (now : Str) (content : Str)
    (fileMetadata : FileMetadata) :
    Option (List PromptSet × List Prompt × Nat) :=
  let defaultSetId := gen n₀
  let sets0 : List PromptSet :=
    [{ id := defaultSetId, active := true, collapsed := false,
       created := now }]
  (splitSegments content).foldl
    (v10Step gen now fileMetadata defaultSetId)
    (some (sets0, [], n₀ + 1))

/-- `parseV10Format` (lines 888–981).  `none` models a thrown `TypeError`. -/
def parseV10Format (gen : Nat → Str) (n₀ : Nat) (now : Str) (content : Str)
    (fileMetadata : FileMetadata) :
    Option (List PromptSet × List Prompt × Nat) :=
  (parseV10Fold gen n₀ now content fileMetadata).map
    fun r => (ensureActiveSet r.1, r.2.1, r.2.2)

/-! ## `parse` (part_010 lines 512–566) -/

/-- The literal `'<!-- set:'` of the v1.1 format check. -/
def setMarker : Str := ['<', '!', '-', '-', ' ', 's', 'e', 't', ':']

/-- The file-level metadata obtained at the top of `parse` (lines 513–527):
the comment's JSON if it matches and parses, the default otherwise. -/
def parsedFileMeta (text : Str) : FileMetadata :=
  match matchFileMeta text with
  | some (cap, _) =>
    (match jsonParseObj cap with
     | some o => jobjToFileMetadata o
     | none => ⟨"1.0".toList, some []⟩)
  | none => ⟨"1.0".toList, some []⟩

/-- The content handed to format detection: the text with the file-level
metadata comment and the following `\n`-run stripped
(`content.slice(...).replace(/^\n+/, '')`). -/
def strippedContent (text : Str) : Str :=
  match matchFileMeta text with
  | some (_, rest) => rest.dropWhile (· == '\n')
  | none => text

/-- `parse` (lines 512–566).  `none` models a thrown exception (reachable
only through `parseV10Format`'s legacy-groups access). -/
def parse (gen : Nat → Str) (n₀ : Nat) (now : Str) (text : Str) :
    Option PromptDocument :=
  let fileMetadata := parsedFileMeta text
  let content := strippedContent text
  if trim content = [] then
    some { fileMetadata := { fileMetadata with version := "2.0".toList }
           sets := []
           sessions := []
           prompts := []
           trailingNewline := endsWithNewline text }
  else if detectV20Format content then
    let r := parseV20Format gen n₀ now content
    some { fileMetadata := { fileMetadata with version := "2.0".toList }
           sets := r.1
           sessions := r.2.1
           prompts := r.2.2.1
           trailingNewline := endsWithNewline text }
  else if includesList setMarker content then
    let r := parseV11Format gen n₀ now content
    some { fileMetadata := { fileMetadata with version := "2.0".toList }
           sets := r.1
           sessions := []
           prompts := r.2.1
           trailingNewline := endsWithNewline text }
  else
    (parseV10Format gen n₀ now content fileMetadata).map fun r =>
      { fileMetadata := { fileMetadata with version := "2.0".toList }
        sets := r.1
        sessions := []
        prompts := r.2.1
        trailingNewline := endsWithNewline text }

/-! ## `serialize` (part_010 lines 983–1136) -/

/-- `arr.join('\n\n')`. -/
def joinNN : List Str → Str
  | [] => []
  | [x] => x
  | x :: xs => x ++ '\n' :: '\n' :: joinNN xs

/-- Session-keyed buckets of one set (`Map<string|null, Prompt[]>`,
insertion-ordered). -/
abbrev SessionBuckets := List (Option Str × List Prompt)

/-- `promptsBySetAndSession` (`Map<string, Map<...>>`, insertion-ordered). -/
abbrev SetBuckets := List (Str × SessionBuckets)

def lookupBuckets (m : SetBuckets) (k : Str) : Option SessionBuckets :=
  match m with
  | [] => none
  | kv :: rest => if kv.1 = k then some kv.2 else lookupBuckets rest k

def lookupSession (sb : SessionBuckets) (k : Option Str) :
    Option (List Prompt) :=
  match sb with
  | [] => none
  | kv :: rest => if kv.1 = k then some kv.2 else lookupSession rest k

/-- `if (!m.has(k)) m.set(k, []); m.get(k)!.push(p)` -/
def pushSession (sb : SessionBuckets) (k : Option Str) (p : Prompt) :
    SessionBuckets :=
  match sb with
  | [] => [(k, [p])]
  | (k', ps) :: rest =>
    if k' = k then (k', ps ++ [p]) :: rest
    else (k', ps) :: pushSession rest k p

def pushSet (m : SetBuckets) (sid : Str) (k : Option Str) (p : Prompt) :
    SetBuckets :=
  match m with
  | [] => [(sid, [(k, [p])])]
  | (sid', sb) :: rest =>
    if sid' = sid then (sid', pushSession sb k p) :: rest
    else (sid', sb) :: pushSet rest sid k p

/-- `prompt.metadata.sessionId || null`. -/
def sessionKey (p : Prompt) : Option Str := orUndefined p.metadata.sessionId

/-- The truthy test on `prompt.metadata.setId` in the grouping loop. -/
def promptSetId (p : Prompt) : Option Str := orUndefined p.metadata.setId

/-- The grouping loop (lines 993–1008): buckets and orphans. -/
def partitionPrompts (prompts : List Prompt) : SetBuckets × List Prompt :=
  prompts.foldl
    (fun acc p =>
      match promptSetId p with
      | some sid => (pushSet acc.1 sid (sessionKey p) p, acc.2)
      | none => (acc.1, acc.2 ++ [p]))
    ([], [])

/-- `sessionsById.get` (a `Map` built from a list — the last entry with a
given id wins). -/
def sessionsById (sessions : List Session) (sid : Str) : Option Session :=
  sessions.foldl (fun acc s => if s.id = sid then some s else acc) none

/-- A string field included only when truthy (the `if (x) meta.k = x`
pattern of the serializer). -/
def truthyStrField (k : Str) (v : Option Str) : List (Str × JVal) :=
  match v with
  | some s => if s = [] then [] else [(k, .jstr s)]
  | none => []

/-- The set metadata comment body (lines 1052–1058). -/
def setMetaFields (set : PromptSet) : List (Str × JVal) :=
  [("id".toList, .jstr set.id), ("active".toList, .jbool set.active)] ++
  (if set.collapsed then [("collapsed".toList, .jbool true)] else []) ++
  truthyStrField "folderLink".toList set.folderLink ++
  truthyStrField "created".toList (some set.created)

/-- The session metadata comment body (lines 1081–1083). -/
def sessionMetaFields (s : Session) : List (Str × JVal) :=
  [("id".toList, .jstr s.id)] ++
  (if s.collapsed.getD false then [("collapsed".toList, .jbool true)] else [])

/-- The prompt metadata comment body (lines 1094–1105); a field holding
`undefined` is omitted by `JSON.stringify`. -/
def promptMetaFields (p : Prompt) : List (Str × JVal) :=
  [("id".toList, .jstr p.id)] ++
  (match p.metadata.status with
   | some st => [("status".toList, .jstr st)]
   | none => []) ++
  truthyStrField "created".toList p.metadata.created ++
  truthyStrField "updated".toList p.metadata.updated ++
  truthyStrField "folderLink".toList p.metadata.folderLink ++
  truthyStrField "claudeSessionId".toList p.metadata.claudeSessionId ++
  truthyStrField "claudeMessageId".toList p.metadata.claudeMessageId ++
  truthyStrField "executedAt".toList p.metadata.executedAt ++
  truthyStrField "responsePreview".toList p.metadata.responsePreview

/-- `promptStr` for one prompt (lines 1089–1114). -/
def promptPart (p : Prompt) : Str :=
  let promptName := p.metadata.name.getD []
  (['#', '#', '#', ' '] ++ promptName) ++
  '\n' :: ("<!-- ".toList ++ jsonStringify (promptMetaFields p) ++
    " -->".toList) ++
  (if p.content = [] then [] else '\n' :: promoteContentHeadings p.content)

/-- The `setOutput` elements contributed for one session id of a set
(lines 1070–1118). -/
def sessionElements (sb : SessionBuckets) (sessions : List Session)
    (sid? : Option Str) : List Str :=
  let sessionPrompts := (lookupSession sb sid?).getD []
  if sessionPrompts.isEmpty then []
  else
    (match sid? with
     | some sid =>
       match sessionsById sessions sid with
       | some session =>
         let sessionName := session.name.getD []
         [(['#', '#', ' '] ++ sessionName),
          "<!-- ".toList ++ jsonStringify (sessionMetaFields session) ++
            " -->\n".toList]
       | none => []
     | none => []) ++
    [joinNN (sessionPrompts.map promptPart)]

/-- One iteration of the `for (const set of setsToWrite)` loop
(lines 1041–1121): the `setOutput` element list, `none` when the set is
skipped for having no prompts. -/
def setBlockElements (m : SetBuckets) (sessions : List Session)
    (set : PromptSet) : Option (List Str) :=
  match lookupBuckets m set.id with
  | none => none
  | some sb =>
    if sb.length = 0 then none
    else
      let setName := set.name.getD []
      let sessionIds : List (Option Str) :=
        (if (lookupSession sb none).isSome then [none] else []) ++
        (sessions.filter (fun s => s.setId == set.id &&
          (lookupSession sb (some s.id)).isSome)).map (fun s => some s.id)
      some ((['#', ' '] ++ setName) ::
        ("<!-- ".toList ++ jsonStringify (setMetaFields set) ++
          " -->\n".toList) ::
        (sessionIds.map (sessionElements sb sessions)).flatten)

/-- Everything `serialize` computes: the output string, `setsToWrite`, the
final buckets, and the prompt array as it stands after the in-place orphan
reassignment (lines 1010–1032). -/
structure SerializeResult where
  output : Str
  setsToWrite : List PromptSet
  buckets : SetBuckets
  promptsAfter : List Prompt

def serializeCore (gen : Nat → Str) (n₀ : Nat) (now : Str)
    (doc : PromptDocument) : SerializeResult :=
  let header : Str :=
    "<!-- prompt-canvas: \x7b\"version\":\"2.0\"\x7d -->\n".toList
  let part := partitionPrompts doc.prompts
  let dId := gen n₀
  let (setsToWrite, buckets, promptsAfter) :=
    if part.2.isEmpty then (doc.sets, part.1, doc.prompts)
    else
      (doc.sets ++
        [{ id := dId
           active := doc.sets.isEmpty
           collapsed := false
           created := now }],
       part.2.foldl
         (fun m p => pushSet m dId none
           { p with metadata := { p.metadata with setId := some dId } })
         part.1,
       doc.prompts.map (fun p =>
         if (promptSetId p).isSome then p
         else { p with metadata := { p.metadata with setId := some dId } }))
  let blocks := setsToWrite.filterMap
    (fun s => (setBlockElements buckets doc.sessions s).map joinlines)
  let result := header ++ '\n' :: joinNN blocks
  let result :=
    if (doc.trailingNewline || !doc.prompts.isEmpty) &&
        !(endsWithNewline result) then result ++ ['\n']
    else result
  ⟨result, setsToWrite, buckets, promptsAfter⟩

/-- `serialize` (part_010 lines 983–1136). -/
def serialize (gen : Nat → Str) (n₀ : Nat) (now : Str)
    (doc : PromptDocument) : Str :=
  (serializeCore gen n₀ now doc).output

/-! ## Concrete instances used by witnesses and counterexamples -/

/-- A deterministic id supply standing in for `nanoid()`. -/
def wGen : Nat → Str := fun n => 'N' :: Nat.toDigits 10 n

/-- A fixed timestamp standing in for `new Date().toISOString()`. -/
def wNow : Str := ['T']

/-- A fallback document for total projections out of `Option`. -/
def emptyDoc : PromptDocument :=
  { fileMetadata := ⟨[], none⟩, sets := [], sessions := [], prompts := []
    trailingNewline := false }

/-- A v1.0 file whose file-level metadata has no `groups` key and whose
single prompt carries a legacy `group` — the input on which `parse`
throws a `TypeError` at `fileMetadata.groups[metadata.group]`. -/
def crashInput : Str :=
  ("<!-- prompt-canvas: \x7b\"version\":\"1.0\"\x7d -->\n\n" ++
   "<!-- prompt: \x7b\"id\":\"a\",\"group\":\"g\"\x7d -->\nHello\n").toList

/-- A v1.1 file in which two sets are explicitly `active` — parsed, both
stay active. -/
def twoActiveInput : Str :=
  ("<!-- set: \x7b\"id\":\"s1\",\"active\":true\x7d -->\n" ++
   "<!-- prompt: \x7b\"id\":\"p1\"\x7d -->\nA\n" ++
   "<!-- set: \x7b\"id\":\"s2\",\"active\":true\x7d -->\n" ++
   "<!-- prompt: \x7b\"id\":\"p2\"\x7d -->\nB\n").toList

/-- The document parsed from `twoActiveInput`. -/
def dTwo : PromptDocument :=
  (parse wGen 0 wNow twoActiveInput).getD emptyDoc

/-- The concrete v1.0 scenario of spec §8: two prompts, no groups. -/
def scenInput : Str :=
  ("<!-- prompt-canvas: \x7b\"version\":\"1.0\"\x7d -->\n\n" ++
   "<!-- prompt: \x7b\"id\":\"a\",\"status\":\"queue\"," ++
   "\"created\":\"2024-01-01T00:00:00Z\"\x7d -->\nHello\n\n---\n\n" ++
   "<!-- prompt: \x7b\"id\":\"b\",\"status\":\"done\"," ++
   "\"created\":\"2024-01-02T00:00:00Z\"\x7d -->\nWorld\n").toList

/-- The document parsed from `scenInput`. -/
def dScen : PromptDocument :=
  (parse wGen 0 wNow scenInput).getD emptyDoc

/-- A v1.0 file in which every prompt carries a legacy `group`. -/
def groupsInput : Str :=
  ("<!-- prompt-canvas: \x7b\"version\":\"1.0\",\"groups\":\x7b\x7d\x7d -->\n\n" ++
   "<!-- prompt: \x7b\"id\":\"a\",\"group\":\"g1\"\x7d -->\nA\n\n---\n\n" ++
   "<!-- prompt: \x7b\"id\":\"b\",\"group\":\"g2\"\x7d -->\nB\n\n---\n\n" ++
   "<!-- prompt: \x7b\"id\":\"c\",\"group\":\"g1\"\x7d -->\nC\n").toList

/-- The document parsed from `groupsInput`. -/
def dGroups : PromptDocument :=
  (parse wGen 0 wNow groupsInput).getD emptyDoc

/-- A prompt whose legacy `group` (when truthy) is matched by a set of
the given list carrying that name, with the prompt assigned to it. -/
def promptAssigned (sets : List PromptSet) (p : Prompt) : Prop :=
  ∀ g, p.metadata.group = some g → g ≠ [] →
    ∃ s ∈ sets, s.name = some g ∧ p.metadata.setId = some s.id

/-- A document with one named set, one prompt assigned to it and one
orphan prompt carrying no `setId` at all. -/
def docOrphan : PromptDocument :=
  { fileMetadata := ⟨"2.0".toList, none⟩
    sets := [{ id := "s1".toList
               name := some "Main".toList
               active := true
               collapsed := false
               created := ['T'] }]
    sessions := []
    prompts :=
      [{ id := "p1".toList
         content := "A".toList
         metadata := { id := "p1".toList, setId := some "s1".toList } },
       { id := "p2".toList
         content := "B".toList
         metadata := { id := "p2".toList } }]
    trailingNewline := true }

/-- A document with an active set holding one prompt and a second set to
which no prompt refers. -/
def docEmptySet : PromptDocument :=
  { fileMetadata := ⟨"2.0".toList, none⟩
    sets := [{ id := "s1".toList
               name := some "Main".toList
               active := true
               collapsed := false
               created := ['T'] },
             { id := "s2".toList
               name := some "Spare".toList
               active := false
               collapsed := false
               created := ['T'] }]
    sessions := []
    prompts :=
      [{ id := "p1".toList
         content := "A".toList
         metadata := { id := "p1".toList, setId := some "s1".toList } }]
    trailingNewline := true }

/-- The serializer's only read of bucketed prompts (lines 1041 and 1071):
the session-keyed list under set id `key` and session key `sk`, empty when
either map lacks the key. -/
def getSess (m : SetBuckets) (key : Str) (sk : Option Str) : List Prompt :=
  (lookupSession ((lookupBuckets m key).getD []) sk).getD []

/-- A prompt referencing set `s1` and a session id `kx` that no session of
the document carries. -/
def ghostPrompt : Prompt :=
  { id := "p2".toList
    content := "B".toList
    metadata := { id := "p2".toList
                  setId := some "s1".toList
                  sessionId := some "kx".toList } }

/-- A document holding `ghostPrompt` next to a normal sessioned prompt. -/
def docGhost : PromptDocument :=
  { fileMetadata := ⟨"2.0".toList, none⟩
    sets := [{ id := "s1".toList
               name := some "Main".toList
               active := true
               collapsed := false
               created := ['T'] }]
    sessions := [{ id := "k1".toList
                   name := some "Sess".toList
                   setId := "s1".toList }]
    prompts :=
      [{ id := "p1".toList
         content := "A".toList
         metadata := { id := "p1".toList
                       setId := some "s1".toList
                       sessionId := some "k1".toList } },
       ghostPrompt]
    trailingNewline := true }

/-! ## Canonical v2.0 document shape (for the round-trip statement) -/

/-- One session bucket of a canonical document: the prompts serialized
under one session key of one set (the `null` bucket first). -/
structure CanonGroup where
  sess : Option Session
  prompts : List Prompt

/-- One set block of a canonical document. -/
structure CanonBlock where
  set : PromptSet
  groups : List CanonGroup

/-- The session key a canonical group buckets under. -/
def groupKey (g : CanonGroup) : Option Str := g.sess.map (·.id)

def canonSessions (blocks : List CanonBlock) : List Session :=
  (blocks.map (fun b => b.groups.filterMap (·.sess))).flatten

def canonPrompts (blocks : List CanonBlock) : List Prompt :=
  (blocks.map (fun b => (b.groups.map (·.prompts)).flatten)).flatten

/-- The document whose prompt/session order follows its serialized
grouping: per set, the sessionless bucket first, then one bucket per
session in `sessions` order. -/
def canonDoc (blocks : List CanonBlock) (tn : Bool) : PromptDocument :=
  { fileMetadata := ⟨"2.0".toList, none⟩
    sets := blocks.map (·.set)
    sessions := canonSessions blocks
    prompts := canonPrompts blocks
    trailingNewline := tn }

/-- The bucket map `partitionPrompts` rebuilds from a canonical document. -/
def canonBuckets (blocks : List CanonBlock) : SetBuckets :=
  blocks.map fun b => (b.set.id, b.groups.map fun g => (groupKey g, g.prompts))

/-- `<!-- ${JSON.stringify(fields)} -->` as a single line. -/
def metaCommentLine (fields : List (Str × JVal)) : Str :=
  "<!-- ".toList ++ jsonStringify fields ++ " -->".toList

def setHeadLine (set : PromptSet) : Str := '#' :: ' ' :: set.name.getD []

def sessHeadLine (s : Session) : Str := '#' :: '#' :: ' ' :: s.name.getD []

def promptHeadLine (p : Prompt) : Str :=
  '#' :: '#' :: '#' :: ' ' :: p.metadata.name.getD []

/-- The lines `promptStr` contributes for one prompt. -/
def promptLines (p : Prompt) : List Str :=
  [promptHeadLine p, metaCommentLine (promptMetaFields p)] ++
  (if p.content = [] then [] else splitlines (promoteContentHeadings p.content))

/-- `join('\n\n')` at the level of line lists: one empty line between
parts. -/
def sepNN : List (List Str) → List Str
  | [] => []
  | [l] => l
  | l :: ls => l ++ [] :: sepNN ls

/-- The lines one session bucket contributes inside a set block. -/
def groupLines (g : CanonGroup) : List Str :=
  (match g.sess with
   | some s => [sessHeadLine s, metaCommentLine (sessionMetaFields s), []]
   | none => []) ++ sepNN (g.prompts.map promptLines)

/-- The lines of one serialized set block. -/
def blockLines (b : CanonBlock) : List Str :=
  setHeadLine b.set :: metaCommentLine (setMetaFields b.set) ::
    ([] : Str) :: (b.groups.map groupLines).flatten

/-- A heading-safe name: absent, or trim-stable, non-empty and free of
newlines. -/
def lineSafeName : Option Str → Prop
  | none => True
  | some nm => nm ≠ [] ∧ trim nm = nm ∧ '\n' ∉ nm

/-- Prompt content that survives the v2.0 writer/reader pair: empty, or
blank-edge-free with headings of levels 1–3 only, whose promoted lines
are neither headings nor cosmetic separators. -/
def contentSafe (c : Str) : Prop :=
  c = [] ∨
  ((∀ l ∈ splitlines c, headingLevelOk l = true) ∧
   trimBlankLines (splitlines c) = splitlines c ∧
   (∀ l ∈ splitlines (promoteContentHeadings c),
     matchH1 l = none ∧ matchH2 l = none ∧ matchH3 l = none ∧
     isSeparatorLine (trim l) = false))

def promptCanon (set : PromptSet) (g : CanonGroup) (p : Prompt) : Prop :=
  p.id ≠ [] ∧ p.metadata.setId = some set.id ∧
  sessionKey p = groupKey g ∧
  (match p.metadata.status with
   | some st => st ≠ []
   | none => False) ∧
  lineSafeName p.metadata.name ∧ contentSafe p.content

def groupCanon (set : PromptSet) (g : CanonGroup) : Prop :=
  g.prompts ≠ [] ∧
  (match g.sess with
   | some s => s.id ≠ [] ∧ s.setId = set.id ∧ lineSafeName s.name
   | none => True) ∧
  ∀ p ∈ g.prompts, promptCanon set g p

def blockCanon (b : CanonBlock) : Prop :=
  b.set.id ≠ [] ∧ lineSafeName b.set.name ∧
  b.groups ≠ [] ∧ (b.groups.map groupKey).Nodup ∧
  (∀ g ∈ b.groups.tail, g.sess.isSome = true) ∧
  ∀ g ∈ b.groups, groupCanon b.set g

/-- Canonical v2.0 shape: distinct set and session ids, an explicitly
active set, and well-formed blocks. -/
def canonShape (blocks : List CanonBlock) : Prop :=
  (blocks.map (·.set.id)).Nodup ∧
  ((canonSessions blocks).map (·.id)).Nodup ∧
  (blocks = [] ∨ ∃ b ∈ blocks, b.set.active = true) ∧
  ∀ b ∈ blocks, blockCanon b

/-- The value shapes the serializer's metadata objects use. -/
def flatVal : JVal → Bool
  | .jstr _ => true
  | .jbool _ => true
  | _ => false

/-- The projection of a prompt the round-trip claim talks about. -/
def pTriple (p : Prompt) : Str × Str × Option Str :=
  (p.id, p.content, p.metadata.status)

/-- The projection of a set the round-trip claim talks about. -/
def sQuad (s : PromptSet) : Str × Option Str × Bool × Bool :=
  (s.id, s.name, s.active, s.collapsed)

/-- The content lines buffered for one prompt while reading its block. -/
def bufOf (p : Prompt) : List Str :=
  if p.content = [] then [] else splitlines (promoteContentHeadings p.content)

/-- The `currentPrompt` record built at a `###` heading whose metadata
comment holds `promptMetaFields p`. -/
def v20PromptRec (gen : Nat → Str) (now : Str) (n : Nat) (sid : Str)
    (curSess : Option Str) (p : Prompt) : Prompt :=
  { id := getStrOr (promptMetaFields p) "id".toList (gen n)
    content := []
    metadata :=
      { id := getStrOr (promptMetaFields p) "id".toList (gen n)
        name := headingName (some ((p.metadata.name.getD []).dropWhile isWS))
        setId := some sid
        sessionId := orUndefined curSess
        status := some (getStrOr (promptMetaFields p) "status".toList
          "queue".toList)
        created := some (getStrOr (promptMetaFields p) "created".toList now)
        updated := getStrOpt (promptMetaFields p) "updated".toList
        folderLink := getStrOpt (promptMetaFields p) "folderLink".toList
        claudeSessionId :=
          getStrOpt (promptMetaFields p) "claudeSessionId".toList
        claudeMessageId :=
          getStrOpt (promptMetaFields p) "claudeMessageId".toList
        executedAt := getStrOpt (promptMetaFields p) "executedAt".toList
        responsePreview :=
          getStrOpt (promptMetaFields p) "responsePreview".toList } }

/-- The full line list of a serialized canonical document (the header
line apart). -/
def canonOutLines (blocks : List CanonBlock) : List Str :=
  sepNN (blocks.map blockLines) ++ [[]]

/-- A line list whose final line is non-empty and newline-free (so the
joined text does not end in a newline). -/
def endsOK (L : List Str) : Prop :=
  ∃ X l, L = X ++ [l] ∧ l ≠ [] ∧ '\n' ∉ l

/-- The `setOutput` elements one session bucket contributes. -/
def groupStrings (g : CanonGroup) : List Str :=
  (match g.sess with
   | some s => [['#', '#', ' '] ++ s.name.getD [],
     "<!-- ".toList ++ jsonStringify (sessionMetaFields s) ++
       " -->\n".toList]
   | none => []) ++ [joinNN (g.prompts.map promptPart)]

/-- The same elements, each as the line list it prints as. -/
def groupLineGroups (g : CanonGroup) : List (List Str) :=
  (match g.sess with
   | some s => [[sessHeadLine s],
     [metaCommentLine (sessionMetaFields s), []]]
   | none => []) ++ [sepNN (g.prompts.map promptLines)]

/-- The `setOutput` element list of one set block. -/
def blockStrings (b : CanonBlock) : List Str :=
  (['#', ' '] ++ b.set.name.getD []) ::
    ("<!-- ".toList ++ jsonStringify (setMetaFields b.set) ++
      " -->\n".toList) ::
    (b.groups.map groupStrings).flatten

/-- A line the v2.0 reader neither treats as a heading nor as a cosmetic
separator. -/
def inertLine (l : Str) : Prop :=
  matchH1 l = none ∧ matchH2 l = none ∧ matchH3 l = none ∧
  isSeparatorLine (trim l) = false

/-- The canonical-prompt facts the reader run needs. -/
def pGood (p : Prompt) : Prop :=
  p.id ≠ [] ∧ (∃ st, p.metadata.status = some st ∧ st ≠ []) ∧
  contentSafe p.content

/-- Committing the open prompt `rec` with buffer `buf` (a possible blank
line appended) reproduces `q`'s claim projection. -/
def openInv (rec : Prompt) (buf : List Str) (q : Prompt) : Prop :=
  rec.id ≠ [] ∧ ∀ B, (B = [] ∨ B = [[]]) →
    pTriple { rec with
      content := demoteContentHeadings (joinlines (trimBlankLines (buf ++ B))) } =
    pTriple q

/-- The reader's pending-prompt invariant: nothing open (and an empty
buffer), or an open record that commits to `q`. -/
def pendState (cp : Option Prompt) (buf : List Str) : Option Prompt → Prop
  | none => cp = none ∧ buf = []
  | some q => ∃ rec, cp = some rec ∧ openInv rec buf q

def restLines (ps : List Prompt) : List Str :=
  (ps.map (fun p => ([] : Str) :: promptLines p)).flatten

def gsPrompts (gs : List CanonGroup) : List Prompt :=
  (gs.map (·.prompts)).flatten

def restBlockLines (bs : List CanonBlock) : List Str :=
  (bs.map (fun b => ([] : Str) :: blockLines b)).flatten

def dashSet : PromptSet :=
  { id := "s1".toList, name := none, active := true,
    collapsed := false, created := "c".toList }

def dashPrompt : Prompt :=
  { id := "p1".toList
    content := "---".toList
    metadata :=
      { id := "p1".toList
        setId := some ("s1".toList)
        status := some ("queue".toList)
        created := some ("c".toList) } }

/-- A document in the claim's canonical v2.0 shape whose single prompt's
content is a cosmetic separator line. -/
def dashDoc : PromptDocument :=
  { fileMetadata := ⟨"2.0".toList, none⟩
    sets := [dashSet]
    sessions := []
    prompts := [dashPrompt]
    trailingNewline := true }

def wSet1 : PromptSet :=
  { id := "s1".toList, name := some ("Main".toList), active := true,
    collapsed := false, created := "c".toList }

def wPrompt1 : Prompt :=
  { id := "p1".toList
    content := "hello".toList
    metadata :=
      { id := "p1".toList
        setId := some ("s1".toList)
        status := some ("queue".toList)
        created := some ("c".toList) } }

def wBlock1 : CanonBlock :=
  { set := wSet1, groups := [{ sess := none, prompts := [wPrompt1] }] }

/-! ## Supporting lemmas and claim theorems -/

theorem splitlines_ne_nil (s : Str) : splitlines s ≠ [] := by
  cases s with
  | nil => simp [splitlines]
  | cons c rest => simp only [splitlines]; split <;> simp

theorem splitlines_newline (rest : Str) :
    splitlines ('\n' :: rest) = [] :: splitlines rest := by
  simp [splitlines]

theorem splitlines_cons_of_eq (c : Char) (rest : Str) (hc : c ≠ '\n')
    (l : Str) (ls : List Str) (h : splitlines rest = l :: ls) :
    splitlines (c :: rest) = (c :: l) :: ls := by
  simp [splitlines, if_neg hc, h]

theorem joinlines_cons_cons (l : Str) (m : Str) (ls : List Str) :
    joinlines (l :: m :: ls) = l ++ '\n' :: joinlines (m :: ls) := rfl

theorem joinlines_splitlines (s : Str) : joinlines (splitlines s) = s := by
  induction s with
  | nil => rfl
  | cons c rest ih =>
    by_cases hc : c = '\n'
    · subst hc
      rw [splitlines_newline]
      cases h : splitlines rest with
      | nil => exact absurd h (splitlines_ne_nil rest)
      | cons l ls =>
        rw [h] at ih
        rw [joinlines_cons_cons, List.nil_append, ih]
    · cases h : splitlines rest with
      | nil => exact absurd h (splitlines_ne_nil rest)
      | cons l ls =>
        rw [h] at ih
        rw [splitlines_cons_of_eq c rest hc l ls h]
        cases ls with
        | nil => simpa [joinlines] using ih
        | cons m ms =>
          rw [joinlines_cons_cons]
          show c :: (l ++ '\n' :: joinlines (m :: ms)) = c :: rest
          rw [← joinlines_cons_cons, ih]

theorem no_newline_of_mem_splitlines (s : Str) :
    ∀ l ∈ splitlines s, '\n' ∉ l := by
  induction s with
  | nil => intro l hl; simp [splitlines] at hl; simp [hl]
  | cons c rest ih =>
    intro l hl
    by_cases hc : c = '\n'
    · subst hc
      rw [splitlines_newline, List.mem_cons] at hl
      rcases hl with rfl | hl
      · simp
      · exact ih l hl
    · cases h : splitlines rest with
      | nil => exact absurd h (splitlines_ne_nil rest)
      | cons m ms =>
        rw [splitlines_cons_of_eq c rest hc m ms h, List.mem_cons] at hl
        rcases hl with rfl | hl
        · intro hmem
          rcases List.mem_cons.mp hmem with h' | h'
          · exact hc h'.symm
          · exact ih m (h ▸ List.mem_cons_self m ms) h'
        · exact ih l (h ▸ List.mem_cons_of_mem m hl)

theorem splitlines_append_newline (a b : Str) (ha : '\n' ∉ a) :
    splitlines (a ++ '\n' :: b) = a :: splitlines b := by
  induction a with
  | nil => simp [splitlines]
  | cons c cs ih =>
    rw [List.mem_cons] at ha
    push_neg at ha
    obtain ⟨ha1, ha2⟩ := ha
    have h1 := ih ha2
    rw [List.cons_append,
        splitlines_cons_of_eq c _ (fun h => ha1 h.symm) _ _ h1]

theorem splitlines_no_newline (a : Str) (ha : '\n' ∉ a) :
    splitlines a = [a] := by
  induction a with
  | nil => simp [splitlines]
  | cons c cs ih =>
    rw [List.mem_cons] at ha
    push_neg at ha
    obtain ⟨ha1, ha2⟩ := ha
    rw [splitlines_cons_of_eq c cs (fun h => ha1 h.symm) cs [] (ih ha2)]

theorem splitlines_joinlines (L : List Str) (hL : L ≠ [])
    (h : ∀ l ∈ L, '\n' ∉ l) : splitlines (joinlines L) = L := by
  induction L with
  | nil => exact absurd rfl hL
  | cons l ls ih =>
    cases ls with
    | nil =>
      simp only [joinlines]
      exact splitlines_no_newline l (h l (List.mem_cons_self l []))
    | cons m ms =>
      rw [joinlines_cons_cons,
          splitlines_append_newline l _ (h l (List.mem_cons_self l _))]
      rw [ih (by simp) (fun x hx => h x (List.mem_cons_of_mem l hx))]

theorem startsWith_iff (p l : Str) :
    startsWith p l = true ↔ ∃ t, l = p ++ t := by
  induction p generalizing l with
  | nil => simp [startsWith]
  | cons a as ih =>
    cases l with
    | nil => simp [startsWith]
    | cons c cs =>
      simp only [startsWith, Bool.and_eq_true, beq_iff_eq, ih,
        List.cons_append, List.cons.injEq]
      constructor
      · rintro ⟨rfl, t, rfl⟩; exact ⟨t, rfl, rfl⟩
      · rintro ⟨t, rfl, rfl⟩; exact ⟨rfl, t, rfl⟩

theorem startsWith_append (p t : Str) : startsWith p (p ++ t) = true := by
  induction p with
  | nil => simp [startsWith]
  | cons a as ih => simp [startsWith, ih]

theorem lineRepl_pos (pre rep t : Str) :
    lineRepl pre rep (pre ++ t) = rep ++ t := by
  simp [lineRepl, startsWith_append, List.drop_left]

theorem lineRepl_neg (pre rep l : Str) (h : startsWith pre l = false) :
    lineRepl pre rep l = l := by
  simp [lineRepl, h]

theorem lineRepl_no_newline (pre rep l : Str)
    (hrep : '\n' ∉ rep) (hl : '\n' ∉ l) : '\n' ∉ lineRepl pre rep l := by
  unfold lineRepl
  split
  · intro hmem
    rcases List.mem_append.mp hmem with h | h
    · exact hrep h
    · exact hl (List.mem_of_mem_drop h)
  · exact hl

theorem promoteLine_no_newline (l : Str) (hl : '\n' ∉ l) :
    '\n' ∉ promoteLine l := by
  unfold promoteLine
  exact lineRepl_no_newline _ _ _ (by decide)
    (lineRepl_no_newline _ _ _ (by decide)
      (lineRepl_no_newline _ _ _ (by decide) hl))

theorem replaceLinePrefix_joinlines (pre rep : Str) (L : List Str)
    (hL : L ≠ []) (h : ∀ l ∈ L, '\n' ∉ l) :
    replaceLinePrefix pre rep (joinlines L) =
      joinlines (L.map (lineRepl pre rep)) := by
  unfold replaceLinePrefix
  rw [splitlines_joinlines L hL h]

theorem map_ne_nil_of_ne_nil {α β : Type} (f : α → β) (L : List α)
    (hL : L ≠ []) : L.map f ≠ [] := by
  cases L with
  | nil => exact absurd rfl hL
  | cons a as => simp

/-- Composing two line-anchored replace passes acts line by line. -/
theorem replaceLinePrefix_map (pre rep : Str) (f : Str → Str)
    (L : List Str) (hL : L ≠ [])
    (hf : ∀ l, '\n' ∉ l → '\n' ∉ f l) (hLnl : ∀ l ∈ L, '\n' ∉ l) :
    replaceLinePrefix pre rep (joinlines (L.map f)) =
      joinlines (L.map (fun l => lineRepl pre rep (f l))) := by
  have hne : L.map f ≠ [] := map_ne_nil_of_ne_nil f L hL
  have hnl : ∀ l ∈ L.map f, '\n' ∉ l := by
    intro l hl
    rcases List.mem_map.mp hl with ⟨x, hx, rfl⟩
    exact hf x (hLnl x hx)
  rw [replaceLinePrefix_joinlines pre rep _ hne hnl, List.map_map]
  rfl

/-- `promoteContentHeadings` acts line by line. -/
theorem promote_as_map (c : Str) :
    promoteContentHeadings c =
      joinlines ((splitlines c).map promoteLine) := by
  unfold promoteContentHeadings
  have hLne : splitlines c ≠ [] := splitlines_ne_nil c
  have hLnl : ∀ l ∈ splitlines c, '\n' ∉ l := no_newline_of_mem_splitlines c
  have e3 : replaceLinePrefix ['#', '#', '#', ' ']
      ['#', '#', '#', '#', '#', '#', ' '] c =
      joinlines ((splitlines c).map (lineRepl ['#', '#', '#', ' ']
        ['#', '#', '#', '#', '#', '#', ' '])) := rfl
  rw [e3,
    replaceLinePrefix_map ['#', '#', ' '] ['#', '#', '#', '#', '#', ' ']
      _ _ hLne
      (fun l hl => lineRepl_no_newline _ _ _ (by decide) hl) hLnl,
    replaceLinePrefix_map ['#', ' '] ['#', '#', '#', '#', ' ']
      _ _ hLne
      (fun l hl => lineRepl_no_newline _ _ _ (by decide)
        (lineRepl_no_newline _ _ _ (by decide) hl)) hLnl]
  rfl

/-- `demoteContentHeadings` acts line by line. -/
theorem demote_as_map (c : Str) :
    demoteContentHeadings c =
      joinlines ((splitlines c).map demoteLine) := by
  unfold demoteContentHeadings
  have hLne : splitlines c ≠ [] := splitlines_ne_nil c
  have hLnl : ∀ l ∈ splitlines c, '\n' ∉ l := no_newline_of_mem_splitlines c
  have e3 : replaceLinePrefix ['#', '#', '#', '#', '#', '#', ' ']
      ['#', '#', '#', ' '] c =
      joinlines ((splitlines c).map
        (lineRepl ['#', '#', '#', '#', '#', '#', ' ']
          ['#', '#', '#', ' '])) := rfl
  rw [e3,
    replaceLinePrefix_map ['#', '#', '#', '#', '#', ' '] ['#', '#', ' ']
      _ _ hLne
      (fun l hl => lineRepl_no_newline _ _ _ (by decide) hl) hLnl,
    replaceLinePrefix_map ['#', '#', '#', '#', ' '] ['#', ' ']
      _ _ hLne
      (fun l hl => lineRepl_no_newline _ _ _ (by decide)
        (lineRepl_no_newline _ _ _ (by decide) hl)) hLnl]
  rfl

theorem demote_promote_line (l : Str) (h : headingLevelOk l = true) :
    demoteLine (promoteLine l) = l := by
  by_cases h3 : startsWith ['#', '#', '#', ' '] l = true
  · obtain ⟨t, rfl⟩ := (startsWith_iff _ _).mp h3
    unfold promoteLine
    rw [lineRepl_pos ['#', '#', '#', ' '] ['#', '#', '#', '#', '#', '#', ' '] t,
      lineRepl_neg ['#', '#', ' '] ['#', '#', '#', '#', '#', ' ']
        (['#', '#', '#', '#', '#', '#', ' '] ++ t) (by rfl),
      lineRepl_neg ['#', ' '] ['#', '#', '#', '#', ' ']
        (['#', '#', '#', '#', '#', '#', ' '] ++ t) (by rfl)]
    unfold demoteLine
    rw [lineRepl_pos ['#', '#', '#', '#', '#', '#', ' '] ['#', '#', '#', ' '] t,
      lineRepl_neg ['#', '#', '#', '#', '#', ' '] ['#', '#', ' ']
        (['#', '#', '#', ' '] ++ t) (by rfl),
      lineRepl_neg ['#', '#', '#', '#', ' '] ['#', ' ']
        (['#', '#', '#', ' '] ++ t) (by rfl)]
  · by_cases h2 : startsWith ['#', '#', ' '] l = true
    · obtain ⟨t, rfl⟩ := (startsWith_iff _ _).mp h2
      unfold promoteLine
      rw [lineRepl_neg ['#', '#', '#', ' '] ['#', '#', '#', '#', '#', '#', ' ']
          (['#', '#', ' '] ++ t) (by rfl),
        lineRepl_pos ['#', '#', ' '] ['#', '#', '#', '#', '#', ' '] t,
        lineRepl_neg ['#', ' '] ['#', '#', '#', '#', ' ']
          (['#', '#', '#', '#', '#', ' '] ++ t) (by rfl)]
      unfold demoteLine
      rw [lineRepl_neg ['#', '#', '#', '#', '#', '#', ' '] ['#', '#', '#', ' ']
          (['#', '#', '#', '#', '#', ' '] ++ t) (by rfl),
        lineRepl_pos ['#', '#', '#', '#', '#', ' '] ['#', '#', ' '] t,
        lineRepl_neg ['#', '#', '#', '#', ' '] ['#', ' ']
          (['#', '#', ' '] ++ t) (by rfl)]
    · by_cases h1 : startsWith ['#', ' '] l = true
      · obtain ⟨t, rfl⟩ := (startsWith_iff _ _).mp h1
        unfold promoteLine
        rw [lineRepl_neg ['#', '#', '#', ' ']
            ['#', '#', '#', '#', '#', '#', ' '] (['#', ' '] ++ t) (by rfl),
          lineRepl_neg ['#', '#', ' '] ['#', '#', '#', '#', '#', ' ']
            (['#', ' '] ++ t) (by rfl),
          lineRepl_pos ['#', ' '] ['#', '#', '#', '#', ' '] t]
        unfold demoteLine
        rw [lineRepl_neg ['#', '#', '#', '#', '#', '#', ' ']
            ['#', '#', '#', ' '] (['#', '#', '#', '#', ' '] ++ t) (by rfl),
          lineRepl_neg ['#', '#', '#', '#', '#', ' '] ['#', '#', ' ']
            (['#', '#', '#', '#', ' '] ++ t) (by rfl),
          lineRepl_pos ['#', '#', '#', '#', ' '] ['#', ' '] t]
      · -- no promotion happens; demotion must not touch `l` either
        have e3 : startsWith ['#', '#', '#', ' '] l = false := by
          cases hh : startsWith ['#', '#', '#', ' '] l with
          | false => rfl
          | true => exact absurd hh h3
        have e2 : startsWith ['#', '#', ' '] l = false := by
          cases hh : startsWith ['#', '#', ' '] l with
          | false => rfl
          | true => exact absurd hh h2
        have e1 : startsWith ['#', ' '] l = false := by
          cases hh : startsWith ['#', ' '] l with
          | false => rfl
          | true => exact absurd hh h1
        unfold promoteLine
        rw [lineRepl_neg _ _ _ e3, lineRepl_neg _ _ _ e2,
          lineRepl_neg _ _ _ e1]
        have d6 : startsWith ['#', '#', '#', '#', '#', '#', ' '] l = false := by
          cases hd : startsWith ['#', '#', '#', '#', '#', '#', ' '] l with
          | false => rfl
          | true =>
            obtain ⟨t, rfl⟩ := (startsWith_iff _ _).mp hd
            have hfalse : headingLevelOk
                (['#', '#', '#', '#', '#', '#', ' '] ++ t) = false := rfl
            rw [h] at hfalse
            exact Bool.noConfusion hfalse
        have d5 : startsWith ['#', '#', '#', '#', '#', ' '] l = false := by
          cases hd : startsWith ['#', '#', '#', '#', '#', ' '] l with
          | false => rfl
          | true =>
            obtain ⟨t, rfl⟩ := (startsWith_iff _ _).mp hd
            have hfalse : headingLevelOk
                (['#', '#', '#', '#', '#', ' '] ++ t) = false := rfl
            rw [h] at hfalse
            exact Bool.noConfusion hfalse
        have d4 : startsWith ['#', '#', '#', '#', ' '] l = false := by
          cases hd : startsWith ['#', '#', '#', '#', ' '] l with
          | false => rfl
          | true =>
            obtain ⟨t, rfl⟩ := (startsWith_iff _ _).mp hd
            have hfalse : headingLevelOk
                (['#', '#', '#', '#', ' '] ++ t) = false := rfl
            rw [h] at hfalse
            exact Bool.noConfusion hfalse
        unfold demoteLine
        rw [lineRepl_neg _ _ _ d6, lineRepl_neg _ _ _ d5,
          lineRepl_neg _ _ _ d4]

/-! ## Mini JSON (`JSON.parse` / `JSON.stringify`)

The metadata comments carry flat JSON objects of strings and booleans
(nested one level for the legacy `groups` map).  `jsonParse` is a total
executable reader for that fragment; anything outside it (arrays, floats,
`\uXXXX` escapes) is mapped to a parse failure, which the source handles
with `try { ... } catch { ... }` anyway. -/

theorem metaLookahead_length (rest : List Str) :
    (metaLookahead rest).2.length ≤ rest.length := by
  unfold metaLookahead
  cases rest with
  | nil => simp
  | cons next rest' =>
    cases h : matchMetaLine next with
    | none => simp [h]
    | some jtext =>
      cases h2 : jsonParseObj jtext with
      | none => simp [h, h2]
      | some o => simp [h, h2]

theorem list_map_id_of_mem {α : Type} (f : α → α) (L : List α)
    (h : ∀ x ∈ L, f x = x) : L.map f = L := by
  induction L with
  | nil => rfl
  | cons a as ih =>
    simp only [List.map_cons, h a (List.mem_cons_self a as),
      ih (fun x hx => h x (List.mem_cons_of_mem a hx))]

/-- **C3**: for every string whose lines never begin with four or more
`'#'` characters followed by a space,
`demoteContentHeadings (promoteContentHeadings c) = c`. -/
theorem claim_C3_heading_roundtrip (c : Str)
    (h : ∀ l ∈ splitlines c, headingLevelOk l = true) :
    demoteContentHeadings (promoteContentHeadings c) = c := by
  rw [promote_as_map, demote_as_map,
    splitlines_joinlines _ (map_ne_nil_of_ne_nil _ _ (splitlines_ne_nil c))
      (fun l hl => by
        rcases List.mem_map.mp hl with ⟨x, hx, rfl⟩
        exact promoteLine_no_newline x (no_newline_of_mem_splitlines c x hx)),
    List.map_map,
    list_map_id_of_mem (demoteLine ∘ promoteLine) _ (fun l hl =>
      demote_promote_line l (h l hl)),
    joinlines_splitlines]

theorem claim_C3_witness :
    (∀ l ∈ splitlines ("# a\nplain\n### b".toList),
      headingLevelOk l = true) ∧
    demoteContentHeadings (promoteContentHeadings
      ("# a\nplain\n### b".toList)) = "# a\nplain\n### b".toList :=
  ⟨by decide, claim_C3_heading_roundtrip _ (by decide)⟩

/-- **C9**: when the content left after stripping the file-level metadata
comment is empty or whitespace-only, `parse` returns the empty canonical
document: version `"2.0"`, no sets, no sessions, no prompts. -/
theorem claim_C9_empty_input (gen : Nat → Str) (n₀ : Nat) (now text : Str)
    (h : trim (strippedContent text) = []) :
    ∃ d, parse gen n₀ now text = some d ∧
      d.fileMetadata.version = "2.0".toList ∧
      d.sets = [] ∧ d.sessions = [] ∧ d.prompts = [] := by
  refine ⟨{ fileMetadata := { parsedFileMeta text with version := "2.0".toList }
            sets := []
            sessions := []
            prompts := []
            trailingNewline := endsWithNewline text }, ?_, rfl, rfl, rfl, rfl⟩
  unfold parse
  simp only [h, if_pos]

theorem claim_C9_witness :
    ∃ d, parse (fun _ => []) 0 [] ("  \n ".toList) = some d ∧
      d.fileMetadata.version = "2.0".toList ∧
      d.sets = [] ∧ d.sessions = [] ∧ d.prompts = [] :=
  claim_C9_empty_input (fun _ => []) 0 [] ("  \n ".toList) (by decide)

/-- **C8** (the claim is right, the code is wrong): `parse` throws.  On
`crashInput` — a legal v1.0 file whose file-level metadata lacks the
`groups` key — the migration line
`collapsed: fileMetadata.groups[metadata.group]?.collapsed ?? false`
dereferences `undefined` and raises a `TypeError`, modelled here by
`parse` returning `none`. -/
theorem claim_C8_parse_crash :
    parse wGen 0 wNow crashInput = none := by decide

theorem ensureActiveSet_spec (sets : List PromptSet) :
    ensureActiveSet sets = [] ∨
      (ensureActiveSet sets).any (·.active) = true := by
  cases sets with
  | nil => exact Or.inl rfl
  | cons s rest =>
    right
    simp only [ensureActiveSet]
    by_cases h : (s :: rest).any (·.active) = true
    · rw [if_pos h]; exact h
    · rw [if_neg h]; simp [List.any_cons]

/-- **C2 (amended)**: whenever `parse` returns a document, either no sets
were produced at all or at least one set is active (the post-pass forces
the first set active when none was).  The original "exactly one" claim is
refuted by `claim_C2_counterexample`. -/
theorem claim_C2_at_least_one_active (gen : Nat → Str) (n₀ : Nat)
    (now text : Str) (d : PromptDocument)
    (hp : parse gen n₀ now text = some d) :
    d.sets = [] ∨ d.sets.any (·.active) = true := by
  unfold parse at hp
  by_cases h1 : trim (strippedContent text) = []
  · rw [if_pos h1] at hp
    injection hp with h
    rw [← h]
    exact Or.inl rfl
  · rw [if_neg h1] at hp
    by_cases h2 : detectV20Format (strippedContent text) = true
    · rw [if_pos h2] at hp
      injection hp with h
      rw [← h]
      exact ensureActiveSet_spec _
    · rw [if_neg h2] at hp
      by_cases h3 : includesList setMarker (strippedContent text) = true
      · rw [if_pos h3] at hp
        injection hp with h
        rw [← h]
        exact ensureActiveSet_spec _
      · rw [if_neg h3] at hp
        unfold parseV10Format at hp
        cases hf : parseV10Fold gen n₀ now (strippedContent text)
            (parsedFileMeta text) with
        | none => rw [hf] at hp; exact absurd hp (by simp)
        | some r =>
          rw [hf] at hp
          simp only [Option.map] at hp
          injection hp with h
          rw [← h]
          exact ensureActiveSet_spec _

/-- **C2, counterexample to the claim as stated**: a non-empty v1.1 input
that explicitly marks two sets active parses to a document with TWO
active sets, not exactly one. -/
theorem claim_C2_counterexample :
    twoActiveInput ≠ [] ∧
    (parse wGen 0 wNow twoActiveInput).map
      (fun d => (d.sets.filter (·.active)).length) = some 2 := by decide

theorem claim_C2_witness :
    dTwo.sets = [] ∨ dTwo.sets.any (·.active) = true :=
  claim_C2_at_least_one_active wGen 0 wNow twoActiveInput dTwo (by decide)

theorem v10IdDefault_content (gen : Nat → Str) (md : PromptMetadata)
    (c : Str) (n : Nat) : (v10IdDefault gen md c n).2.1 = c := by
  unfold v10IdDefault
  split <;> rfl

theorem v10SegContent_none (seg : Str) (h : trim seg = []) :
    v10SegContent seg = none := by
  simp [v10SegContent, h]

theorem v10SegContent_of_meta (gen : Nat → Str) (now seg : Str) (n : Nat)
    (h : trim seg ≠ []) :
    v10SegContent seg = some (v10SegMeta gen now seg n).2.1 := by
  unfold v10SegContent v10SegMeta
  rw [if_neg h]
  cases hm : matchPromptMetaPrefix (trim seg) with
  | none => simp [v10IdDefault_content]
  | some capAfter =>
    cases capAfter with
    | mk cap after =>
      cases hj : jsonParseObj cap with
      | none => simp [hj, v10IdDefault_content]
      | some o => simp [hj, v10IdDefault_content]

/-- Exhaustive characterization of one v1.0 segment step. -/
theorem parseV10Seg_cases (gen : Nat → Str) (now : Str) (fm : FileMetadata)
    (dId : Str) (seg : Str) (sets : List PromptSet) (prompts : List Prompt)
    (n : Nat) (res : List PromptSet × List Prompt × Nat)
    (hres : parseV10Seg gen now fm dId seg sets prompts n = some res) :
    (trim seg = [] ∧ res = (sets, prompts, n)) ∨
    (trim seg ≠ [] ∧ ∃ md c n2, v10SegMeta gen now seg n = (md, c, n2) ∧
      (((md.group = none ∨ md.group = some []) ∧
         res = (sets, prompts ++
           [{ id := md.id
              content := c
              metadata := { md with setId := some dId } }], n2)) ∨
       (∃ g gs, md.group = some g ∧ g ≠ [] ∧
         sets.find? (fun s => s.name == some g) = some gs ∧
         res = (sets, prompts ++
           [{ id := md.id
              content := c
              metadata := { md with setId := some gs.id } }], n2)) ∨
       (∃ g gm, md.group = some g ∧ g ≠ [] ∧
         sets.find? (fun s => s.name == some g) = none ∧
         fm.groups = some gm ∧
         res = (sets ++
           [{ id := gen n2
              name := some g
              active := false
              collapsed :=
                (match glookup gm g with
                 | some gmd => gmd.collapsed.getD false
                 | none => false)
              created := now }],
           prompts ++
           [{ id := md.id
              content := c
              metadata := { md with setId := some (gen n2) } }],
           n2 + 1)))) := by
  unfold parseV10Seg at hres
  by_cases ht : trim seg = []
  · rw [if_pos ht] at hres
    injection hres with h
    exact Or.inl ⟨ht, h.symm⟩
  · rw [if_neg ht] at hres
    dsimp only [] at hres
    right
    refine ⟨ht, (v10SegMeta gen now seg n).1, (v10SegMeta gen now seg n).2.1,
      (v10SegMeta gen now seg n).2.2, rfl, ?_⟩
    cases hgr : (v10SegMeta gen now seg n).1.group with
    | none =>
      rw [hgr] at hres
      injection hres with h
      exact Or.inl ⟨Or.inl rfl, h.symm⟩
    | some g =>
      rw [hgr] at hres
      dsimp only [] at hres
      by_cases hge : g = []
      · subst hge
        rw [if_pos (show ([] : Str) = [] from rfl)] at hres
        injection hres with h
        exact Or.inl ⟨Or.inr rfl, h.symm⟩
      · rw [if_neg hge] at hres
        cases hfind : sets.find? (fun s => s.name == some g) with
        | some gs =>
          rw [hfind] at hres
          injection hres with h
          exact Or.inr (Or.inl ⟨g, gs, rfl, hge, hfind, h.symm⟩)
        | none =>
          rw [hfind] at hres
          cases hgm : fm.groups with
          | none => rw [hgm] at hres; exact absurd hres (by simp)
          | some gm =>
            rw [hgm] at hres
            injection hres with h
            exact Or.inr (Or.inr ⟨g, gm, rfl, hge, hfind, rfl, h.symm⟩)

theorem v10_foldl_none (gen : Nat → Str) (now : Str) (fm : FileMetadata)
    (dId : Str) (segs : List Str) :
    segs.foldl (v10Step gen now fm dId) none = none := by
  induction segs with
  | nil => rfl
  | cons s rest ih => exact ih

theorem v10_fold_prefix (gen : Nat → Str) (now : Str) (fm : FileMetadata)
    (dId : Str) (segs : List Str) :
    ∀ (st res : List PromptSet × List Prompt × Nat),
      segs.foldl (v10Step gen now fm dId) (some st) = some res →
      ∃ tail, res.2.1 = st.2.1 ++ tail := by
  induction segs with
  | nil =>
    intro st res hf
    injection hf with h
    exact ⟨[], by rw [← h]; simp⟩
  | cons seg rest ih =>
    intro st res hf
    rw [List.foldl_cons] at hf
    cases hstep : parseV10Seg gen now fm dId seg st.1 st.2.1 st.2.2 with
    | none =>
      rw [show v10Step gen now fm dId (some st) seg = none from by
        simp [v10Step, hstep]] at hf
      rw [v10_foldl_none] at hf
      exact absurd hf (by simp)
    | some st2 =>
      rw [show v10Step gen now fm dId (some st) seg = some st2 from by
        simp [v10Step, hstep]] at hf
      obtain ⟨tail2, ht2⟩ := ih st2 res hf
      rcases parseV10Seg_cases _ _ _ _ _ _ _ _ _ hstep with
        ⟨_, heq⟩ | ⟨_, md, c, n2, hsm, hbr⟩
      · rw [heq] at ht2
        exact ⟨tail2, ht2⟩
      · rcases hbr with ⟨_, heq⟩ | ⟨g, gs, _, _, _, heq⟩ |
          ⟨g, gm, _, _, _, _, heq⟩ <;>
        · rw [heq] at ht2
          dsimp only [] at ht2
          rw [List.append_assoc] at ht2
          exact ⟨_, ht2⟩

/-- The v1.0 fold when the resulting prompts carry no `group`: the set
list never grows, every new prompt is assigned the default set, and the
contents are the segment contents in order. -/
theorem v10_fold_nogroup (gen : Nat → Str) (now : Str) (fm : FileMetadata)
    (dId : Str) (segs : List Str) :
    ∀ (sets : List PromptSet) (prompts : List Prompt) (n : Nat)
      (res : List PromptSet × List Prompt × Nat),
      segs.foldl (v10Step gen now fm dId) (some (sets, prompts, n)) =
        some res →
      (∀ p ∈ res.2.1, p.metadata.group = none) →
      res.1 = sets ∧
      (∀ p ∈ res.2.1, p ∈ prompts ∨ p.metadata.setId = some dId) ∧
      res.2.1.map (fun p => p.content) =
        prompts.map (fun p => p.content) ++ segs.filterMap v10SegContent := by
  induction segs with
  | nil =>
    intro sets prompts n res hf hg
    injection hf with h
    rw [← h]
    exact ⟨rfl, fun p hp => Or.inl hp, by simp⟩
  | cons seg rest ih =>
    intro sets prompts n res hf hg
    rw [List.foldl_cons] at hf
    cases hstep : parseV10Seg gen now fm dId seg sets prompts n with
    | none =>
      rw [show v10Step gen now fm dId (some (sets, prompts, n)) seg = none
        from by simp [v10Step, hstep]] at hf
      rw [v10_foldl_none] at hf
      exact absurd hf (by simp)
    | some st2 =>
      have hf2 : rest.foldl (v10Step gen now fm dId) (some st2) = some res := by
        rwa [show v10Step gen now fm dId (some (sets, prompts, n)) seg =
          some st2 from by simp [v10Step, hstep]] at hf
      obtain ⟨tail2, htail⟩ := v10_fold_prefix gen now fm dId rest st2 res hf2
      rcases parseV10Seg_cases _ _ _ _ _ _ _ _ _ hstep with
        ⟨htrim, heq⟩ | ⟨htrim, md, c, n2, hsm, hbr⟩
      · rw [heq] at hf2
        obtain ⟨h1, h2, h3⟩ := ih sets prompts n res hf2 hg
        refine ⟨h1, h2, ?_⟩
        rw [h3, List.filterMap_cons, v10SegContent_none seg htrim]
      · have hcontent : v10SegContent seg = some c := by
          rw [v10SegContent_of_meta gen now seg n htrim, hsm]
        rcases hbr with ⟨hgf, heq⟩ | ⟨g, gs, hg1, hge, hfind, heq⟩ |
          ⟨g, gm, hg1, hge, hfind, hgm, heq⟩
        · rw [heq] at hf2
          obtain ⟨h1, h2, h3⟩ := ih sets
            (prompts ++
              [{ id := md.id
                 content := c
                 metadata := { md with setId := some dId } }]) n2 res hf2 hg
          refine ⟨h1, ?_, ?_⟩
          · intro p hp
            rcases h2 p hp with hmem | hid
            · rcases List.mem_append.mp hmem with hmm | hmm
              · exact Or.inl hmm
              · right
                rw [List.mem_singleton.mp hmm]
            · exact Or.inr hid
          · rw [h3, List.filterMap_cons, hcontent]
            simp
        · exfalso
          rw [heq] at htail
          dsimp only [] at htail
          have hmem :
              ({ id := md.id
                 content := c
                 metadata := { md with setId := some gs.id } } : Prompt) ∈
                res.2.1 := by
            rw [htail]
            exact List.mem_append_left _ (List.mem_append_right _ (by simp))
          have hnone := hg _ hmem
          rw [show ({ md with setId := some gs.id } :
            PromptMetadata).group = md.group from rfl, hg1] at hnone
          exact Option.noConfusion hnone
        · exfalso
          rw [heq] at htail
          dsimp only [] at htail
          have hmem :
              ({ id := md.id
                 content := c
                 metadata := { md with setId := some (gen n2) } } : Prompt) ∈
                res.2.1 := by
            rw [htail]
            exact List.mem_append_left _ (List.mem_append_right _ (by simp))
          have hnone := hg _ hmem
          rw [show ({ md with setId := some (gen n2) } :
            PromptMetadata).group = md.group from rfl, hg1] at hnone
          exact Option.noConfusion hnone

/-- **C5**: parsing a v1.0 file (no v2.0 heading pairs, no `<!-- set:`
marker, non-blank content) in which no resulting prompt carries a legacy
`group` yields exactly one set — the synthesized default, active — with
every prompt assigned to it, and the prompt contents are the non-blank
segment contents in original order. -/
theorem claim_C5_default_set (gen : Nat → Str) (n₀ : Nat) (now text : Str)
    (d : PromptDocument)
    (hp : parse gen n₀ now text = some d)
    (h1 : trim (strippedContent text) ≠ [])
    (h2 : detectV20Format (strippedContent text) = false)
    (h3 : includesList setMarker (strippedContent text) = false)
    (hg : ∀ p ∈ d.prompts, p.metadata.group = none) :
    ∃ s₀, d.sets = [s₀] ∧ s₀.active = true ∧
      (∀ p ∈ d.prompts, p.metadata.setId = some s₀.id) ∧
      d.prompts.map (fun p => p.content) =
        (splitSegments (strippedContent text)).filterMap v10SegContent := by
  unfold parse at hp
  rw [if_neg h1, if_neg (by simp [h2]), if_neg (by simp [h3])] at hp
  unfold parseV10Format at hp
  cases hfold : parseV10Fold gen n₀ now (strippedContent text)
      (parsedFileMeta text) with
  | none => rw [hfold] at hp; exact absurd hp (by simp)
  | some r =>
    rw [hfold] at hp
    simp only [Option.map] at hp
    injection hp with h
    subst h
    unfold parseV10Fold at hfold
    obtain ⟨hsets, hsetid, hcontent⟩ :=
      v10_fold_nogroup gen now (parsedFileMeta text) (gen n₀)
        (splitSegments (strippedContent text))
        [{ id := gen n₀, active := true, collapsed := false, created := now }]
        [] (n₀ + 1) r hfold (fun p hp => hg p hp)
    refine ⟨{ id := gen n₀
              active := true
              collapsed := false
              created := now }, ?_, rfl, ?_, ?_⟩
    · show ensureActiveSet r.1 = _
      rw [hsets]
      rfl
    · intro p hp2
      rcases hsetid p hp2 with hmem | hid
      · exact absurd hmem (List.not_mem_nil p)
      · exact hid
    · simpa using hcontent

theorem claim_C5_witness :
    ∃ s₀, dScen.sets = [s₀] ∧ s₀.active = true ∧
      (∀ p ∈ dScen.prompts, p.metadata.setId = some s₀.id) ∧
      dScen.prompts.map (fun p => p.content) =
        (splitSegments (strippedContent scenInput)).filterMap v10SegContent :=
  claim_C5_default_set wGen 0 wNow scenInput dScen (by decide) (by decide)
    (by decide) (by decide) (by decide)

theorem promptAssigned_mono (sets : List PromptSet) (x : PromptSet)
    (p : Prompt) (h : promptAssigned sets p) :
    promptAssigned (sets ++ [x]) p := by
  intro g hg hge
  obtain ⟨s, hs, hn, hi⟩ := h g hg hge
  exact ⟨s, List.mem_append_left _ hs, hn, hi⟩

theorem ensureActiveSet_cases (sets : List PromptSet) :
    ensureActiveSet sets = sets ∨
    ∃ s rest, sets = s :: rest ∧
      ensureActiveSet sets = { s with active := true } :: rest := by
  cases sets with
  | nil => exact Or.inl rfl
  | cons s rest =>
    simp only [ensureActiveSet]
    by_cases h : (s :: rest).any (·.active) = true
    · rw [if_pos h]; exact Or.inl rfl
    · rw [if_neg h]; exact Or.inr ⟨s, rest, rfl, rfl⟩

theorem ensureActiveSet_filter_name (sets : List PromptSet) (g : Str) :
    ((ensureActiveSet sets).filter (fun s => s.name == some g)).length =
      (sets.filter (fun s => s.name == some g)).length := by
  rcases ensureActiveSet_cases sets with h | ⟨s, rest, hs, h⟩
  · rw [h]
  · rw [h, hs]
    simp only [List.filter]
    rw [show ({ s with active := true } : PromptSet).name = s.name from rfl]
    cases s.name == some g <;> simp

theorem ensureActiveSet_exists_name (sets : List PromptSet) (g i : Str)
    (h : ∃ s ∈ sets, s.name = some g ∧ i = s.id) :
    ∃ s ∈ ensureActiveSet sets, s.name = some g ∧ i = s.id := by
  obtain ⟨s, hs, hn, hi⟩ := h
  rcases ensureActiveSet_cases sets with he | ⟨t, rest, hts, he⟩
  · exact ⟨s, by rw [he]; exact hs, hn, hi⟩
  · rw [hts] at hs
    rcases List.mem_cons.mp hs with rfl | hmem
    · exact ⟨{ s with active := true },
        by rw [he]; exact List.mem_cons_self _ _, hn, hi⟩
    · exact ⟨s, by rw [he]; exact List.mem_cons_of_mem _ hmem, hn, hi⟩

/-- The v1.0 fold when every resulting prompt carries a truthy `group`:
group-named sets stay unique and every prompt is assigned to the set
matching its group name. -/
theorem v10_fold_groups (gen : Nat → Str) (now : Str) (fm : FileMetadata)
    (dId : Str) (segs : List Str) :
    ∀ (sets : List PromptSet) (prompts : List Prompt) (n : Nat)
      (res : List PromptSet × List Prompt × Nat),
      segs.foldl (v10Step gen now fm dId) (some (sets, prompts, n)) =
        some res →
      (∀ p ∈ res.2.1, ∃ g, p.metadata.group = some g ∧ g ≠ []) →
      (∀ g : Str, (sets.filter (fun s => s.name == some g)).length ≤ 1) →
      (∀ p ∈ prompts, promptAssigned sets p) →
      (∀ g : Str, (res.1.filter (fun s => s.name == some g)).length ≤ 1) ∧
      (∀ p ∈ res.2.1, promptAssigned res.1 p) := by
  induction segs with
  | nil =>
    intro sets prompts n res hf hgg hinv hass
    injection hf with h
    rw [← h]
    exact ⟨hinv, hass⟩
  | cons seg rest ih =>
    intro sets prompts n res hf hgg hinv hass
    rw [List.foldl_cons] at hf
    cases hstep : parseV10Seg gen now fm dId seg sets prompts n with
    | none =>
      rw [show v10Step gen now fm dId (some (sets, prompts, n)) seg = none
        from by simp [v10Step, hstep]] at hf
      rw [v10_foldl_none] at hf
      exact absurd hf (by simp)
    | some st2 =>
      have hf2 : rest.foldl (v10Step gen now fm dId) (some st2) = some res := by
        rwa [show v10Step gen now fm dId (some (sets, prompts, n)) seg =
          some st2 from by simp [v10Step, hstep]] at hf
      obtain ⟨tail2, htail⟩ := v10_fold_prefix gen now fm dId rest st2 res hf2
      rcases parseV10Seg_cases _ _ _ _ _ _ _ _ _ hstep with
        ⟨htrim, heq⟩ | ⟨htrim, md, c, n2, hsm, hbr⟩
      · rw [heq] at hf2
        exact ih sets prompts n res hf2 hgg hinv hass
      · rcases hbr with ⟨hgf, heq⟩ | ⟨g, gs, hg1, hge, hfind, heq⟩ |
          ⟨g, gm, hg1, hge, hfind, hgm, heq⟩
        · -- a falsy group contradicts the all-groups hypothesis
          exfalso
          rw [heq] at htail
          dsimp only [] at htail
          have hmem :
              ({ id := md.id
                 content := c
                 metadata := { md with setId := some dId } } : Prompt) ∈
                res.2.1 := by
            rw [htail]
            exact List.mem_append_left _ (List.mem_append_right _ (by simp))
          obtain ⟨g, hgsome, hgne⟩ := hgg _ hmem
          rw [show ({ md with setId := some dId } :
            PromptMetadata).group = md.group from rfl] at hgsome
          rcases hgf with hnone | hemp
          · rw [hnone] at hgsome; exact Option.noConfusion hgsome
          · rw [hemp] at hgsome
            injection hgsome with hh
            exact hgne hh.symm
        · -- existing set with this group name
          rw [heq] at hf2
          have hgsmem := List.mem_of_find?_eq_some hfind
          have hgsname : gs.name = some g := by
            have := List.find?_some hfind
            simpa using this
          refine ih sets
            (prompts ++
              [{ id := md.id
                 content := c
                 metadata := { md with setId := some gs.id } }]) n2 res hf2
            hgg hinv ?_
          intro p hp
          rcases List.mem_append.mp hp with hmm | hmm
          · exact hass p hmm
          · rw [List.mem_singleton.mp hmm]
            intro g2 hg2 hge2
            rw [show ({ md with setId := some gs.id } :
              PromptMetadata).group = md.group from rfl, hg1] at hg2
            injection hg2 with hh
            subst hh
            exact ⟨gs, hgsmem, hgsname, rfl⟩
        · -- new set created for this group name
          rw [heq] at hf2
          have hnotthere : ∀ s ∈ sets, ¬(s.name == some g) = true := by
            intro s hs
            exact List.find?_eq_none.mp hfind s hs
          refine ih
            (sets ++
              [{ id := gen n2
                 name := some g
                 active := false
                 collapsed :=
                   (match glookup gm g with
                    | some gmd => gmd.collapsed.getD false
                    | none => false)
                 created := now }])
            (prompts ++
              [{ id := md.id
                 content := c
                 metadata := { md with setId := some (gen n2) } }]) (n2 + 1)
            res hf2 hgg ?_ ?_
          · intro g2
            rw [List.filter_append, List.length_append]
            by_cases hgg2 : g2 = g
            · subst hgg2
              have hzero : (sets.filter (fun s => s.name == some g2)) = [] :=
                List.filter_eq_nil_iff.mpr (fun s hs => hnotthere s hs)
              rw [hzero]
              simp
            · have hone : (List.filter (fun s => s.name == some g2)
                  ([{ id := gen n2
                      name := some g
                      active := false
                      collapsed :=
                        (match glookup gm g with
                         | some gmd => gmd.collapsed.getD false
                         | none => false)
                      created := now }] : List PromptSet)) = [] := by
                apply List.filter_eq_nil_iff.mpr
                intro s hs
                rw [List.mem_singleton.mp hs]
                simp only [beq_iff_eq, Option.some.injEq]
                exact fun hh => hgg2 hh.symm
              rw [hone]
              simpa using hinv g2
          · intro p hp
            rcases List.mem_append.mp hp with hmm | hmm
            · exact promptAssigned_mono _ _ _ (hass p hmm)
            · rw [List.mem_singleton.mp hmm]
              intro g2 hg2 hge2
              rw [show ({ md with setId := some (gen n2) } :
                PromptMetadata).group = md.group from rfl, hg1] at hg2
              injection hg2 with hh
              subst hh
              exact ⟨({ id := gen n2
                        name := some g
                        active := false
                        collapsed :=
                          (match glookup gm g with
                           | some gmd => gmd.collapsed.getD false
                           | none => false)
                        created := now } : PromptSet),
                List.mem_append_right _ (by simp), rfl, rfl⟩

/-- **C4**: parsing a v1.0 file in which every resulting prompt carries a
truthy legacy `group` yields exactly one set per distinct group name, and
every prompt's `setId` is the id of the set whose name is its group. -/
theorem claim_C4_group_migration (gen : Nat → Str) (n₀ : Nat)
    (now text : Str) (d : PromptDocument)
    (hp : parse gen n₀ now text = some d)
    (h1 : trim (strippedContent text) ≠ [])
    (h2 : detectV20Format (strippedContent text) = false)
    (h3 : includesList setMarker (strippedContent text) = false)
    (hg : ∀ p ∈ d.prompts, ∃ g, p.metadata.group = some g ∧ g ≠ []) :
    (∀ g, (∃ p ∈ d.prompts, p.metadata.group = some g) →
      (d.sets.filter (fun s => s.name == some g)).length = 1) ∧
    (∀ p ∈ d.prompts, ∃ s ∈ d.sets, s.name = p.metadata.group ∧
      p.metadata.setId = some s.id) := by
  unfold parse at hp
  rw [if_neg h1, if_neg (by simp [h2]), if_neg (by simp [h3])] at hp
  unfold parseV10Format at hp
  cases hfold : parseV10Fold gen n₀ now (strippedContent text)
      (parsedFileMeta text) with
  | none => rw [hfold] at hp; exact absurd hp (by simp)
  | some r =>
    rw [hfold] at hp
    simp only [Option.map] at hp
    injection hp with h
    subst h
    unfold parseV10Fold at hfold
    obtain ⟨hinv, hass⟩ :=
      v10_fold_groups gen now (parsedFileMeta text) (gen n₀)
        (splitSegments (strippedContent text))
        [{ id := gen n₀, active := true, collapsed := false, created := now }]
        [] (n₀ + 1) r hfold (fun p hp2 => hg p hp2)
        (fun g => by simp [List.filter])
        (fun p hp2 => absurd hp2 (List.not_mem_nil p))
    constructor
    · intro g ⟨p, hpmem, hpg⟩
      obtain ⟨g2, hg2, hge2⟩ := hg p hpmem
      have hgeq : g2 = g := by
        rw [hpg] at hg2; injection hg2 with hh; exact hh.symm
      subst hgeq
      obtain ⟨s, hs, hn, hi⟩ := hass p hpmem g2 hpg hge2
      show ((ensureActiveSet r.1).filter (fun s => s.name == some g2)).length
        = 1
      rw [ensureActiveSet_filter_name]
      refine Nat.le_antisymm (hinv g2) ?_
      have hsmem : s ∈ r.1.filter (fun s => s.name == some g2) :=
        List.mem_filter.mpr ⟨hs, by simp [hn]⟩
      exact List.length_pos_of_mem hsmem
    · intro p hpmem
      obtain ⟨g2, hg2, hge2⟩ := hg p hpmem
      obtain ⟨s, hs, hn, hi⟩ := hass p hpmem g2 hg2 hge2
      obtain ⟨s2, hs2, hn2, hi2⟩ :=
        ensureActiveSet_exists_name r.1 g2 s.id ⟨s, hs, hn, rfl⟩
      exact ⟨s2, hs2, by rw [hn2, hg2], by rw [hi, hi2]⟩

theorem partition_go_orphans (l : List Prompt) :
    ∀ acc : SetBuckets × List Prompt,
      (l.foldl
        (fun acc p =>
          match promptSetId p with
          | some sid => (pushSet acc.1 sid (sessionKey p) p, acc.2)
          | none => (acc.1, acc.2 ++ [p])) acc).2 =
      acc.2 ++ l.filter (fun p => (promptSetId p).isNone) := by
  induction l with
  | nil => intro acc; simp
  | cons p rest ih =>
    intro acc
    rw [List.foldl_cons]
    cases h : promptSetId p with
    | none =>
      dsimp only []
      rw [ih]
      simp [List.filter_cons, h]
    | some sid =>
      dsimp only []
      rw [ih]
      simp [List.filter_cons, h]

/-- The orphan list produced by the grouping loop is exactly the prompts
with a falsy `setId`, in order. -/
theorem partitionPrompts_orphans (l : List Prompt) :
    (partitionPrompts l).2 = l.filter (fun p => (promptSetId p).isNone) := by
  unfold partitionPrompts
  rw [partition_go_orphans l ([], [])]
  rfl

/-- **C7**: when the document holds a prompt with no `setId`, `serialize`
writes exactly one synthetic set after all of `document.sets`, active iff
`document.sets` is empty, and the post-mutation prompt array reassigns
every falsy-`setId` prompt to that set's id while leaving the others
untouched (pairwise, in order). -/
theorem claim_C7_orphan_set (gen : Nat → Str) (n₀ : Nat) (now : Str)
    (doc : PromptDocument) (p : Prompt)
    (hp : p ∈ doc.prompts) (hnone : p.metadata.setId = none) :
    (serializeCore gen n₀ now doc).setsToWrite =
      doc.sets ++
        [{ id := gen n₀
           active := doc.sets.isEmpty
           collapsed := false
           created := now }] ∧
    List.Forall₂
      (fun q q' =>
        ((promptSetId q).isSome → q' = q) ∧
        ((promptSetId q).isNone →
          q' = { q with metadata :=
                   { q.metadata with setId := some (gen n₀) } }))
      doc.prompts (serializeCore gen n₀ now doc).promptsAfter := by
  have hpn : promptSetId p = none := by
    unfold promptSetId orUndefined
    rw [hnone]
  have hne : (partitionPrompts doc.prompts).2.isEmpty = false := by
    rw [partitionPrompts_orphans]
    have hmem : p ∈ doc.prompts.filter (fun p => (promptSetId p).isNone) :=
      List.mem_filter.mpr ⟨hp, by rw [hpn]; rfl⟩
    cases hfil : doc.prompts.filter (fun p => (promptSetId p).isNone) with
    | nil => rw [hfil] at hmem; exact absurd hmem (List.not_mem_nil p)
    | cons a as => rfl
  unfold serializeCore
  simp only [hne, Bool.false_eq_true, if_false]
  refine ⟨trivial, ?_⟩
  rw [List.forall₂_map_right_iff]
  rw [List.forall₂_same]
  intro q _
  constructor
  · intro hs
    rw [if_pos hs]
  · intro hn
    rw [if_neg (by rw [Option.isNone_iff_eq_none.mp hn]; simp)]

theorem lookupBuckets_pushSet_ne (sid k : Str) (h : sid ≠ k) :
    ∀ (m : SetBuckets) (sk : Option Str) (p : Prompt),
      lookupBuckets (pushSet m sid sk p) k = lookupBuckets m k := by
  intro m
  induction m with
  | nil =>
    intro sk p
    unfold pushSet lookupBuckets
    rw [if_neg h]
    rfl
  | cons kv rest ih =>
    intro sk p
    obtain ⟨sid', sb⟩ := kv
    unfold pushSet
    by_cases h' : sid' = sid
    · rw [if_pos h']
      unfold lookupBuckets
      dsimp only []
      have hk' : sid' ≠ k := by rw [h']; exact h
      rw [if_neg hk', if_neg hk']
    · rw [if_neg h']
      unfold lookupBuckets
      dsimp only []
      by_cases h'' : sid' = k
      · rw [if_pos h'', if_pos h'']
      · rw [if_neg h'', if_neg h'', ih]

theorem partition_go_lookup (k : Str) :
    ∀ (l : List Prompt) (acc : SetBuckets × List Prompt),
      (∀ p ∈ l, promptSetId p ≠ some k) →
      lookupBuckets
        ((l.foldl
          (fun acc p =>
            match promptSetId p with
            | some sid => (pushSet acc.1 sid (sessionKey p) p, acc.2)
            | none => (acc.1, acc.2 ++ [p])) acc).1) k =
      lookupBuckets acc.1 k := by
  intro l
  induction l with
  | nil => intro acc _; rfl
  | cons p rest ih =>
    intro acc hl
    rw [List.foldl_cons]
    cases h : promptSetId p with
    | none =>
      dsimp only []
      exact ih _ (fun q hq => hl q (List.mem_cons_of_mem p hq))
    | some sid =>
      dsimp only []
      rw [ih _ (fun q hq => hl q (List.mem_cons_of_mem p hq))]
      apply lookupBuckets_pushSet_ne
      intro hc
      exact hl p (List.mem_cons_self p rest) (hc ▸ h)

/-- The bucket map built by the grouping loop has no entry for a set id
that no prompt's truthy `setId` names. -/
theorem partitionPrompts_lookup_none (l : List Prompt) (k : Str)
    (h : ∀ p ∈ l, promptSetId p ≠ some k) :
    lookupBuckets (partitionPrompts l).1 k = none := by
  unfold partitionPrompts
  rw [partition_go_lookup k l ([], []) h]
  rfl

theorem lookup_orphan_fold (dId k : Str) (hk : dId ≠ k) :
    ∀ (l : List Prompt) (m : SetBuckets),
      lookupBuckets
        (l.foldl
          (fun m p => pushSet m dId none
            { p with metadata := { p.metadata with setId := some dId } })
          m) k =
      lookupBuckets m k := by
  intro l
  induction l with
  | nil => intro m; rfl
  | cons p rest ih =>
    intro m
    rw [List.foldl_cons, ih, lookupBuckets_pushSet_ne dId k hk]

/-- **C6**: a set of the document to which no prompt refers via `setId`
contributes nothing to the output — its loop iteration is skipped before
any heading or metadata comment is produced (provided the synthesized
orphan-set id is fresh, as `nanoid` guarantees). -/
theorem claim_C6_empty_set_skipped (gen : Nat → Str) (n₀ : Nat) (now : Str)
    (doc : PromptDocument) (s : PromptSet)
    (hs : s ∈ doc.sets)
    (hnp : ∀ p ∈ doc.prompts, p.metadata.setId ≠ some s.id)
    (hfresh : gen n₀ ≠ s.id) :
    setBlockElements (serializeCore gen n₀ now doc).buckets doc.sessions s =
      none := by
  have hnp2 : ∀ p ∈ doc.prompts, promptSetId p ≠ some s.id := by
    intro p hp hc
    unfold promptSetId orUndefined at hc
    cases hm : p.metadata.setId with
    | none => rw [hm] at hc; exact Option.noConfusion hc
    | some x =>
      rw [hm] at hc
      dsimp only [] at hc
      by_cases hx : x = []
      · rw [if_pos hx] at hc; exact Option.noConfusion hc
      · rw [if_neg hx] at hc
        injection hc with hxe
        exact hnp p hp (hxe ▸ hm)
  have hlook : lookupBuckets (serializeCore gen n₀ now doc).buckets s.id =
      none := by
    by_cases he : (partitionPrompts doc.prompts).2.isEmpty = true
    · unfold serializeCore
      simp only [he, if_true]
      exact partitionPrompts_lookup_none doc.prompts s.id hnp2
    · rw [Bool.not_eq_true] at he
      unfold serializeCore
      simp only [he, Bool.false_eq_true, if_false]
      rw [lookup_orphan_fold (gen n₀) s.id hfresh]
      exact partitionPrompts_lookup_none doc.prompts s.id hnp2
  unfold setBlockElements
  rw [hlook]

theorem claim_C6_witness :
    setBlockElements (serializeCore wGen 0 wNow docEmptySet).buckets
      docEmptySet.sessions
      { id := "s2".toList
        name := some "Spare".toList
        active := false
        collapsed := false
        created := ['T'] } = none :=
  claim_C6_empty_set_skipped wGen 0 wNow docEmptySet
    { id := "s2".toList
      name := some "Spare".toList
      active := false
      collapsed := false
      created := ['T'] }
    (by decide) (by decide) (by decide)

theorem claim_C7_witness :
    (serializeCore wGen 0 wNow docOrphan).setsToWrite =
      docOrphan.sets ++
        [{ id := wGen 0
           active := docOrphan.sets.isEmpty
           collapsed := false
           created := wNow }] ∧
    List.Forall₂
      (fun q q' =>
        ((promptSetId q).isSome → q' = q) ∧
        ((promptSetId q).isNone →
          q' = { q with metadata :=
                   { q.metadata with setId := some (wGen 0) } }))
      docOrphan.prompts (serializeCore wGen 0 wNow docOrphan).promptsAfter :=
  claim_C7_orphan_set wGen 0 wNow docOrphan
    { id := "p2".toList
      content := "B".toList
      metadata := { id := "p2".toList } }
    (by decide) (by decide)

theorem claim_C4_witness :
    (∀ g, (∃ p ∈ dGroups.prompts, p.metadata.group = some g) →
      (dGroups.sets.filter (fun s => s.name == some g)).length = 1) ∧
    (∀ p ∈ dGroups.prompts, ∃ s ∈ dGroups.sets,
      s.name = p.metadata.group ∧ p.metadata.setId = some s.id) :=
  claim_C4_group_migration wGen 0 wNow groupsInput dGroups (by decide)
    (by decide) (by decide) (by decide) (by decide)

theorem mem_pushSession (sk' sk : Option Str) (r q : Prompt) :
    ∀ sb : SessionBuckets,
      q ∈ (lookupSession (pushSession sb sk' r) sk).getD [] →
      q ∈ (lookupSession sb sk).getD [] ∨ (q = r ∧ sk = sk') := by
  intro sb
  induction sb with
  | nil =>
    intro h
    unfold pushSession lookupSession at h
    dsimp only [] at h
    by_cases hks : sk' = sk
    · rw [if_pos hks] at h
      simp only [Option.getD_some] at h
      rw [List.mem_singleton.mp h]
      exact Or.inr ⟨rfl, hks.symm⟩
    · rw [if_neg hks] at h
      exact absurd h (by simp [lookupSession])
  | cons kv rest ih =>
    intro h
    obtain ⟨k0, ps⟩ := kv
    unfold pushSession at h
    by_cases h0 : k0 = sk'
    · rw [if_pos h0] at h
      unfold lookupSession at h ⊢
      dsimp only [] at h ⊢
      by_cases hks : k0 = sk
      · rw [if_pos hks] at h ⊢
        simp only [Option.getD_some] at h ⊢
        rcases List.mem_append.mp h with hm | hm
        · exact Or.inl hm
        · rw [List.mem_singleton.mp hm]
          exact Or.inr ⟨rfl, hks ▸ h0⟩
      · rw [if_neg hks] at h ⊢
        exact Or.inl h
    · rw [if_neg h0] at h
      unfold lookupSession at h ⊢
      dsimp only [] at h ⊢
      by_cases hks : k0 = sk
      · rw [if_pos hks] at h ⊢
        exact Or.inl h
      · rw [if_neg hks] at h ⊢
        exact ih h

theorem mem_getSess_pushSet (key' key : Str) (sk' sk : Option Str)
    (r q : Prompt) :
    ∀ m : SetBuckets,
      q ∈ getSess (pushSet m key' sk' r) key sk →
      q ∈ getSess m key sk ∨ (q = r ∧ key = key' ∧ sk = sk') := by
  intro m
  induction m with
  | nil =>
    intro h
    unfold pushSet getSess lookupBuckets at h
    dsimp only [] at h
    by_cases hk : key' = key
    · rw [if_pos hk] at h
      simp only [Option.getD_some] at h
      unfold lookupSession at h
      dsimp only [] at h
      by_cases hs : sk' = sk
      · rw [if_pos hs] at h
        simp only [Option.getD_some] at h
        rw [List.mem_singleton.mp h]
        exact Or.inr ⟨rfl, hk.symm, hs.symm⟩
      · rw [if_neg hs] at h
        exact absurd h (by simp [lookupSession])
    · rw [if_neg hk] at h
      exact absurd h (by simp [lookupSession])
  | cons kv rest ih =>
    intro h
    obtain ⟨k0, sb⟩ := kv
    unfold pushSet at h
    by_cases h0 : k0 = key'
    · rw [if_pos h0] at h
      unfold getSess lookupBuckets at h ⊢
      dsimp only [] at h ⊢
      by_cases hk : k0 = key
      · rw [if_pos hk] at h ⊢
        simp only [Option.getD_some] at h ⊢
        rcases mem_pushSession sk' sk r q sb h with hm | ⟨hq, hs⟩
        · exact Or.inl hm
        · exact Or.inr ⟨hq, (hk ▸ h0 : key = key').symm ▸ rfl, hs⟩
      · rw [if_neg hk] at h ⊢
        exact Or.inl h
    · rw [if_neg h0] at h
      unfold getSess lookupBuckets at h ⊢
      dsimp only [] at h ⊢
      by_cases hk : k0 = key
      · rw [if_pos hk] at h ⊢
        exact Or.inl h
      · rw [if_neg hk] at h ⊢
        exact ih h

theorem getSess_partition_fold (key : Str) (sk : Option Str) (q : Prompt) :
    ∀ (l : List Prompt) (acc : SetBuckets × List Prompt),
      q ∈ getSess
        ((l.foldl
          (fun acc p =>
            match promptSetId p with
            | some sid => (pushSet acc.1 sid (sessionKey p) p, acc.2)
            | none => (acc.1, acc.2 ++ [p])) acc).1) key sk →
      q ∈ getSess acc.1 key sk ∨
        (q ∈ l ∧ promptSetId q = some key ∧ sessionKey q = sk) := by
  intro l
  induction l with
  | nil => intro acc h; exact Or.inl h
  | cons p rest ih =>
    intro acc h
    rw [List.foldl_cons] at h
    cases hps : promptSetId p with
    | none =>
      rw [hps] at h
      dsimp only [] at h
      rcases ih _ h with hm | ⟨hq, h1, h2⟩
      · exact Or.inl hm
      · exact Or.inr ⟨List.mem_cons_of_mem p hq, h1, h2⟩
    | some sid =>
      rw [hps] at h
      dsimp only [] at h
      rcases ih _ h with hm | ⟨hq, h1, h2⟩
      · rcases mem_getSess_pushSet sid key (sessionKey p) sk p q acc.1 hm
          with hm2 | ⟨hq, h1, h2⟩
        · exact Or.inl hm2
        · refine Or.inr ⟨?_, ?_, ?_⟩
          · rw [hq]; exact List.mem_cons_self p rest
          · rw [hq, hps, h1]
          · rw [hq, h2]
      · exact Or.inr ⟨List.mem_cons_of_mem p hq, h1, h2⟩

theorem getSess_orphan_fold (dId key : Str) (sk : Option Str) (q : Prompt) :
    ∀ (l : List Prompt) (m : SetBuckets),
      q ∈ getSess
        (l.foldl
          (fun m p => pushSet m dId none
            { p with metadata := { p.metadata with setId := some dId } })
          m) key sk →
      q ∈ getSess m key sk ∨ q.metadata.setId = some dId := by
  intro l
  induction l with
  | nil => intro m h; exact Or.inl h
  | cons p rest ih =>
    intro m h
    rw [List.foldl_cons] at h
    rcases ih _ h with hm | hq
    · rcases mem_getSess_pushSet dId key none sk _ q m hm with
        hm2 | ⟨hq, _, _⟩
      · exact Or.inl hm2
      · right
        rw [hq]
    · exact Or.inr hq

/-- **C10**: a prompt whose truthy `setId`/`sessionId` pair is matched by
no session of the document is never read back out of the buckets: every
session-prompt list the emission loop can consult — the null key of any
set block, or a session id attached to that set — excludes it, so neither
its heading nor its metadata comment nor its content is emitted (under
the `nanoid`-freshness assumption on the synthesized orphan-set id). -/
theorem claim_C10_ghost_prompt (gen : Nat → Str) (n₀ : Nat) (now : Str)
    (doc : PromptDocument) (p : Prompt) (sid k : Str)
    (hp : p ∈ doc.prompts)
    (hsid : p.metadata.setId = some sid) (hsidne : sid ≠ [])
    (hk : p.metadata.sessionId = some k) (hkne : k ≠ [])
    (hfresh : gen n₀ ≠ sid)
    (hno : ∀ s ∈ doc.sessions, ¬(s.id = k ∧ s.setId = sid))
    (set : PromptSet) (sid? : Option Str)
    (hread : sid? = none ∨
      ∃ s ∈ doc.sessions, sid? = some s.id ∧ s.setId = set.id) :
    p ∉ getSess (serializeCore gen n₀ now doc).buckets set.id sid? := by
  intro hmem
  have hpsid : promptSetId p = some sid := by
    unfold promptSetId orUndefined
    rw [hsid]
    dsimp only []
    rw [if_neg hsidne]
  have hpk : sessionKey p = some k := by
    unfold sessionKey orUndefined
    rw [hk]
    dsimp only []
    rw [if_neg hkne]
  have hpart : p ∈ getSess (partitionPrompts doc.prompts).1 set.id sid? := by
    by_cases he : (partitionPrompts doc.prompts).2.isEmpty = true
    · unfold serializeCore at hmem
      simp only [he, if_true] at hmem
      exact hmem
    · rw [Bool.not_eq_true] at he
      unfold serializeCore at hmem
      simp only [he, Bool.false_eq_true, if_false] at hmem
      rcases getSess_orphan_fold (gen n₀) set.id sid? p _ _ hmem with hm | hq
      · exact hm
      · rw [hsid] at hq
        injection hq with hq2
        exact (hfresh hq2.symm).elim
  unfold partitionPrompts at hpart
  rcases getSess_partition_fold set.id sid? p doc.prompts ([], []) hpart with
    hm | ⟨_, h1, h2⟩
  · exact absurd hm (by simp [getSess, lookupBuckets, lookupSession])
  · rw [hpsid] at h1
    injection h1 with h1
    rw [hpk] at h2
    rcases hread with rfl | ⟨s, hsmem, hseq, hsset⟩
    · exact Option.noConfusion h2
    · rw [hseq] at h2
      injection h2 with h2
      exact hno s hsmem ⟨h2.symm, hsset.trans h1.symm⟩

theorem claim_C10_witness :
    ghostPrompt ∉ getSess (serializeCore wGen 0 wNow docGhost).buckets
      "s1".toList (some "k1".toList) :=
  claim_C10_ghost_prompt wGen 0 wNow docGhost ghostPrompt
    "s1".toList "kx".toList (by decide) (by decide) (by decide) (by decide)
    (by decide) (by decide) (by decide)
    { id := "s1".toList
      name := some "Main".toList
      active := true
      collapsed := false
      created := ['T'] }
    (some "k1".toList) (by decide)

/-! ### C1: scanner lemmas -/

theorem mem_dropWhile_of_neg {α : Type} (p : α → Bool) (x : α)
    (hx : p x = false) : ∀ l : List α, x ∈ l → x ∈ l.dropWhile p := by
  intro l
  induction l with
  | nil => intro h; exact absurd h (List.not_mem_nil x)
  | cons a as ih =>
    intro h
    rw [List.dropWhile_cons]
    by_cases ha : p a = true
    · rw [if_pos ha]
      rcases List.mem_cons.mp h with rfl | hmem
      · rw [hx] at ha; exact absurd ha (by simp)
      · exact ih hmem
    · rw [if_neg ha]
      exact h

theorem arrowEnd_eq_false_of_mem (s : Str) (h : '}' ∈ s) :
    arrowEnd s = false := by
  have h2 : '}' ∈ s.dropWhile isWS :=
    mem_dropWhile_of_neg isWS '}' (by decide) s h
  unfold arrowEnd
  split
  · rename_i heq
    rw [heq] at h2
    exact absurd h2 (by decide)
  · rfl

theorem lazyObjCapture_run (mid : Str) :
    ∀ acc : Str,
      lazyObjCapture acc
        (mid ++ '}' :: ' ' :: '-' :: '-' :: '>' :: []) =
      some (acc.reverse ++ mid ++ ['}']) := by
  induction mid with
  | nil =>
    intro acc
    show lazyObjCapture acc ('}' :: ' ' :: '-' :: '-' :: '>' :: []) = _
    unfold lazyObjCapture
    rw [if_pos rfl,
      if_pos (by decide : arrowEnd (' ' :: '-' :: '-' :: '>' :: []) = true)]
    simp
  | cons c mid ih =>
    intro acc
    show lazyObjCapture acc
      (c :: (mid ++ '}' :: ' ' :: '-' :: '-' :: '>' :: [])) = _
    unfold lazyObjCapture
    by_cases hc : c = '}'
    · subst hc
      rw [if_pos rfl]
      rw [if_neg (by
        rw [arrowEnd_eq_false_of_mem]
        · simp
        · exact List.mem_append_right mid (by simp))]
      rw [ih ('}' :: acc)]
      simp
    · rw [if_neg hc, ih (c :: acc)]
      simp

theorem matchMetaLine_stringify (fields : List (Str × JVal)) :
    matchMetaLine ("<!-- ".toList ++ jsonStringify fields ++ " -->".toList) =
      some (jsonStringify fields) := by
  have h1 : "<!-- ".toList = '<' :: '!' :: '-' :: '-' :: ' ' :: [] := rfl
  have h2 : " -->".toList = ' ' :: '-' :: '-' :: '>' :: [] := rfl
  have hj : jsonStringify fields = '{' :: (jfieldsToStr fields ++ ['}']) := rfl
  rw [h1, h2, hj]
  simp only [List.cons_append, List.nil_append, List.append_assoc]
  show (match List.dropWhile isWS
      (' ' :: '{' :: (jfieldsToStr fields ++ ['}', ' ', '-', '-', '>'])) with
    | '{' :: r2 => lazyObjCapture ['{'] r2
    | _ => none) = some ('{' :: (jfieldsToStr fields ++ ['}']))
  rw [List.dropWhile_cons]
  rw [if_pos (by decide : isWS ' ' = true)]
  rw [List.dropWhile_cons]
  rw [if_neg (by decide : ¬isWS '{' = true)]
  show lazyObjCapture ['{']
    (jfieldsToStr fields ++ ['}', ' ', '-', '-', '>']) = _
  rw [show (jfieldsToStr fields ++ ['}', ' ', '-', '-', '>']) =
      jfieldsToStr fields ++ '}' :: ' ' :: '-' :: '-' :: '>' :: []
    from rfl]
  rw [lazyObjCapture_run (jfieldsToStr fields) ['{']]
  simp

theorem matchFileMeta_header (t : Str) :
    matchFileMeta
      ("<!-- prompt-canvas: \x7b\"version\":\"2.0\"\x7d -->\n".toList ++ t) =
    some ("\x7b\"version\":\"2.0\"\x7d".toList, '\n' :: t) := rfl

/-! ### C1: JSON stringify/parse round-trip -/

theorem escape_cons (c : Char) (s : Str) :
    escape (c :: s) = escChar c ++ escape s := by
  unfold escape
  rw [List.map_cons, List.flatten_cons]

theorem parseStringBody_escape (s : Str) :
    ∀ r : Str, parseStringBody (escape s ++ '"' :: r) = some (s, r) := by
  induction s with
  | nil =>
    intro r
    show parseStringBody ('"' :: r) = _
    unfold parseStringBody
    rw [if_pos rfl]
  | cons c s ih =>
    intro r
    rw [escape_cons]
    by_cases h1 : c = '"'
    · subst h1
      show parseStringBody ('\\' :: '"' :: (escape s ++ '"' :: r)) = _
      unfold parseStringBody
      rw [if_neg (by decide), if_pos rfl]
      dsimp only []
      rw [show unescChar '"' = some '"' from rfl, ih r]
    · by_cases h2 : c = '\\'
      · subst h2
        show parseStringBody ('\\' :: '\\' :: (escape s ++ '"' :: r)) = _
        unfold parseStringBody
        rw [if_neg (by decide), if_pos rfl]
        dsimp only []
        rw [show unescChar '\\' = some '\\' from rfl, ih r]
      · by_cases h3 : c = '\n'
        · subst h3
          show parseStringBody ('\\' :: 'n' :: (escape s ++ '"' :: r)) = _
          unfold parseStringBody
          rw [if_neg (by decide), if_pos rfl]
          dsimp only []
          rw [show unescChar 'n' = some '\n' from rfl, ih r]
        · by_cases h4 : c = '\t'
          · subst h4
            show parseStringBody ('\\' :: 't' :: (escape s ++ '"' :: r)) = _
            unfold parseStringBody
            rw [if_neg (by decide), if_pos rfl]
            dsimp only []
            rw [show unescChar 't' = some '\t' from rfl, ih r]
          · by_cases h5 : c = '\r'
            · subst h5
              show parseStringBody ('\\' :: 'r' :: (escape s ++ '"' :: r)) = _
              unfold parseStringBody
              rw [if_neg (by decide), if_pos rfl]
              dsimp only []
              rw [show unescChar 'r' = some '\r' from rfl, ih r]
            · rw [show escChar c = [c] from by
                unfold escChar
                rw [if_neg h1, if_neg h2, if_neg h3, if_neg h4, if_neg h5]]
              show parseStringBody (c :: (escape s ++ '"' :: r)) = _
              unfold parseStringBody
              rw [if_neg h1, if_neg h2, ih r]

theorem dropWhile_isWS_cons (c : Char) (hc : isWS c = false) (s : Str) :
    (c :: s).dropWhile isWS = c :: s := by
  rw [List.dropWhile_cons, if_neg (by rw [hc]; simp)]

theorem parseValue_flat (v : JVal) (hv : flatVal v = true) (fuel : Nat)
    (r : Str) : parseValue (fuel + 1) (jvalToStr v ++ r) = some (v, r) := by
  cases v with
  | jstr s =>
    unfold parseValue
    rw [show (jvalToStr (.jstr s) ++ r).dropWhile isWS =
        '"' :: (escape s ++ '"' :: r) from by
      rw [show jvalToStr (.jstr s) ++ r = '"' :: (escape s ++ '"' :: r) from by
        show quoteStr s ++ r = _
        unfold quoteStr
        simp]
      exact dropWhile_isWS_cons '"' (by decide) _]
    show (parseStringBody (escape s ++ '"' :: r)).map
      (fun p => (JVal.jstr p.1, p.2)) = some (.jstr s, r)
    rw [parseStringBody_escape s r]
    rfl
  | jbool b =>
    cases b with
    | true =>
      unfold parseValue
      rw [show (jvalToStr (.jbool true) ++ r).dropWhile isWS =
          't' :: 'r' :: 'u' :: 'e' :: r from by
        rw [show jvalToStr (.jbool true) ++ r =
          't' :: 'r' :: 'u' :: 'e' :: r from rfl]
        exact dropWhile_isWS_cons 't' (by decide) _]
      rfl
    | false =>
      unfold parseValue
      rw [show (jvalToStr (.jbool false) ++ r).dropWhile isWS =
          'f' :: 'a' :: 'l' :: 's' :: 'e' :: r from by
        rw [show jvalToStr (.jbool false) ++ r =
          'f' :: 'a' :: 'l' :: 's' :: 'e' :: r from rfl]
        exact dropWhile_isWS_cons 'f' (by decide) _]
      rfl
  | jnum n => exact absurd hv (by simp [flatVal])
  | jnull => exact absurd hv (by simp [flatVal])
  | jobj o => exact absurd hv (by simp [flatVal])

theorem parseFields_stringify (fields : List (Str × JVal))
    (hflat : ∀ kv ∈ fields, flatVal kv.2 = true) :
    ∀ (fuel : Nat) (r : Str) (b : Bool),
      fields.length + 1 ≤ fuel → (b = true ∨ fields ≠ []) →
      parseFields fuel (jfieldsToStr fields ++ '}' :: r) b =
        some (fields, r) := by
  induction fields with
  | nil =>
    intro fuel r b hfuel hb
    rcases hb with rfl | hne
    · cases fuel with
      | zero => omega
      | succ f =>
        show parseFields (f + 1) ('}' :: r) true = _
        unfold parseFields
        rw [dropWhile_isWS_cons '}' (by decide) r]
        rfl
    · exact absurd rfl hne
  | cons kv rest ih =>
    intro fuel r b hfuel _
    obtain ⟨k, v⟩ := kv
    have hvflat : flatVal v = true := hflat (k, v) (List.mem_cons_self _ _)
    cases fuel with
    | zero => simp only [List.length_cons] at hfuel; omega
    | succ f =>
    have hf1 : ∃ g, f = g + 1 := by
      cases f with
      | zero => simp only [List.length_cons] at hfuel; omega
      | succ g => exact ⟨g, rfl⟩
    obtain ⟨g, rfl⟩ := hf1
    cases rest with
    | nil =>
      rw [show jfieldsToStr [(k, v)] ++ '}' :: r =
          '"' :: (escape k ++ '"' :: (':' :: (jvalToStr v ++ '}' :: r)))
        from by
        show (quoteStr k ++ ':' :: jvalToStr v) ++ '}' :: r = _
        unfold quoteStr
        simp]
      cases b <;>
      · show (match parseStringBody
            (escape k ++ '"' :: (':' :: (jvalToStr v ++ '}' :: r))) with
          | none => none
          | some (k2, r1) =>
            match r1.dropWhile isWS with
            | ':' :: r3 =>
              match parseValue (g + 1) r3 with
              | none => none
              | some (v2, r4) =>
                match r4.dropWhile isWS with
                | ',' :: r6 =>
                  (parseFields (g + 1) r6 false).map fun p =>
                    ((k2, v2) :: p.1, p.2)
                | '}' :: r6 => some ([(k2, v2)], r6)
                | _ => none
            | _ => none) = some ([(k, v)], r)
        rw [parseStringBody_escape k]
        show (match parseValue (g + 1) (jvalToStr v ++ '}' :: r) with
          | none => none
          | some (v2, r4) =>
            match r4.dropWhile isWS with
            | ',' :: r6 =>
              (parseFields (g + 1) r6 false).map fun p =>
                ((k, v2) :: p.1, p.2)
            | '}' :: r6 => some ([(k, v2)], r6)
            | _ => none) = some ([(k, v)], r)
        rw [parseValue_flat v hvflat g ('}' :: r)]
        rfl
    | cons kv2 rest2 =>
      rw [show jfieldsToStr ((k, v) :: kv2 :: rest2) ++ '}' :: r =
          '"' :: (escape k ++ '"' :: (':' :: (jvalToStr v ++
            ',' :: (jfieldsToStr (kv2 :: rest2) ++ '}' :: r)))) from by
        show (quoteStr k ++ ':' :: jvalToStr v ++
          ',' :: jfieldsToStr (kv2 :: rest2)) ++ '}' :: r = _
        unfold quoteStr
        simp]
      cases b <;>
      · show (match parseStringBody
            (escape k ++ '"' :: (':' :: (jvalToStr v ++
              ',' :: (jfieldsToStr (kv2 :: rest2) ++ '}' :: r)))) with
          | none => none
          | some (k2, r1) =>
            match r1.dropWhile isWS with
            | ':' :: r3 =>
              match parseValue (g + 1) r3 with
              | none => none
              | some (v2, r4) =>
                match r4.dropWhile isWS with
                | ',' :: r6 =>
                  (parseFields (g + 1) r6 false).map fun p =>
                    ((k2, v2) :: p.1, p.2)
                | '}' :: r6 => some ([(k2, v2)], r6)
                | _ => none
            | _ => none) = some ((k, v) :: kv2 :: rest2, r)
        rw [parseStringBody_escape k]
        show (match parseValue (g + 1) (jvalToStr v ++
            ',' :: (jfieldsToStr (kv2 :: rest2) ++ '}' :: r)) with
          | none => none
          | some (v2, r4) =>
            match r4.dropWhile isWS with
            | ',' :: r6 =>
              (parseFields (g + 1) r6 false).map fun p =>
                ((k, v2) :: p.1, p.2)
            | '}' :: r6 => some ([(k, v2)], r6)
            | _ => none) = some ((k, v) :: kv2 :: rest2, r)
        rw [parseValue_flat v hvflat g
          (',' :: (jfieldsToStr (kv2 :: rest2) ++ '}' :: r))]
        show (parseFields (g + 1) (jfieldsToStr (kv2 :: rest2) ++ '}' :: r)
            false).map (fun p => ((k, v) :: p.1, p.2)) =
          some ((k, v) :: kv2 :: rest2, r)
        rw [ih (fun kv h => hflat kv (List.mem_cons_of_mem _ h)) (g + 1) r
          false (by simp only [List.length_cons] at hfuel ⊢; omega)
          (Or.inr (by simp))]
        rfl

theorem jfieldsToStr_len (fields : List (Str × JVal)) :
    fields.length ≤ (jfieldsToStr fields).length + 1 := by
  induction fields with
  | nil => simp
  | cons kv rest ih =>
    obtain ⟨k, v⟩ := kv
    cases rest with
    | nil => simp
    | cons kv2 rest2 =>
      rw [show jfieldsToStr ((k, v) :: kv2 :: rest2) =
        quoteStr k ++ ':' :: jvalToStr v ++
          ',' :: jfieldsToStr (kv2 :: rest2) from rfl]
      simp only [List.length_cons, List.length_append] at ih ⊢
      omega

theorem parseValue_stringify (fields : List (Str × JVal))
    (hflat : ∀ kv ∈ fields, flatVal kv.2 = true) (fuel : Nat)
    (hfuel : fields.length + 1 ≤ fuel) (r : Str) :
    parseValue (fuel + 1) (jsonStringify fields ++ r) =
      some (.jobj fields, r) := by
  unfold parseValue
  rw [show (jsonStringify fields ++ r).dropWhile isWS =
      '{' :: (jfieldsToStr fields ++ '}' :: r) from by
    rw [show jsonStringify fields ++ r =
        '{' :: (jfieldsToStr fields ++ '}' :: r) from by
      show ('{' :: (jfieldsToStr fields ++ ['}'])) ++ r = _
      simp]
    exact dropWhile_isWS_cons '{' (by decide) _]
  show (parseFields fuel (jfieldsToStr fields ++ '}' :: r) true).map
    (fun p => (JVal.jobj p.1, p.2)) = some (.jobj fields, r)
  rw [parseFields_stringify fields hflat fuel r true hfuel (Or.inl rfl)]
  rfl

theorem jsonParseObj_stringify (fields : List (Str × JVal))
    (hflat : ∀ kv ∈ fields, flatVal kv.2 = true) :
    jsonParseObj (jsonStringify fields) = some fields := by
  have hlen : fields.length + 1 ≤ (jsonStringify fields).length := by
    have h2 : (jsonStringify fields).length =
        (jfieldsToStr fields).length + 2 := by
      show ('{' :: (jfieldsToStr fields ++ ['}'])).length = _
      simp
    have := jfieldsToStr_len fields
    omega
  have hpv : parseValue ((jsonStringify fields).length + 1)
      (jsonStringify fields) = some (.jobj fields, []) := by
    nth_rewrite 2 [show jsonStringify fields = jsonStringify fields ++ []
      from (List.append_nil _).symm]
    exact parseValue_stringify fields hflat (jsonStringify fields).length
      hlen []
  unfold jsonParseObj jsonParse
  rw [hpv]
  rfl

theorem truthyStrField_flat (k : Str) (v : Option Str) :
    ∀ kv ∈ truthyStrField k v, flatVal kv.2 = true := by
  intro kv hkv
  unfold truthyStrField at hkv
  cases v with
  | none => exact absurd hkv (List.not_mem_nil kv)
  | some s =>
    dsimp only [] at hkv
    by_cases hs : s = []
    · rw [if_pos hs] at hkv
      exact absurd hkv (List.not_mem_nil kv)
    · rw [if_neg hs] at hkv
      rw [List.mem_singleton.mp hkv]
      rfl

theorem setMetaFields_flat (s : PromptSet) :
    ∀ kv ∈ setMetaFields s, flatVal kv.2 = true := by
  intro kv hkv
  unfold setMetaFields at hkv
  rcases List.mem_append.mp hkv with h | h
  · rcases List.mem_append.mp h with h | h
    · rcases List.mem_append.mp h with h | h
      · rcases List.mem_cons.mp h with rfl | h2
        · rfl
        · rw [List.mem_singleton.mp h2]
          rfl
      · cases hc : s.collapsed
        · rw [hc] at h
          exact absurd h (by simp)
        · rw [hc] at h
          simp only [if_true] at h
          rw [List.mem_singleton.mp h]
          rfl
    · exact truthyStrField_flat _ _ kv h
  · exact truthyStrField_flat _ _ kv h

theorem sessionMetaFields_flat (s : Session) :
    ∀ kv ∈ sessionMetaFields s, flatVal kv.2 = true := by
  intro kv hkv
  unfold sessionMetaFields at hkv
  rcases List.mem_append.mp hkv with h | h
  · rw [List.mem_singleton.mp h]
    rfl
  · cases hc : s.collapsed.getD false
    · rw [hc] at h
      exact absurd h (by simp)
    · rw [hc] at h
      simp only [if_true] at h
      rw [List.mem_singleton.mp h]
      rfl

theorem promptMetaFields_flat (p : Prompt) :
    ∀ kv ∈ promptMetaFields p, flatVal kv.2 = true := by
  intro kv hkv
  unfold promptMetaFields at hkv
  rcases List.mem_append.mp hkv with h | h
  swap
  · exact truthyStrField_flat _ _ kv h
  rcases List.mem_append.mp h with h | h
  swap
  · exact truthyStrField_flat _ _ kv h
  rcases List.mem_append.mp h with h | h
  swap
  · exact truthyStrField_flat _ _ kv h
  rcases List.mem_append.mp h with h | h
  swap
  · exact truthyStrField_flat _ _ kv h
  rcases List.mem_append.mp h with h | h
  swap
  · exact truthyStrField_flat _ _ kv h
  rcases List.mem_append.mp h with h | h
  swap
  · exact truthyStrField_flat _ _ kv h
  rcases List.mem_append.mp h with h | h
  swap
  · exact truthyStrField_flat _ _ kv h
  rcases List.mem_append.mp h with h | h
  · rw [List.mem_singleton.mp h]
    rfl
  · cases hst : p.metadata.status with
    | none =>
      rw [hst] at h
      exact absurd h (by simp)
    | some st =>
      rw [hst] at h
      rw [List.mem_singleton.mp h]
      rfl

theorem metaLookahead_stringify (fields : List (Str × JVal))
    (hflat : ∀ kv ∈ fields, flatVal kv.2 = true) (rest : List Str) :
    metaLookahead (metaCommentLine fields :: rest) = (fields, rest) := by
  unfold metaLookahead metaCommentLine
  dsimp only []
  rw [matchMetaLine_stringify fields]
  dsimp only []
  rw [jsonParseObj_stringify fields hflat]

/-! ### C1: line algebra and heading classification -/

theorem dropWhile_isWS_of_trim (nm : Str) (h : trim nm = nm) :
    nm.dropWhile isWS = nm := by
  have hsuf : nm.dropWhile isWS <:+ nm := List.dropWhile_suffix isWS
  have h1 : (trimLeft nm).length ≤ nm.length := hsuf.length_le
  have h2 : (trim nm).length ≤ (trimLeft nm).length := by
    unfold trim trimRight
    have h3 : (trimLeft nm).reverse.dropWhile isWS <:+ (trimLeft nm).reverse :=
      List.dropWhile_suffix isWS
    have h4 := h3.length_le
    simp only [List.length_reverse] at h4 ⊢
    exact h4
  rw [h] at h2
  exact hsuf.eq_of_length (Nat.le_antisymm h1 h2)

theorem trim_cons_head (c : Char) (hc : isWS c = false) (x : Str) :
    ∃ y, trim (c :: x) = c :: y := by
  unfold trim trimLeft trimRight
  rw [List.dropWhile_cons, if_neg (by rw [hc]; simp)]
  rw [List.reverse_cons, List.dropWhile_append]
  by_cases he : (x.reverse.dropWhile isWS).isEmpty
  · rw [if_pos he]
    refine ⟨[], ?_⟩
    rw [List.dropWhile_cons, if_neg (by rw [hc]; simp)]
    rfl
  · rw [if_neg he]
    cases hrd : x.reverse.dropWhile isWS with
    | nil => rw [hrd] at he; simp at he
    | cons a as =>
      exact ⟨as.reverse ++ [a], by simp⟩

theorem sep_trim_false (c : Char) (hc : isWS c = false)
    (hd : (c == '-') = false) (x : Str) :
    isSeparatorLine (trim (c :: x)) = false := by
  obtain ⟨y, hy⟩ := trim_cons_head c hc x
  rw [hy]
  unfold isSeparatorLine
  rw [List.all_cons, hd]
  simp

theorem joinlines_singleton (l : Str) : joinlines [l] = l := rfl

theorem joinlines_append (A B : List Str) (hA : A ≠ []) (hB : B ≠ []) :
    joinlines (A ++ B) = joinlines A ++ '\n' :: joinlines B := by
  induction A with
  | nil => exact absurd rfl hA
  | cons a as ih =>
    cases as with
    | nil =>
      cases B with
      | nil => exact absurd rfl hB
      | cons b bs =>
        show joinlines (a :: b :: bs) = joinlines [a] ++ '\n' :: joinlines (b :: bs)
        rw [joinlines_cons_cons, joinlines_singleton]
    | cons a2 as2 =>
      show a ++ '\n' :: joinlines ((a2 :: as2) ++ B) =
        (a ++ '\n' :: joinlines (a2 :: as2)) ++ '\n' :: joinlines B
      rw [ih (by simp)]
      simp

theorem sepNN_ne_nil (Ls : List (List Str)) (hne : Ls ≠ [])
    (h : ∀ L ∈ Ls, L ≠ []) : sepNN Ls ≠ [] := by
  cases Ls with
  | nil => exact absurd rfl hne
  | cons l ls =>
    cases ls with
    | nil => exact h l (by simp)
    | cons l2 ls2 =>
      show l ++ [] :: sepNN (l2 :: ls2) ≠ []
      simp

theorem joinNN_map (Ls : List (List Str)) (h : ∀ L ∈ Ls, L ≠ []) :
    joinNN (Ls.map joinlines) = joinlines (sepNN Ls) := by
  induction Ls with
  | nil => rfl
  | cons l ls ih =>
    cases ls with
    | nil => rfl
    | cons l2 ls2 =>
      show joinlines l ++ '\n' :: '\n' ::
          joinNN (joinlines l2 :: (ls2.map joinlines)) =
        joinlines (sepNN (l :: l2 :: ls2))
      rw [← List.map_cons]
      rw [ih (fun L hL => h L (List.mem_cons_of_mem _ hL))]
      show _ = joinlines (l ++ [] :: sepNN (l2 :: ls2))
      rw [joinlines_append l ([] :: sepNN (l2 :: ls2))
        (h l (by simp)) (by simp)]
      have hsep : sepNN (l2 :: ls2) ≠ [] :=
        sepNN_ne_nil _ (by simp) (fun L hL => h L (List.mem_cons_of_mem _ hL))
      cases hs : sepNN (l2 :: ls2) with
      | nil => exact absurd hs hsep
      | cons m ms =>
        rw [joinlines_cons_cons]
        simp

theorem mem_sepNN (Ls : List (List Str)) (l : Str) (h : l ∈ sepNN Ls) :
    l = [] ∨ ∃ L ∈ Ls, l ∈ L := by
  induction Ls with
  | nil => exact absurd h (by simp [sepNN])
  | cons a as ih =>
    cases as with
    | nil => exact Or.inr ⟨a, by simp, h⟩
    | cons a2 as2 =>
      rw [show sepNN (a :: a2 :: as2) = a ++ [] :: sepNN (a2 :: as2)
        from rfl] at h
      rcases List.mem_append.mp h with hm | hm
      · exact Or.inr ⟨a, by simp, hm⟩
      · rcases List.mem_cons.mp hm with rfl | hm2
        · exact Or.inl rfl
        · rcases ih hm2 with he | ⟨L, hL, hmem⟩
          · exact Or.inl he
          · exact Or.inr ⟨L, List.mem_cons_of_mem _ hL, hmem⟩

theorem promptPart_eq (p : Prompt) :
    promptPart p = joinlines (promptLines p) := by
  unfold promptPart promptLines promptHeadLine metaCommentLine
  by_cases hc : p.content = []
  · rw [if_pos hc, if_pos hc]
    simp [joinlines_cons_cons, joinlines_singleton]
  · rw [if_neg hc, if_neg hc]
    rw [joinlines_append [_, _]
      (splitlines (promoteContentHeadings p.content))
      (by simp) (splitlines_ne_nil _)]
    rw [joinlines_splitlines]
    simp [joinlines_cons_cons, joinlines_singleton]

/-! ### C1: heading line classification -/

theorem matchH1_setHead (nm : Str) :
    matchH1 ('#' :: ' ' :: nm) = some (some (nm.dropWhile isWS)) := rfl

theorem matchH2_setHead (nm : Str) : matchH2 ('#' :: ' ' :: nm) = none := rfl

theorem matchH3_setHead (nm : Str) : matchH3 ('#' :: ' ' :: nm) = none := rfl

theorem matchH1_sessHead (nm : Str) :
    matchH1 ('#' :: '#' :: ' ' :: nm) = none := rfl

theorem matchH2_sessHead (nm : Str) :
    matchH2 ('#' :: '#' :: ' ' :: nm) = some (some (nm.dropWhile isWS)) := rfl

theorem matchH3_sessHead (nm : Str) :
    matchH3 ('#' :: '#' :: ' ' :: nm) = none := rfl

theorem matchH1_promptHead (nm : Str) :
    matchH1 ('#' :: '#' :: '#' :: ' ' :: nm) = none := rfl

theorem matchH2_promptHead (nm : Str) :
    matchH2 ('#' :: '#' :: '#' :: ' ' :: nm) = none := rfl

theorem matchH3_promptHead (nm : Str) :
    matchH3 ('#' :: '#' :: '#' :: ' ' :: nm) =
      some (some (nm.dropWhile isWS)) := rfl

theorem matchH1_meta (fields : List (Str × JVal)) :
    matchH1 (metaCommentLine fields) = none := rfl

theorem matchH2_meta (fields : List (Str × JVal)) :
    matchH2 (metaCommentLine fields) = none := rfl

theorem matchH3_meta (fields : List (Str × JVal)) :
    matchH3 (metaCommentLine fields) = none := rfl

theorem headingName_safe (nm : Option Str) (h : lineSafeName nm) :
    headingName (some ((nm.getD []).dropWhile isWS)) = nm := by
  cases nm with
  | none =>
    show headingName (some (List.dropWhile isWS [])) = none
    rfl
  | some s =>
    obtain ⟨hne, htr, _⟩ := h
    show headingName (some (s.dropWhile isWS)) = some s
    rw [dropWhile_isWS_of_trim s htr]
    unfold headingName
    dsimp only []
    rw [htr, if_neg hne]

/-! ### C1: metadata field lookups -/

theorem jlookup_go (k : Str) (l : List (Str × JVal)) :
    ∀ acc : Option JVal,
      l.foldl (fun acc kv => if kv.1 = k then some kv.2 else acc) acc =
      match jlookup l k with
      | some v => some v
      | none => acc := by
  induction l with
  | nil => intro acc; rfl
  | cons kv rest ih =>
    intro acc
    rw [List.foldl_cons]
    by_cases hk : kv.1 = k
    · rw [if_pos hk, ih (some kv.2)]
      rw [show jlookup (kv :: rest) k =
        rest.foldl (fun acc kv => if kv.1 = k then some kv.2 else acc)
          (some kv.2) from by
        unfold jlookup
        rw [List.foldl_cons, if_pos hk]]
      rw [ih (some kv.2)]
      cases jlookup rest k <;> rfl
    · rw [if_neg hk, ih acc]
      rw [show jlookup (kv :: rest) k = jlookup rest k from by
        unfold jlookup
        rw [List.foldl_cons, if_neg hk]]

theorem jlookup_append (a b : List (Str × JVal)) (k : Str) :
    jlookup (a ++ b) k =
      match jlookup b k with
      | some v => some v
      | none => jlookup a k := by
  unfold jlookup
  rw [List.foldl_append]
  exact jlookup_go k b _

theorem jlookup_none_of_keys (l : List (Str × JVal)) (k : Str)
    (h : ∀ kv ∈ l, kv.1 ≠ k) : jlookup l k = none := by
  induction l with
  | nil => rfl
  | cons kv rest ih =>
    rw [show jlookup (kv :: rest) k = jlookup rest k from by
      unfold jlookup
      rw [List.foldl_cons, if_neg (h kv (List.mem_cons_self _ _))]]
    exact ih (fun kv2 h2 => h kv2 (List.mem_cons_of_mem _ h2))

theorem truthyStrField_keys (k : Str) (v : Option Str) :
    ∀ kv ∈ truthyStrField k v, kv.1 = k := by
  intro kv hkv
  unfold truthyStrField at hkv
  cases v with
  | none => exact absurd hkv (List.not_mem_nil kv)
  | some s =>
    dsimp only [] at hkv
    by_cases hs : s = []
    · rw [if_pos hs] at hkv
      exact absurd hkv (List.not_mem_nil kv)
    · rw [if_neg hs] at hkv
      rw [List.mem_singleton.mp hkv]

theorem collapsedSeg_keys (b : Bool) :
    ∀ kv ∈ (if b = true then [("collapsed".toList, JVal.jbool true)]
      else ([] : List (Str × JVal))), kv.1 = "collapsed".toList := by
  intro kv hkv
  cases b
  · simp only [Bool.false_eq_true, if_false] at hkv
    exact absurd hkv (List.not_mem_nil kv)
  · simp only [if_true] at hkv
    rw [List.mem_singleton.mp hkv]

theorem setMeta_id (s : PromptSet) (h : s.id ≠ []) (d : Str) :
    getStrOr (setMetaFields s) "id".toList d = s.id := by
  unfold getStrOr setMetaFields
  rw [jlookup_append]
  rw [jlookup_none_of_keys _ _ (fun kv hkv => by
    rw [truthyStrField_keys _ _ kv hkv]; decide)]
  dsimp only []
  rw [jlookup_append]
  rw [jlookup_none_of_keys _ _ (fun kv hkv => by
    rw [truthyStrField_keys _ _ kv hkv]; decide)]
  dsimp only []
  rw [jlookup_append]
  rw [jlookup_none_of_keys _ _ (fun kv hkv => by
    rw [collapsedSeg_keys s.collapsed kv hkv]; decide)]
  dsimp only []
  rw [show jlookup [("id".toList, JVal.jstr s.id),
      ("active".toList, JVal.jbool s.active)] "id".toList =
    some (JVal.jstr s.id) from rfl]
  dsimp only []
  rw [if_neg h]

theorem setMeta_active (s : PromptSet) (d : Bool) :
    getBoolOr (setMetaFields s) "active".toList d = s.active := by
  unfold getBoolOr setMetaFields
  rw [jlookup_append]
  rw [jlookup_none_of_keys _ _ (fun kv hkv => by
    rw [truthyStrField_keys _ _ kv hkv]; decide)]
  dsimp only []
  rw [jlookup_append]
  rw [jlookup_none_of_keys _ _ (fun kv hkv => by
    rw [truthyStrField_keys _ _ kv hkv]; decide)]
  dsimp only []
  rw [jlookup_append]
  rw [jlookup_none_of_keys _ _ (fun kv hkv => by
    rw [collapsedSeg_keys s.collapsed kv hkv]; decide)]
  dsimp only []
  rw [show jlookup [("id".toList, JVal.jstr s.id),
      ("active".toList, JVal.jbool s.active)] "active".toList =
    some (JVal.jbool s.active) from rfl]
  rfl

theorem setMeta_collapsed (s : PromptSet) :
    getBoolOr (setMetaFields s) "collapsed".toList false = s.collapsed := by
  unfold getBoolOr setMetaFields
  rw [jlookup_append]
  rw [jlookup_none_of_keys _ _ (fun kv hkv => by
    rw [truthyStrField_keys _ _ kv hkv]; decide)]
  dsimp only []
  rw [jlookup_append]
  rw [jlookup_none_of_keys _ _ (fun kv hkv => by
    rw [truthyStrField_keys _ _ kv hkv]; decide)]
  dsimp only []
  rw [jlookup_append]
  cases hc : s.collapsed
  · rw [show (if false = true then [("collapsed".toList, JVal.jbool true)]
      else ([] : List (Str × JVal))) = [] from by simp]
    rw [show jlookup ([] : List (Str × JVal)) "collapsed".toList = none
      from rfl]
    dsimp only []
    rw [show jlookup [("id".toList, JVal.jstr s.id),
        ("active".toList, JVal.jbool s.active)] "collapsed".toList = none
      from rfl]
  · rw [show (if true = true then [("collapsed".toList, JVal.jbool true)]
      else ([] : List (Str × JVal))) =
      [("collapsed".toList, JVal.jbool true)] from by simp]
    rw [show jlookup [("collapsed".toList, JVal.jbool true)]
        "collapsed".toList = some (JVal.jbool true) from rfl]
    rfl

theorem promptMeta_strip (p : Prompt) (k : Str)
    (hk1 : k ≠ "created".toList) (hk2 : k ≠ "updated".toList)
    (hk3 : k ≠ "folderLink".toList) (hk4 : k ≠ "claudeSessionId".toList)
    (hk5 : k ≠ "claudeMessageId".toList) (hk6 : k ≠ "executedAt".toList)
    (hk7 : k ≠ "responsePreview".toList) :
    jlookup (promptMetaFields p) k =
      jlookup ([("id".toList, JVal.jstr p.id)] ++
        (match p.metadata.status with
         | some st => [("status".toList, JVal.jstr st)]
         | none => [])) k := by
  unfold promptMetaFields
  rw [jlookup_append,
    jlookup_none_of_keys _ _ (fun kv hkv => by
      rw [truthyStrField_keys _ _ kv hkv]
      exact fun hh => hk7 hh.symm)]
  dsimp only []
  rw [jlookup_append,
    jlookup_none_of_keys _ _ (fun kv hkv => by
      rw [truthyStrField_keys _ _ kv hkv]
      exact fun hh => hk6 hh.symm)]
  dsimp only []
  rw [jlookup_append,
    jlookup_none_of_keys _ _ (fun kv hkv => by
      rw [truthyStrField_keys _ _ kv hkv]
      exact fun hh => hk5 hh.symm)]
  dsimp only []
  rw [jlookup_append,
    jlookup_none_of_keys _ _ (fun kv hkv => by
      rw [truthyStrField_keys _ _ kv hkv]
      exact fun hh => hk4 hh.symm)]
  dsimp only []
  rw [jlookup_append,
    jlookup_none_of_keys _ _ (fun kv hkv => by
      rw [truthyStrField_keys _ _ kv hkv]
      exact fun hh => hk3 hh.symm)]
  dsimp only []
  rw [jlookup_append,
    jlookup_none_of_keys _ _ (fun kv hkv => by
      rw [truthyStrField_keys _ _ kv hkv]
      exact fun hh => hk2 hh.symm)]
  dsimp only []
  rw [jlookup_append,
    jlookup_none_of_keys _ _ (fun kv hkv => by
      rw [truthyStrField_keys _ _ kv hkv]
      exact fun hh => hk1 hh.symm)]

theorem promptMeta_id (p : Prompt) (h : p.id ≠ []) (d : Str) :
    getStrOr (promptMetaFields p) "id".toList d = p.id := by
  unfold getStrOr
  rw [promptMeta_strip p _ (by decide) (by decide) (by decide) (by decide)
    (by decide) (by decide) (by decide)]
  rw [jlookup_append]
  cases hst : p.metadata.status with
  | none =>
    rw [show jlookup (match (none : Option Str) with
      | some st => [("status".toList, JVal.jstr st)]
      | none => []) "id".toList = none from rfl]
    dsimp only []
    rw [show jlookup [("id".toList, JVal.jstr p.id)] "id".toList =
      some (JVal.jstr p.id) from rfl]
    dsimp only []
    rw [if_neg h]
  | some st =>
    rw [show jlookup (match (some st : Option Str) with
      | some st => [("status".toList, JVal.jstr st)]
      | none => []) "id".toList = none from rfl]
    dsimp only []
    rw [show jlookup [("id".toList, JVal.jstr p.id)] "id".toList =
      some (JVal.jstr p.id) from rfl]
    dsimp only []
    rw [if_neg h]

theorem promptMeta_status (p : Prompt) (st : Str)
    (hst : p.metadata.status = some st) (h : st ≠ []) (d : Str) :
    getStrOr (promptMetaFields p) "status".toList d = st := by
  unfold getStrOr
  rw [promptMeta_strip p _ (by decide) (by decide) (by decide) (by decide)
    (by decide) (by decide) (by decide)]
  rw [jlookup_append, hst]
  rw [show jlookup (match (some st : Option Str) with
    | some st => [("status".toList, JVal.jstr st)]
    | none => []) "status".toList = some (JVal.jstr st) from rfl]
  dsimp only []
  rw [if_neg h]


/-! ### C1: the grouping loop on a canonical document -/

theorem pushSession_eqn (k0 : Option Str) (ps : List Prompt)
    (rest : SessionBuckets) (sk : Option Str) (p : Prompt) :
    pushSession ((k0, ps) :: rest) sk p =
      if k0 = sk then (k0, ps ++ [p]) :: rest
      else (k0, ps) :: pushSession rest sk p := rfl

theorem pushSet_eqn (k0 : Str) (sb : SessionBuckets) (rest : SetBuckets)
    (sid : Str) (sk : Option Str) (p : Prompt) :
    pushSet ((k0, sb) :: rest) sid sk p =
      if k0 = sid then (k0, pushSession sb sk p) :: rest
      else (k0, sb) :: pushSet rest sid sk p := rfl

theorem pushSession_new (sb : SessionBuckets) (sk : Option Str) (p : Prompt)
    (h : ∀ kv ∈ sb, kv.1 ≠ sk) :
    pushSession sb sk p = sb ++ [(sk, [p])] := by
  induction sb with
  | nil => rfl
  | cons kv rest ih =>
    obtain ⟨k0, ps⟩ := kv
    rw [pushSession_eqn, if_neg (h (k0, ps) (List.mem_cons_self _ _)),
      ih (fun kv h2 => h kv (List.mem_cons_of_mem _ h2))]
    rfl

theorem pushSession_last (sb0 : SessionBuckets) (sk : Option Str)
    (ps0 : List Prompt) (p : Prompt) (h : ∀ kv ∈ sb0, kv.1 ≠ sk) :
    pushSession (sb0 ++ [(sk, ps0)]) sk p = sb0 ++ [(sk, ps0 ++ [p])] := by
  induction sb0 with
  | nil =>
    show pushSession [(sk, ps0)] sk p = _
    rw [pushSession_eqn, if_pos rfl]
    rfl
  | cons kv rest ih =>
    obtain ⟨k0, ps⟩ := kv
    show pushSession ((k0, ps) :: (rest ++ [(sk, ps0)])) sk p = _
    rw [pushSession_eqn, if_neg (h (k0, ps) (List.mem_cons_self _ _)),
      ih (fun kv h2 => h kv (List.mem_cons_of_mem _ h2))]
    rfl

theorem pushSet_new (m : SetBuckets) (sid : Str) (sk : Option Str)
    (p : Prompt) (h : ∀ kv ∈ m, kv.1 ≠ sid) :
    pushSet m sid sk p = m ++ [(sid, [(sk, [p])])] := by
  induction m with
  | nil => rfl
  | cons kv rest ih =>
    obtain ⟨k0, sb⟩ := kv
    rw [pushSet_eqn, if_neg (h (k0, sb) (List.mem_cons_self _ _)),
      ih (fun kv h2 => h kv (List.mem_cons_of_mem _ h2))]
    rfl

theorem pushSet_last (m0 : SetBuckets) (sid : Str) (sb : SessionBuckets)
    (sk : Option Str) (p : Prompt) (h : ∀ kv ∈ m0, kv.1 ≠ sid) :
    pushSet (m0 ++ [(sid, sb)]) sid sk p =
      m0 ++ [(sid, pushSession sb sk p)] := by
  induction m0 with
  | nil =>
    show pushSet [(sid, sb)] sid sk p = _
    rw [pushSet_eqn, if_pos rfl]
    rfl
  | cons kv rest ih =>
    obtain ⟨k0, sb0⟩ := kv
    show pushSet ((k0, sb0) :: (rest ++ [(sid, sb)])) sid sk p = _
    rw [pushSet_eqn, if_neg (h (k0, sb0) (List.mem_cons_self _ _)),
      ih (fun kv h2 => h kv (List.mem_cons_of_mem _ h2))]
    rfl

theorem canon_fold_prompts (sid : Str) (sk : Option Str) :
    ∀ (ps : List Prompt) (m0 : SetBuckets) (sb0 : SessionBuckets)
      (ps0 o : List Prompt),
      (∀ kv ∈ m0, kv.1 ≠ sid) → (∀ kv ∈ sb0, kv.1 ≠ sk) →
      (∀ p ∈ ps, promptSetId p = some sid ∧ sessionKey p = sk) →
      ps.foldl
        (fun acc p =>
          match promptSetId p with
          | some sid => (pushSet acc.1 sid (sessionKey p) p, acc.2)
          | none => (acc.1, acc.2 ++ [p]))
        (m0 ++ [(sid, sb0 ++ [(sk, ps0)])], o) =
      (m0 ++ [(sid, sb0 ++ [(sk, ps0 ++ ps)])], o) := by
  intro ps
  induction ps with
  | nil => intro m0 sb0 ps0 o _ _ _; simp
  | cons p ps ih =>
    intro m0 sb0 ps0 o hm hsb hps
    rw [List.foldl_cons]
    obtain ⟨h1, h2⟩ := hps p (List.mem_cons_self _ _)
    rw [h1]
    dsimp only []
    rw [h2]
    rw [pushSet_last m0 sid _ sk p hm, pushSession_last sb0 sk ps0 p hsb]
    rw [ih m0 sb0 (ps0 ++ [p]) o hm hsb
      (fun q hq => hps q (List.mem_cons_of_mem _ hq))]
    simp

theorem canon_fold_groups (sid : Str) :
    ∀ (gs : List CanonGroup) (m0 : SetBuckets) (sb0 : SessionBuckets)
      (o : List Prompt),
      (∀ kv ∈ m0, kv.1 ≠ sid) →
      (∀ g ∈ gs, ∀ kv ∈ sb0, kv.1 ≠ groupKey g) →
      (gs.map groupKey).Nodup →
      (∀ g ∈ gs, g.prompts ≠ [] ∧
        ∀ p ∈ g.prompts, promptSetId p = some sid ∧
          sessionKey p = groupKey g) →
      ((gs.map (·.prompts)).flatten).foldl
        (fun acc p =>
          match promptSetId p with
          | some sid => (pushSet acc.1 sid (sessionKey p) p, acc.2)
          | none => (acc.1, acc.2 ++ [p]))
        (m0 ++ [(sid, sb0)], o) =
      (m0 ++ [(sid, sb0 ++ gs.map (fun g => (groupKey g, g.prompts)))], o) := by
  intro gs
  induction gs with
  | nil => intro m0 sb0 o _ _ _ _; simp
  | cons g gs ih =>
    intro m0 sb0 o hm hsb hnd hgs
    rw [List.map_cons, List.flatten_cons, List.foldl_append]
    obtain ⟨hgne, hgp⟩ := hgs g (List.mem_cons_self _ _)
    cases hgp2 : g.prompts with
    | nil => exact absurd hgp2 hgne
    | cons p ps =>
      rw [List.foldl_cons]
      obtain ⟨h1, h2⟩ := hgp p (hgp2 ▸ List.mem_cons_self _ _)
      rw [h1]
      dsimp only []
      rw [h2]
      rw [pushSet_last m0 sid sb0 (groupKey g) p hm]
      rw [pushSession_new sb0 (groupKey g) p
        (hsb g (List.mem_cons_self _ _))]
      rw [canon_fold_prompts sid (groupKey g) ps m0 sb0 [p] o hm
        (hsb g (List.mem_cons_self _ _))
        (fun q hq => hgp q (hgp2 ▸ List.mem_cons_of_mem _ hq))]
      rw [show ([p] ++ ps : List Prompt) = p :: ps from rfl, ← hgp2]
      rw [ih m0 (sb0 ++ [(groupKey g, g.prompts)]) o hm
        (fun g2 hg2 kv hkv => by
          rcases List.mem_append.mp hkv with hkv2 | hkv2
          · exact hsb g2 (List.mem_cons_of_mem _ hg2) kv hkv2
          · rw [List.mem_singleton.mp hkv2]
            intro hcon
            rw [List.map_cons, List.nodup_cons] at hnd
            exact hnd.1 (by
              rw [show groupKey g = groupKey g2 from hcon]
              exact List.mem_map_of_mem groupKey hg2))
        (by rw [List.map_cons, List.nodup_cons] at hnd; exact hnd.2)
        (fun g2 hg2 => hgs g2 (List.mem_cons_of_mem _ hg2))]
      simp

theorem canon_fold_blocks :
    ∀ (bs : List CanonBlock) (M : SetBuckets) (o : List Prompt),
      (∀ b ∈ bs, ∀ kv ∈ M, kv.1 ≠ b.set.id) →
      (bs.map (·.set.id)).Nodup →
      (∀ b ∈ bs, b.groups ≠ [] ∧ (b.groups.map groupKey).Nodup ∧
        ∀ g ∈ b.groups, g.prompts ≠ [] ∧
          ∀ p ∈ g.prompts, promptSetId p = some b.set.id ∧
            sessionKey p = groupKey g) →
      (canonPrompts bs).foldl
        (fun acc p =>
          match promptSetId p with
          | some sid => (pushSet acc.1 sid (sessionKey p) p, acc.2)
          | none => (acc.1, acc.2 ++ [p]))
        (M, o) =
      (M ++ canonBuckets bs, o) := by
  intro bs
  induction bs with
  | nil => intro M o _ _ _; simp [canonPrompts, canonBuckets]
  | cons b bs ih =>
    intro M o hM hnd hbs
    obtain ⟨hgne, hgnd, hgs⟩ := hbs b (List.mem_cons_self _ _)
    rw [show canonPrompts (b :: bs) =
      (b.groups.map (·.prompts)).flatten ++ canonPrompts bs from by
      unfold canonPrompts
      rw [List.map_cons, List.flatten_cons]]
    rw [List.foldl_append]
    cases hgg : b.groups with
    | nil => exact absurd hgg hgne
    | cons g gs =>
      rw [List.map_cons, List.flatten_cons]
      obtain ⟨hpne, hpp⟩ := hgs g (hgg ▸ List.mem_cons_self _ _)
      cases hps : g.prompts with
      | nil => exact absurd hps hpne
      | cons p ps =>
        rw [List.foldl_append, List.foldl_cons]
        obtain ⟨h1, h2⟩ := hpp p (hps ▸ List.mem_cons_self _ _)
        rw [h1]
        dsimp only []
        rw [h2]
        rw [pushSet_new M b.set.id (groupKey g) p
          (fun kv hkv => hM b (List.mem_cons_self _ _) kv hkv)]
        rw [show ([(groupKey g, [p])] : SessionBuckets) =
          [] ++ [(groupKey g, [p])] from rfl]
        rw [canon_fold_prompts b.set.id (groupKey g) ps M [] [p] o
          (fun kv hkv => hM b (List.mem_cons_self _ _) kv hkv)
          (fun kv hkv => absurd hkv (List.not_mem_nil kv))
          (fun q hq => hpp q (hps ▸ List.mem_cons_of_mem _ hq))]
        rw [show ([p] ++ ps : List Prompt) = p :: ps from rfl, ← hps]
        rw [show (([] : SessionBuckets) ++ [(groupKey g, g.prompts)]) =
          [(groupKey g, g.prompts)] from rfl]
        rw [canon_fold_groups b.set.id gs M [(groupKey g, g.prompts)] o
          (fun kv hkv => hM b (List.mem_cons_self _ _) kv hkv)
          (fun g2 hg2 kv hkv => by
            rw [List.mem_singleton.mp hkv]
            intro hcon
            rw [hgg, List.map_cons, List.nodup_cons] at hgnd
            exact hgnd.1 (by
              rw [show groupKey g = groupKey g2 from hcon]
              exact List.mem_map_of_mem groupKey hg2))
          (by rw [hgg, List.map_cons, List.nodup_cons] at hgnd
              exact hgnd.2)
          (fun g2 hg2 => hgs g2 (hgg ▸ List.mem_cons_of_mem _ hg2))]
        rw [ih (M ++ [(b.set.id,
            [(groupKey g, g.prompts)] ++
              gs.map (fun g => (groupKey g, g.prompts)))]) o
          (fun b2 hb2 kv hkv => by
            rcases List.mem_append.mp hkv with hkv2 | hkv2
            · exact hM b2 (List.mem_cons_of_mem _ hb2) kv hkv2
            · rw [List.mem_singleton.mp hkv2]
              intro hcon
              rw [List.map_cons, List.nodup_cons] at hnd
              exact hnd.1 (by
                rw [show b.set.id = b2.set.id from hcon]
                exact List.mem_map_of_mem (fun b => b.set.id) hb2))
          (by rw [List.map_cons, List.nodup_cons] at hnd; exact hnd.2)
          (fun b2 hb2 => hbs b2 (List.mem_cons_of_mem _ hb2))]
        rw [show canonBuckets (b :: bs) =
          (b.set.id, b.groups.map (fun g => (groupKey g, g.prompts))) ::
            canonBuckets bs from rfl]
        rw [hgg, List.map_cons]
        simp


theorem promptSetId_canon (p : Prompt) (sid : Str)
    (hsid : p.metadata.setId = some sid) (hne : sid ≠ []) :
    promptSetId p = some sid := by
  unfold promptSetId orUndefined
  rw [hsid]
  dsimp only []
  rw [if_neg hne]

/-- The grouping loop rebuilds exactly the per-set, per-session buckets of
a canonical document, with no orphans. -/
theorem partition_canon (blocks : List CanonBlock)
    (hnd : (blocks.map (·.set.id)).Nodup)
    (hbs : ∀ b ∈ blocks, b.groups ≠ [] ∧ (b.groups.map groupKey).Nodup ∧
      ∀ g ∈ b.groups, g.prompts ≠ [] ∧
        ∀ p ∈ g.prompts, promptSetId p = some b.set.id ∧
          sessionKey p = groupKey g) :
    partitionPrompts (canonPrompts blocks) = (canonBuckets blocks, []) := by
  unfold partitionPrompts
  rw [canon_fold_blocks blocks [] []
    (fun b _ kv hkv => absurd hkv (List.not_mem_nil kv)) hnd hbs]
  rw [List.nil_append]

/-! ### C1: the emission loop on a canonical document -/

theorem lookupSession_eqn (kv : Option Str × List Prompt)
    (rest : SessionBuckets) (k : Option Str) :
    lookupSession (kv :: rest) k =
      if kv.1 = k then some kv.2 else lookupSession rest k := rfl

theorem lookupBuckets_eqn (kv : Str × SessionBuckets) (rest : SetBuckets)
    (k : Str) :
    lookupBuckets (kv :: rest) k =
      if kv.1 = k then some kv.2 else lookupBuckets rest k := rfl

theorem lookupSession_none_of_keys (sb : SessionBuckets) (k : Option Str)
    (h : ∀ kv ∈ sb, kv.1 ≠ k) : lookupSession sb k = none := by
  induction sb with
  | nil => rfl
  | cons kv rest ih =>
    rw [lookupSession_eqn, if_neg (h kv (List.mem_cons_self _ _))]
    exact ih (fun kv2 h2 => h kv2 (List.mem_cons_of_mem _ h2))

theorem lookup_group (gs : List CanonGroup) (hnd : (gs.map groupKey).Nodup) :
    ∀ g ∈ gs, lookupSession (gs.map fun g => (groupKey g, g.prompts))
      (groupKey g) = some g.prompts := by
  induction gs with
  | nil => intro g hg; exact absurd hg (List.not_mem_nil g)
  | cons g0 gs ih =>
    intro g hg
    rw [List.map_cons, List.nodup_cons] at hnd
    rcases List.mem_cons.mp hg with rfl | hmem
    · rw [List.map_cons, lookupSession_eqn, if_pos rfl]
    · rw [List.map_cons, lookupSession_eqn, if_neg (by
        intro hcon
        exact hnd.1 (by
          rw [show groupKey g0 = groupKey g from hcon]
          exact List.mem_map_of_mem groupKey hmem))]
      exact ih hnd.2 g hmem

theorem lookupBuckets_canon (bs : List CanonBlock)
    (hnd : (bs.map (·.set.id)).Nodup) :
    ∀ b ∈ bs, lookupBuckets (canonBuckets bs) b.set.id =
      some (b.groups.map fun g => (groupKey g, g.prompts)) := by
  induction bs with
  | nil => intro b hb; exact absurd hb (List.not_mem_nil b)
  | cons b0 bs ih =>
    intro b hb
    rw [List.map_cons, List.nodup_cons] at hnd
    rcases List.mem_cons.mp hb with rfl | hmem
    · rw [show canonBuckets (b :: bs) =
        (b.set.id, b.groups.map fun g => (groupKey g, g.prompts)) ::
          canonBuckets bs from rfl]
      rw [lookupBuckets_eqn, if_pos rfl]
    · rw [show canonBuckets (b0 :: bs) =
        (b0.set.id, b0.groups.map fun g => (groupKey g, g.prompts)) ::
          canonBuckets bs from rfl]
      rw [lookupBuckets_eqn, if_neg (by
        intro hcon
        exact hnd.1 (by
          rw [show b0.set.id = b.set.id from hcon]
          exact List.mem_map_of_mem (fun b => b.set.id) hmem))]
      exact ih hnd.2 b hmem

theorem sessionsById_skip (sid : Str) (l : List Session)
    (h : ∀ x ∈ l, x.id ≠ sid) :
    ∀ acc : Option Session,
      l.foldl (fun acc s => if s.id = sid then some s else acc) acc = acc := by
  induction l with
  | nil => intro acc; rfl
  | cons x xs ih =>
    intro acc
    rw [List.foldl_cons, if_neg (h x (List.mem_cons_self _ _))]
    exact ih (fun y hy => h y (List.mem_cons_of_mem _ hy)) acc

theorem sessionsById_nodup (sessions : List Session)
    (hnd : (sessions.map (·.id)).Nodup) (s : Session) (hs : s ∈ sessions) :
    sessionsById sessions s.id = some s := by
  induction sessions with
  | nil => exact absurd hs (List.not_mem_nil s)
  | cons x xs ih =>
    rw [List.map_cons, List.nodup_cons] at hnd
    unfold sessionsById
    rw [List.foldl_cons]
    rcases List.mem_cons.mp hs with rfl | hmem
    · rw [if_pos rfl]
      exact sessionsById_skip s.id xs
        (fun y hy hcon =>
          hnd.1 (by rw [← hcon]; exact List.mem_map_of_mem (·.id) hy))
        (some s)
    · rw [if_neg (by
        intro hcon
        exact hnd.1 (by
          rw [show x.id = s.id from hcon]
          exact List.mem_map_of_mem (·.id) hmem))]
      exact ih hnd.2 hmem

theorem mem_canonSessions (bs : List CanonBlock) (s : Session)
    (h : s ∈ canonSessions bs) :
    ∃ b ∈ bs, ∃ g ∈ b.groups, g.sess = some s := by
  unfold canonSessions at h
  rw [List.mem_flatten] at h
  obtain ⟨l, hl, hsl⟩ := h
  rw [List.mem_map] at hl
  obtain ⟨b, hb, rfl⟩ := hl
  rw [List.mem_filterMap] at hsl
  obtain ⟨g, hg, hgs⟩ := hsl
  exact ⟨b, hb, g, hg, hgs⟩

theorem filter_canonSessions (bs : List CanonBlock)
    (hnd : (bs.map (·.set.id)).Nodup)
    (hsess : ∀ b ∈ bs, ∀ g ∈ b.groups, ∀ s, g.sess = some s →
      s.setId = b.set.id)
    (b : CanonBlock) (hb : b ∈ bs)
    (p : Session → Bool)
    (hp : ∀ g ∈ b.groups, ∀ s, g.sess = some s → p s = true) :
    (canonSessions bs).filter (fun s => s.setId == b.set.id && p s) =
      b.groups.filterMap (·.sess) := by
  induction bs with
  | nil => exact absurd hb (List.not_mem_nil b)
  | cons b0 bs ih =>
    rw [List.map_cons, List.nodup_cons] at hnd
    rw [show canonSessions (b0 :: bs) =
      b0.groups.filterMap (·.sess) ++ canonSessions bs from by
      unfold canonSessions
      rw [List.map_cons, List.flatten_cons]]
    rw [List.filter_append]
    rcases List.mem_cons.mp hb with rfl | hmem
    · rw [List.filter_eq_self.mpr (by
        intro s hs
        rw [List.mem_filterMap] at hs
        obtain ⟨g, hg, hgs⟩ := hs
        rw [hsess b (List.mem_cons_self _ _) g hg s hgs]
        rw [hp g hg s hgs]
        simp)]
      rw [List.filter_eq_nil_iff.mpr (by
        intro s hs
        obtain ⟨b2, hb2, g, hg, hgs⟩ := mem_canonSessions bs s hs
        have hne : s.setId ≠ b.set.id := by
          rw [hsess b2 (List.mem_cons_of_mem _ hb2) g hg s hgs]
          intro hcon
          exact hnd.1 (by
            rw [← hcon]
            exact List.mem_map_of_mem (fun b => b.set.id) hb2)
        simp [hne])]
      rw [List.append_nil]
    · rw [List.filter_eq_nil_iff.mpr (by
        intro s hs
        rw [List.mem_filterMap] at hs
        obtain ⟨g, hg, hgs⟩ := hs
        have hne : s.setId ≠ b.set.id := by
          rw [hsess b0 (List.mem_cons_self _ _) g hg s hgs]
          intro hcon
          exact hnd.1 (by
            rw [hcon]
            exact List.mem_map_of_mem (fun b => b.set.id) hmem)
        simp [hne])]
      rw [List.nil_append]
      exact ih hnd.2
        (fun b2 hb2 => hsess b2 (List.mem_cons_of_mem _ hb2)) hmem

theorem sessionElements_group (gs : List CanonGroup)
    (sessions : List Session) (hnd : (gs.map groupKey).Nodup)
    (g : CanonGroup) (hg : g ∈ gs) (hne : g.prompts ≠ [])
    (hsid : ∀ s, g.sess = some s → sessionsById sessions s.id = some s) :
    sessionElements (gs.map fun g => (groupKey g, g.prompts)) sessions
      (groupKey g) = groupStrings g := by
  unfold sessionElements
  rw [lookup_group gs hnd g hg]
  rw [show (some g.prompts).getD [] = g.prompts from rfl]
  rw [if_neg (by
    cases hc : g.prompts with
    | nil => exact absurd hc hne
    | cons p ps => simp)]
  unfold groupStrings
  cases hgs : g.sess with
  | none =>
    rw [show groupKey g = none from by unfold groupKey; rw [hgs]; rfl]
  | some s =>
    rw [show groupKey g = some s.id from by unfold groupKey; rw [hgs]; rfl]
    show (match sessionsById sessions s.id with
      | some session =>
        [(['#', '#', ' '] ++ session.name.getD []),
         "<!-- ".toList ++ jsonStringify (sessionMetaFields session) ++
           " -->\n".toList]
      | none => ([] : List Str)) ++
        [joinNN (List.map promptPart g.prompts)] =
      [(['#', '#', ' '] ++ s.name.getD []),
       "<!-- ".toList ++ jsonStringify (sessionMetaFields s) ++
         " -->\n".toList] ++
        [joinNN (List.map promptPart g.prompts)]
    rw [hsid s hgs]

theorem flatten_ne_nil {α : Type} (Ls : List (List α)) (hne : Ls ≠ [])
    (h : ∀ L ∈ Ls, L ≠ []) : Ls.flatten ≠ [] := by
  cases Ls with
  | nil => exact absurd rfl hne
  | cons L Ls2 =>
    rw [List.flatten_cons]
    cases hL : L with
    | nil => exact absurd hL (h L (by simp))
    | cons x xs => simp

theorem joinlines_flatten (Ls : List (List Str)) (h : ∀ L ∈ Ls, L ≠ []) :
    joinlines (Ls.map joinlines) = joinlines Ls.flatten := by
  induction Ls with
  | nil => rfl
  | cons L Ls2 ih =>
    cases Ls2 with
    | nil => simp [joinlines_singleton]
    | cons M Ms =>
      have h2 : ∀ X ∈ M :: Ms, X ≠ [] :=
        fun X hX => h X (List.mem_cons_of_mem _ hX)
      rw [List.map_cons, List.map_cons, joinlines_cons_cons]
      rw [← List.map_cons joinlines M Ms]
      rw [ih h2]
      rw [show (L :: M :: Ms).flatten = L ++ (M :: Ms).flatten from rfl]
      rw [joinlines_append L ((M :: Ms).flatten) (h L (by simp))
        (flatten_ne_nil _ (by simp) h2)]

theorem metaNL_eq (fields : List (Str × JVal)) :
    "<!-- ".toList ++ jsonStringify fields ++ " -->\n".toList =
      joinlines [metaCommentLine fields, []] := by
  rw [joinlines_cons_cons, joinlines_singleton]
  unfold metaCommentLine
  rw [show (" -->\n".toList : Str) = " -->".toList ++ ['\n'] from rfl]
  simp

theorem promptLines_ne_nil (p : Prompt) : promptLines p ≠ [] := by
  unfold promptLines
  simp

theorem joinNN_promptParts (ps : List Prompt) :
    joinNN (ps.map promptPart) = joinlines (sepNN (ps.map promptLines)) := by
  rw [show ps.map promptPart = (ps.map promptLines).map joinlines from by
    rw [List.map_map]
    exact List.map_congr_left (fun p _ => promptPart_eq p)]
  exact joinNN_map (ps.map promptLines) (by
    intro L hL
    rw [List.mem_map] at hL
    obtain ⟨p, _, rfl⟩ := hL
    exact promptLines_ne_nil p)

theorem groupStrings_eq (g : CanonGroup) :
    groupStrings g = (groupLineGroups g).map joinlines := by
  unfold groupStrings groupLineGroups
  cases hgs : g.sess with
  | none =>
    rw [List.nil_append, List.nil_append, List.map_cons, List.map_nil]
    rw [joinNN_promptParts]
  | some s =>
    rw [List.map_append]
    rw [show List.map joinlines [[sessHeadLine s],
        [metaCommentLine (sessionMetaFields s), []]] =
      [joinlines [sessHeadLine s],
       joinlines [metaCommentLine (sessionMetaFields s), []]] from rfl]
    rw [joinlines_singleton, ← metaNL_eq]
    rw [show List.map joinlines [sepNN (g.prompts.map promptLines)] =
      [joinlines (sepNN (g.prompts.map promptLines))] from rfl]
    rw [joinNN_promptParts]
    rfl

theorem groupLines_flatten (g : CanonGroup) :
    (groupLineGroups g).flatten = groupLines g := by
  unfold groupLineGroups groupLines
  cases g.sess with
  | none => simp
  | some s => simp

theorem filterMap_sess_map_key (gs : List CanonGroup)
    (h : ∀ g ∈ gs, g.sess.isSome = true) :
    (gs.filterMap (·.sess)).map (fun s => some s.id) = gs.map groupKey := by
  induction gs with
  | nil => rfl
  | cons g gs ih =>
    cases hgs : g.sess with
    | none =>
      have := h g (List.mem_cons_self _ _)
      rw [hgs] at this
      exact absurd this (by simp)
    | some s =>
      rw [show (g :: gs).filterMap (·.sess) =
        s :: gs.filterMap (·.sess) from by
        rw [List.filterMap_cons, hgs]]
      rw [List.map_cons, List.map_cons]
      rw [ih (fun g2 hg2 => h g2 (List.mem_cons_of_mem _ hg2))]
      rw [show groupKey g = some s.id from by unfold groupKey; rw [hgs]; rfl]

theorem blockCanon_sessionIds (bs : List CanonBlock)
    (hnd : (bs.map (·.set.id)).Nodup)
    (hsess : ∀ b2 ∈ bs, ∀ g ∈ b2.groups, ∀ s, g.sess = some s →
      s.setId = b2.set.id)
    (b : CanonBlock) (hb : b ∈ bs)
    (hgnd : (b.groups.map groupKey).Nodup)
    (htail : ∀ g ∈ b.groups.tail, g.sess.isSome = true)
    (hgne : b.groups ≠ []) :
    ((if (lookupSession (b.groups.map fun g => (groupKey g, g.prompts))
          none).isSome then [none] else []) ++
      ((canonSessions bs).filter (fun s => s.setId == b.set.id &&
        (lookupSession (b.groups.map fun g => (groupKey g, g.prompts))
          (some s.id)).isSome)).map (fun s => some s.id)) =
    b.groups.map groupKey := by
  have hfil : (canonSessions bs).filter (fun s => s.setId == b.set.id &&
      (lookupSession (b.groups.map fun g => (groupKey g, g.prompts))
        (some s.id)).isSome) = b.groups.filterMap (·.sess) := by
    apply filter_canonSessions bs hnd hsess b hb
    intro g hg s hgs
    rw [show some s.id = groupKey g from by unfold groupKey; rw [hgs]; rfl]
    rw [lookup_group b.groups hgnd g hg]
    rfl
  rw [hfil]
  cases hbg : b.groups with
  | nil => exact absurd hbg hgne
  | cons g0 gt =>
    rw [hbg] at htail
    cases hg0 : g0.sess with
    | none =>
      rw [show lookupSession ((g0 :: gt).map fun g =>
          (groupKey g, g.prompts)) none = some g0.prompts from by
        rw [List.map_cons, lookupSession_eqn, if_pos (by
          show groupKey g0 = none
          unfold groupKey
          rw [hg0]
          rfl)]]
      rw [show (some g0.prompts).isSome = true from rfl, if_pos rfl]
      rw [show (g0 :: gt).filterMap (·.sess) = gt.filterMap (·.sess) from by
        rw [List.filterMap_cons, hg0]]
      rw [filterMap_sess_map_key gt htail]
      rw [List.map_cons]
      rw [show groupKey g0 = none from by unfold groupKey; rw [hg0]; rfl]
      rfl
    | some s0 =>
      rw [show lookupSession ((g0 :: gt).map fun g =>
          (groupKey g, g.prompts)) none = none from by
        apply lookupSession_none_of_keys
        intro kv hkv
        rw [List.mem_map] at hkv
        obtain ⟨g2, hg2, rfl⟩ := hkv
        show groupKey g2 ≠ none
        rcases List.mem_cons.mp hg2 with rfl | hmem
        · unfold groupKey; rw [hg0]; simp
        · have := htail g2 hmem
          unfold groupKey
          cases h2 : g2.sess
          · rw [h2] at this; exact absurd this (by simp)
          · simp]
      rw [show (none : Option (List Prompt)).isSome = false from rfl]
      rw [if_neg (by simp)]
      rw [filterMap_sess_map_key (g0 :: gt) (by
        intro g2 hg2
        rcases List.mem_cons.mp hg2 with rfl | hmem
        · rw [hg0]; rfl
        · exact htail g2 hmem)]
      rfl

theorem setBlockElements_canon (bs : List CanonBlock)
    (hnd : (bs.map (·.set.id)).Nodup)
    (hsnd : ((canonSessions bs).map (·.id)).Nodup)
    (hsess : ∀ b2 ∈ bs, ∀ g ∈ b2.groups, ∀ s, g.sess = some s →
      s.setId = b2.set.id)
    (b : CanonBlock) (hb : b ∈ bs)
    (hgnd : (b.groups.map groupKey).Nodup)
    (htail : ∀ g ∈ b.groups.tail, g.sess.isSome = true)
    (hgne : b.groups ≠ [])
    (hpne : ∀ g ∈ b.groups, g.prompts ≠ []) :
    setBlockElements (canonBuckets bs) (canonSessions bs) b.set =
      some (blockStrings b) := by
  unfold setBlockElements
  rw [lookupBuckets_canon bs hnd b hb]
  show (if (b.groups.map fun g => (groupKey g, g.prompts)).length = 0
    then none
    else some ((['#', ' '] ++ b.set.name.getD []) ::
      ("<!-- ".toList ++ jsonStringify (setMetaFields b.set) ++
        " -->\n".toList) ::
      (((if (lookupSession (b.groups.map fun g => (groupKey g, g.prompts))
            none).isSome then [none] else []) ++
        ((canonSessions bs).filter (fun s : Session =>
          s.setId == b.set.id &&
          (lookupSession (b.groups.map fun g => (groupKey g, g.prompts))
            (some s.id)).isSome)).map
          (fun s : Session => some s.id)).map
        (sessionElements (b.groups.map fun g => (groupKey g, g.prompts))
          (canonSessions bs))).flatten)) = some (blockStrings b)
  rw [if_neg (by
    cases hbg : b.groups with
    | nil => exact absurd hbg hgne
    | cons g0 gt => simp)]
  rw [blockCanon_sessionIds bs hnd hsess b hb hgnd htail hgne]
  unfold blockStrings
  rw [List.map_map]
  rw [show List.map
      ((sessionElements (b.groups.map fun g => (groupKey g, g.prompts))
        (canonSessions bs)) ∘ groupKey) b.groups =
    List.map groupStrings b.groups from by
    apply List.map_congr_left
    intro g hg
    show sessionElements (b.groups.map fun g => (groupKey g, g.prompts))
      (canonSessions bs) (groupKey g) = groupStrings g
    apply sessionElements_group b.groups (canonSessions bs) hgnd g hg
      (hpne g hg)
    intro s hgs
    apply sessionsById_nodup (canonSessions bs) hsnd s
    unfold canonSessions
    rw [List.mem_flatten]
    exact ⟨b.groups.filterMap (·.sess),
      List.mem_map_of_mem _ hb,
      List.mem_filterMap.mpr ⟨g, hg, hgs⟩⟩]

theorem joinlines_blockStrings (b : CanonBlock)
    (hpne : ∀ g ∈ b.groups, g.prompts ≠ []) :
    joinlines (blockStrings b) = joinlines (blockLines b) := by
  have hbs : blockStrings b =
      ([setHeadLine b.set] ::
        [metaCommentLine (setMetaFields b.set), []] ::
        (b.groups.map groupLineGroups).flatten).map joinlines := by
    unfold blockStrings
    rw [List.map_cons, List.map_cons, joinlines_singleton]
    rw [← metaNL_eq]
    rw [show List.map joinlines (b.groups.map groupLineGroups).flatten =
      ((b.groups.map groupLineGroups).map (List.map joinlines)).flatten
      from by rw [List.map_flatten]]
    rw [List.map_map]
    rw [show List.map (List.map joinlines ∘ groupLineGroups) b.groups =
      List.map groupStrings b.groups from by
      apply List.map_congr_left
      intro g _
      show List.map joinlines (groupLineGroups g) = groupStrings g
      rw [groupStrings_eq]]
    rfl
  rw [hbs]
  rw [joinlines_flatten _ (by
    intro L hL
    rcases List.mem_cons.mp hL with rfl | hL
    · simp
    rcases List.mem_cons.mp hL with rfl | hL
    · simp
    rw [List.mem_flatten] at hL
    obtain ⟨Lg, hLg, hLmem⟩ := hL
    rw [List.mem_map] at hLg
    obtain ⟨g, hg, rfl⟩ := hLg
    unfold groupLineGroups at hLmem
    rcases List.mem_append.mp hLmem with hm | hm
    · cases hgs : g.sess with
      | none => rw [hgs] at hm; exact absurd hm (by simp)
      | some s =>
        rw [hgs] at hm
        rcases List.mem_cons.mp hm with rfl | hm2
        · simp [sessHeadLine]
        · rw [List.mem_singleton.mp hm2]
          simp
    · rw [List.mem_singleton.mp hm]
      apply sepNN_ne_nil
      · cases hps : g.prompts with
        | nil => exact absurd hps (hpne g hg)
        | cons p ps => simp
      · intro L2 hL2
        rw [List.mem_map] at hL2
        obtain ⟨p, _, rfl⟩ := hL2
        exact promptLines_ne_nil p)]
  show joinlines ([setHeadLine b.set] ++
    ([metaCommentLine (setMetaFields b.set), []] ++
      (b.groups.map groupLineGroups).flatten.flatten)) = _
  rw [show (b.groups.map groupLineGroups).flatten.flatten =
    (b.groups.map groupLines).flatten from by
    induction b.groups with
    | nil => rfl
    | cons g gs ih =>
      rw [List.map_cons, List.flatten_cons, List.flatten_append,
        groupLines_flatten, List.map_cons, List.flatten_cons, ih]]
  rfl

/-! ### C1: no emitted line contains a newline; the output has no final
newline before the writer appends one -/

theorem no_nl_escChar (c : Char) : '\n' ∉ escChar c := by
  unfold escChar
  by_cases h1 : c = '"'
  · rw [if_pos h1]; decide
  rw [if_neg h1]
  by_cases h2 : c = '\\'
  · rw [if_pos h2]; decide
  rw [if_neg h2]
  by_cases h3 : c = '\n'
  · rw [if_pos h3]; decide
  rw [if_neg h3]
  by_cases h4 : c = '\t'
  · rw [if_pos h4]; decide
  rw [if_neg h4]
  by_cases h5 : c = '\r'
  · rw [if_pos h5]; decide
  rw [if_neg h5]
  intro hm
  rw [List.mem_singleton.mp hm] at h3
  exact h3 rfl

theorem no_nl_escape (s : Str) : '\n' ∉ escape s := by
  unfold escape
  intro hm
  rw [List.mem_flatten] at hm
  obtain ⟨L, hL, hmem⟩ := hm
  rw [List.mem_map] at hL
  obtain ⟨c, _, rfl⟩ := hL
  exact no_nl_escChar c hmem

theorem no_nl_jvalToStr (v : JVal) (hv : flatVal v = true) :
    '\n' ∉ jvalToStr v := by
  cases v with
  | jstr s =>
    show '\n' ∉ quoteStr s
    unfold quoteStr
    intro hm
    rcases List.mem_cons.mp hm with h | h
    · exact absurd h.symm (by decide)
    · rcases List.mem_append.mp h with h2 | h2
      · exact no_nl_escape s h2
      · exact absurd (List.mem_singleton.mp h2) (by decide)
  | jbool b => cases b <;> decide
  | jnum n => exact absurd hv (by simp [flatVal])
  | jnull => exact absurd hv (by simp [flatVal])
  | jobj o => exact absurd hv (by simp [flatVal])

theorem no_nl_jfieldsToStr (fields : List (Str × JVal))
    (hflat : ∀ kv ∈ fields, flatVal kv.2 = true) :
    '\n' ∉ jfieldsToStr fields := by
  induction fields with
  | nil => decide
  | cons kv rest ih =>
    obtain ⟨k, v⟩ := kv
    cases rest with
    | nil =>
      show '\n' ∉ quoteStr k ++ ':' :: jvalToStr v
      intro hm
      rcases List.mem_append.mp hm with h | h
      · unfold quoteStr at h
        rcases List.mem_cons.mp h with h2 | h2
        · exact absurd h2.symm (by decide)
        · rcases List.mem_append.mp h2 with h3 | h3
          · exact no_nl_escape k h3
          · exact absurd (List.mem_singleton.mp h3) (by decide)
      · rcases List.mem_cons.mp h with h2 | h2
        · exact absurd h2.symm (by decide)
        · exact no_nl_jvalToStr v (hflat (k, v) (List.mem_cons_self _ _)) h2
    | cons kv2 rest2 =>
      show '\n' ∉ (quoteStr k ++ ':' :: jvalToStr v) ++
        ',' :: jfieldsToStr (kv2 :: rest2)
      intro hm
      rcases List.mem_append.mp hm with h | h
      · rcases List.mem_append.mp h with h1 | h1
        · unfold quoteStr at h1
          rcases List.mem_cons.mp h1 with h2 | h2
          · exact absurd h2.symm (by decide)
          · rcases List.mem_append.mp h2 with h3 | h3
            · exact no_nl_escape k h3
            · exact absurd (List.mem_singleton.mp h3) (by decide)
        · rcases List.mem_cons.mp h1 with h2 | h2
          · exact absurd h2.symm (by decide)
          · exact no_nl_jvalToStr v (hflat (k, v) (List.mem_cons_self _ _)) h2
      · rcases List.mem_cons.mp h with h2 | h2
        · exact absurd h2.symm (by decide)
        · exact ih (fun kv h5 => hflat kv (List.mem_cons_of_mem _ h5)) h2

theorem no_nl_metaCommentLine (fields : List (Str × JVal))
    (hflat : ∀ kv ∈ fields, flatVal kv.2 = true) :
    '\n' ∉ metaCommentLine fields := by
  unfold metaCommentLine
  intro hm
  rcases List.mem_append.mp hm with h | h
  · rcases List.mem_append.mp h with h2 | h2
    · exact absurd h2 (by decide)
    · show False
      have : '\n' ∉ jsonStringify fields := by
        show '\n' ∉ '{' :: (jfieldsToStr fields ++ ['}'])
        intro hm2
        rcases List.mem_cons.mp hm2 with h3 | h3
        · exact absurd h3.symm (by decide)
        rcases List.mem_append.mp h3 with h4 | h4
        · exact no_nl_jfieldsToStr fields hflat h4
        · exact absurd (List.mem_singleton.mp h4) (by decide)
      exact this h2
  · exact absurd h (by decide)

theorem sepNN_decomp (Ls : List (List Str)) (L : List Str) :
    ∃ X, sepNN (Ls ++ [L]) = X ++ L := by
  induction Ls with
  | nil => exact ⟨[], rfl⟩
  | cons A Ls ih =>
    obtain ⟨X, hX⟩ := ih
    cases Ls with
    | nil =>
      refine ⟨A ++ [[]], ?_⟩
      show A ++ [] :: sepNN [L] = _
      simp [sepNN]
    | cons B Bs =>
      refine ⟨A ++ [] :: X, ?_⟩
      show A ++ [] :: sepNN ((B :: Bs) ++ [L]) = _
      rw [show (B :: Bs) ++ [L] = B :: (Bs ++ [L]) from rfl] at hX ⊢
      rw [hX]
      simp

theorem endsOK_append (A B : List Str) (h : endsOK B) : endsOK (A ++ B) := by
  obtain ⟨X, l, hB, hl, hnl⟩ := h
  exact ⟨A ++ X, l, by rw [hB]; simp, hl, hnl⟩

theorem blank_startsWith_hash (l : Str) (h : (trim l).isEmpty = true)
    (t : Str) : startsWith ('#' :: t) l = false := by
  cases l with
  | nil => rfl
  | cons c cs =>
    by_cases hc : isWS c = false
    · obtain ⟨y, hy⟩ := trim_cons_head c hc cs
      rw [hy] at h
      simp at h
    · have hne : ('#' == c) = false := by
        cases hcc : ('#' == c)
        · rfl
        · have hc8 : c = '#' := (eq_of_beq hcc).symm
          subst hc8
          exact absurd (by decide : isWS '#' = false) hc
      show ('#' == c && startsWith t cs) = false
      rw [hne]
      rfl

theorem promoteLine_blank (l : Str) (h : (trim l).isEmpty = true) :
    promoteLine l = l := by
  unfold promoteLine
  rw [lineRepl_neg _ _ _ (blank_startsWith_hash l h ['#', '#', ' ']),
    lineRepl_neg _ _ _ (blank_startsWith_hash l h ['#', ' ']),
    lineRepl_neg _ _ _ (blank_startsWith_hash l h [' '])]

theorem promoteLine_nonblank (l : Str) (h : (trim l).isEmpty = false) :
    (trim (promoteLine l)).isEmpty = false := by
  unfold promoteLine
  by_cases h3 : startsWith ['#', '#', '#', ' '] l = true
  · obtain ⟨t, rfl⟩ := (startsWith_iff _ _).mp h3
    rw [lineRepl_pos ['#', '#', '#', ' '] ['#', '#', '#', '#', '#', '#', ' '] t,
      lineRepl_neg ['#', '#', ' '] ['#', '#', '#', '#', '#', ' ']
        (['#', '#', '#', '#', '#', '#', ' '] ++ t) (by rfl),
      lineRepl_neg ['#', ' '] ['#', '#', '#', '#', ' ']
        (['#', '#', '#', '#', '#', '#', ' '] ++ t) (by rfl)]
    obtain ⟨y, hy⟩ := trim_cons_head '#' (by decide)
      ('#' :: '#' :: '#' :: '#' :: '#' :: ' ' :: t)
    rw [show (['#', '#', '#', '#', '#', '#', ' '] ++ t : Str) =
      '#' :: ('#' :: '#' :: '#' :: '#' :: '#' :: ' ' :: t) from rfl, hy]
    simp
  · have h3f : startsWith ['#', '#', '#', ' '] l = false := by
      cases hv : startsWith ['#', '#', '#', ' '] l
      · rfl
      · exact absurd hv h3
    rw [lineRepl_neg _ _ _ h3f]
    by_cases h2 : startsWith ['#', '#', ' '] l = true
    · obtain ⟨t, rfl⟩ := (startsWith_iff _ _).mp h2
      rw [lineRepl_pos ['#', '#', ' '] ['#', '#', '#', '#', '#', ' '] t,
        lineRepl_neg ['#', ' '] ['#', '#', '#', '#', ' ']
          (['#', '#', '#', '#', '#', ' '] ++ t) (by rfl)]
      obtain ⟨y, hy⟩ := trim_cons_head '#' (by decide)
        ('#' :: '#' :: '#' :: '#' :: ' ' :: t)
      rw [show (['#', '#', '#', '#', '#', ' '] ++ t : Str) =
        '#' :: ('#' :: '#' :: '#' :: '#' :: ' ' :: t) from rfl, hy]
      simp
    · have h2f : startsWith ['#', '#', ' '] l = false := by
        cases hv : startsWith ['#', '#', ' '] l
        · rfl
        · exact absurd hv h2
      rw [lineRepl_neg _ _ _ h2f]
      by_cases h1 : startsWith ['#', ' '] l = true
      · obtain ⟨t, rfl⟩ := (startsWith_iff _ _).mp h1
        rw [lineRepl_pos ['#', ' '] ['#', '#', '#', '#', ' '] t]
        obtain ⟨y, hy⟩ := trim_cons_head '#' (by decide)
          ('#' :: '#' :: ' ' :: t)
        rw [show (['#', '#', '#', '#', ' '] ++ t : Str) =
          '#' :: ('#' :: '#' :: '#' :: ' ' :: t) from rfl]
        obtain ⟨y2, hy2⟩ := trim_cons_head '#' (by decide)
          ('#' :: '#' :: '#' :: ' ' :: t)
        rw [hy2]
        simp
      · have h1f : startsWith ['#', ' '] l = false := by
          cases hv : startsWith ['#', ' '] l
          · rfl
          · exact absurd hv h1
        rw [lineRepl_neg _ _ _ h1f]
        exact h

theorem trimBlank_map_promote (L : List Str) :
    trimBlankLines (L.map promoteLine) =
      (trimBlankLines L).map promoteLine := by
  have hpq : ((fun l : Str => (trim l).isEmpty) ∘ promoteLine) =
      (fun l : Str => (trim l).isEmpty) := by
    funext l
    show (trim (promoteLine l)).isEmpty = (trim l).isEmpty
    cases hb : (trim l).isEmpty
    · exact promoteLine_nonblank l hb
    · rw [promoteLine_blank l hb, hb]
  unfold trimBlankLines
  rw [← List.map_reverse, List.dropWhile_map, hpq, ← List.map_reverse,
    List.dropWhile_map, hpq]

theorem trimBlank_promote (c : Str)
    (h : trimBlankLines (splitlines c) = splitlines c) :
    trimBlankLines (splitlines (promoteContentHeadings c)) =
      splitlines (promoteContentHeadings c) := by
  have hsp : splitlines (promoteContentHeadings c) =
      (splitlines c).map promoteLine := by
    rw [promote_as_map c]
    refine splitlines_joinlines _
      (map_ne_nil_of_ne_nil _ _ (splitlines_ne_nil c)) ?_
    intro l hl
    rcases List.mem_map.mp hl with ⟨x, hx, rfl⟩
    exact promoteLine_no_newline x (no_newline_of_mem_splitlines c x hx)
  rw [hsp, trimBlank_map_promote, h]

theorem trimBlank_last_not_blank (Y : List Str) (l : Str)
    (h : trimBlankLines (Y ++ [l]) = Y ++ [l]) : l ≠ [] := by
  intro hl
  subst hl
  have hlen := congrArg List.length h
  unfold trimBlankLines at hlen
  rw [List.reverse_append] at hlen
  rw [show ([([] : Str)].reverse ++ Y.reverse) = ([] : Str) :: Y.reverse from
    rfl] at hlen
  rw [List.dropWhile_cons,
    if_pos (by decide : ((trim ([] : Str)).isEmpty = true))] at hlen
  have hs1 : Y.reverse.dropWhile (fun l : Str => (trim l).isEmpty) <:+
      Y.reverse := List.dropWhile_suffix _
  have h1 : (Y.reverse.dropWhile (fun l : Str => (trim l).isEmpty)).length ≤
      Y.length := by
    have := hs1.length_le
    simpa using this
  have hs2 : ((Y.reverse.dropWhile
        (fun l : Str => (trim l).isEmpty)).reverse).dropWhile
      (fun l : Str => (trim l).isEmpty) <:+
      (Y.reverse.dropWhile (fun l : Str => (trim l).isEmpty)).reverse :=
    List.dropWhile_suffix _
  have h2 := hs2.length_le
  rw [List.length_reverse] at h2
  rw [List.length_append] at hlen
  simp only [List.length_cons, List.length_nil] at hlen
  omega

theorem endsOK_promptLines (p : Prompt) (hc : contentSafe p.content) :
    endsOK (promptLines p) := by
  unfold promptLines
  rcases hc with hc | ⟨_, hstable, hsafe⟩
  · rw [if_pos hc]
    refine ⟨[promptHeadLine p], metaCommentLine (promptMetaFields p), by simp,
      ?_, no_nl_metaCommentLine _ (promptMetaFields_flat p)⟩
    unfold metaCommentLine
    simp
  · by_cases hce : p.content = []
    · rw [if_pos hce]
      refine ⟨[promptHeadLine p], metaCommentLine (promptMetaFields p),
        by simp, ?_, no_nl_metaCommentLine _ (promptMetaFields_flat p)⟩
      unfold metaCommentLine
      simp
    · rw [if_neg hce]
      have hne := splitlines_ne_nil (promoteContentHeadings p.content)
      rcases List.eq_nil_or_concat
          (splitlines (promoteContentHeadings p.content)) with he | ⟨Y, l, hY⟩
      · exact absurd he hne
      · refine ⟨[promptHeadLine p, metaCommentLine (promptMetaFields p)] ++ Y,
          l, by rw [hY]; simp, ?_, ?_⟩
        · -- the final promoted line is non-blank, hence non-empty
          have hlast : isSeparatorLine (trim l) = false ∧ True := by
            constructor
            · exact (hsafe l (by rw [hY]; simp)).2.2.2
            · trivial
          -- non-emptiness comes from blank-edge stability
          have hstable2 : trimBlankLines
              (splitlines (promoteContentHeadings p.content)) =
              splitlines (promoteContentHeadings p.content) := by
            exact trimBlank_promote p.content hstable
          rw [hY] at hstable2
          rw [List.concat_eq_append] at hstable2
          have := trimBlank_last_not_blank Y l hstable2
          intro hle
          rw [hle] at this
          exact this rfl
        · exact no_newline_of_mem_splitlines _ l (by rw [hY]; simp)

theorem joinlines_endsOK (L : List Str) (h : endsOK L) :
    ∃ Y c, joinlines L = Y ++ [c] ∧ c ≠ '\n' := by
  obtain ⟨X, l, hL, hl, hnl⟩ := h
  rcases List.eq_nil_or_concat l with rfl | ⟨l2, c, rfl⟩
  · exact absurd rfl hl
  · rw [List.concat_eq_append] at hL hnl
    have hc : c ≠ '\n' := fun hh => hnl (List.mem_append_right l2
      (by rw [hh]; exact List.mem_singleton_self '\n'))
    cases X with
    | nil =>
      refine ⟨l2, c, ?_, hc⟩
      rw [hL]
      rfl
    | cons x xs =>
      refine ⟨joinlines (x :: xs) ++ '\n' :: l2, c, ?_, hc⟩
      rw [hL, joinlines_append (x :: xs) [l2 ++ [c]] (by simp) (by simp),
        joinlines_singleton]
      simp

theorem endsWithNewline_header (A J : Str)
    (h : ∃ Y c, J = Y ++ [c] ∧ c ≠ '\n') :
    endsWithNewline (A ++ '\n' :: J) = false := by
  obtain ⟨Y, c, hJ, hc⟩ := h
  unfold endsWithNewline
  rw [hJ, show A ++ '\n' :: (Y ++ [c]) = (A ++ '\n' :: Y) ++ [c] from by simp,
    List.getLast?_concat]
  cases hcc : (some c == some '\n') with
  | false => rfl
  | true => exact absurd (Option.some.inj (eq_of_beq hcc)) hc

theorem endsOK_groupLines (set : PromptSet) (g : CanonGroup)
    (hg : groupCanon set g) : endsOK (groupLines g) := by
  obtain ⟨hpne, _, hps⟩ := hg
  unfold groupLines
  apply endsOK_append
  rcases List.eq_nil_or_concat g.prompts with he | ⟨Y, p, hY⟩
  · exact absurd he hpne
  · rw [List.concat_eq_append] at hY
    rw [hY, List.map_append, List.map_cons, List.map_nil]
    obtain ⟨X, hX⟩ := sepNN_decomp (Y.map promptLines) (promptLines p)
    rw [hX]
    obtain ⟨_, _, _, _, _, hcs⟩ := hps p (by rw [hY]; simp)
    exact endsOK_append X _ (endsOK_promptLines p hcs)

theorem endsOK_blockLines (b : CanonBlock) (hb : blockCanon b) :
    endsOK (blockLines b) := by
  obtain ⟨_, _, hgne, _, _, hgs⟩ := hb
  show endsOK ([setHeadLine b.set, metaCommentLine (setMetaFields b.set),
    []] ++ (b.groups.map groupLines).flatten)
  apply endsOK_append
  rcases List.eq_nil_or_concat b.groups with he | ⟨Y, g, hY⟩
  · exact absurd he hgne
  · rw [List.concat_eq_append] at hY
    rw [hY, List.map_append, List.map_cons, List.map_nil,
      List.flatten_append]
    apply endsOK_append
    rw [List.flatten_cons, List.flatten_nil, List.append_nil]
    exact endsOK_groupLines b.set g (hgs g (by rw [hY]; simp))

theorem endsOK_canonOut (blocks : List CanonBlock) (hne : blocks ≠ [])
    (hbs : ∀ b ∈ blocks, blockCanon b) :
    endsOK (sepNN (blocks.map blockLines)) := by
  rcases List.eq_nil_or_concat blocks with he | ⟨Y, b, hY⟩
  · exact absurd he hne
  · rw [List.concat_eq_append] at hY
    rw [hY, List.map_append, List.map_cons, List.map_nil]
    obtain ⟨X, hX⟩ := sepNN_decomp (Y.map blockLines) (blockLines b)
    rw [hX]
    exact endsOK_append X _ (endsOK_blockLines b (hbs b (by rw [hY]; simp)))

theorem canonPrompts_ne_nil (blocks : List CanonBlock) (hne : blocks ≠ [])
    (hbs : ∀ b ∈ blocks, blockCanon b) : canonPrompts blocks ≠ [] := by
  unfold canonPrompts
  apply flatten_ne_nil
  · exact fun h => hne (by simpa using h)
  · intro L hL
    rcases List.mem_map.mp hL with ⟨b, hb, rfl⟩
    apply flatten_ne_nil
    · obtain ⟨_, _, hgne, _⟩ := hbs b hb
      exact fun h => hgne (by simpa using h)
    · intro P hP
      rcases List.mem_map.mp hP with ⟨g, hg, rfl⟩
      obtain ⟨_, _, _, _, _, hgs⟩ := hbs b hb
      exact (hgs g hg).1

theorem blockLines_ne_nil (b : CanonBlock) : blockLines b ≠ [] := by
  unfold blockLines
  simp

theorem filterMap_blocks_canon (bs : List CanonBlock)
    (hnd : (bs.map (·.set.id)).Nodup)
    (hsnd : ((canonSessions bs).map (·.id)).Nodup)
    (hbs : ∀ b ∈ bs, blockCanon b)
    (bl : List CanonBlock) (hsub : ∀ b ∈ bl, b ∈ bs) :
    (bl.map (·.set)).filterMap
      (fun s => (setBlockElements (canonBuckets bs) (canonSessions bs)
        s).map joinlines) =
      bl.map (fun b => joinlines (blockLines b)) := by
  have hsess : ∀ b2 ∈ bs, ∀ g ∈ b2.groups, ∀ s, g.sess = some s →
      s.setId = b2.set.id := by
    intro b2 hb2 g hg s hs
    obtain ⟨_, _, _, _, _, hgs2⟩ := hbs b2 hb2
    obtain ⟨_, hm, _⟩ := hgs2 g hg
    rw [hs] at hm
    exact hm.2.1
  induction bl with
  | nil => rfl
  | cons b bl ih =>
    rw [List.map_cons, List.map_cons]
    obtain ⟨_, _, hgne, hgnd, htail, hgs⟩ := hbs b (hsub b (by simp))
    have hpne : ∀ g ∈ b.groups, g.prompts ≠ [] := fun g hg => (hgs g hg).1
    rw [@List.filterMap_cons_some _ _
      (fun s => (setBlockElements (canonBuckets bs)
        (canonSessions bs) s).map joinlines)
      b.set (bl.map (·.set)) (joinlines (blockLines b))
      (by
        show (setBlockElements (canonBuckets bs) (canonSessions bs)
          b.set).map joinlines = _
        rw [setBlockElements_canon bs hnd hsnd hsess b (hsub b (by simp))
          hgnd htail hgne hpne, Option.map_some',
          joinlines_blockStrings b hpne])]
    rw [ih (fun b2 hb2 => hsub b2 (by simp [hb2]))]

theorem serialize_canon (gen : Nat → Str) (n₀ : Nat) (now : Str)
    (blocks : List CanonBlock) (tn : Bool)
    (hshape : canonShape blocks) (hne : blocks ≠ []) :
    serialize gen n₀ now (canonDoc blocks tn) =
      "<!-- prompt-canvas: \x7b\"version\":\"2.0\"\x7d -->\n".toList ++
        '\n' :: joinlines (canonOutLines blocks) := by
  obtain ⟨hnd, hsnd, _, hbs⟩ := hshape
  have hpart : partitionPrompts (canonDoc blocks tn).prompts =
      (canonBuckets blocks, []) := by
    show partitionPrompts (canonPrompts blocks) = _
    apply partition_canon blocks hnd
    intro b hb
    obtain ⟨hid, _, hgne, hgnd, _, hgs⟩ := hbs b hb
    refine ⟨hgne, hgnd, ?_⟩
    intro g hg
    obtain ⟨hpne, _, hps⟩ := hgs g hg
    refine ⟨hpne, ?_⟩
    intro p hp
    obtain ⟨_, hsetid, hskey, _, _, _⟩ := hps p hp
    constructor
    · show orUndefined p.metadata.setId = some b.set.id
      rw [hsetid]
      show (if b.set.id = [] then none else some b.set.id) = some b.set.id
      rw [if_neg hid]
    · exact hskey
  unfold serialize serializeCore
  dsimp only []
  rw [hpart]
  rw [if_pos
    (show ((canonBuckets blocks, ([] : List Prompt)).2.isEmpty = true)
      from rfl)]
  dsimp only []
  rw [show (canonDoc blocks tn).sets = blocks.map (·.set) from rfl,
    show (canonDoc blocks tn).sessions = canonSessions blocks from rfl,
    show (canonDoc blocks tn).prompts = canonPrompts blocks from rfl,
    show (canonDoc blocks tn).trailingNewline = tn from rfl]
  rw [filterMap_blocks_canon blocks hnd hsnd hbs blocks (fun b hb => hb)]
  rw [show blocks.map (fun b => joinlines (blockLines b)) =
    (blocks.map blockLines).map joinlines from by
    rw [List.map_map]
    exact List.map_congr_left (fun b _ => rfl)]
  have hblne : ∀ L ∈ blocks.map blockLines, L ≠ [] := by
    intro L hL
    rcases List.mem_map.mp hL with ⟨b, _, rfl⟩
    exact blockLines_ne_nil b
  rw [joinNN_map (blocks.map blockLines) hblne]
  have hpe : (canonPrompts blocks).isEmpty = false := by
    cases hcp : canonPrompts blocks with
    | nil => exact absurd hcp (canonPrompts_ne_nil blocks hne hbs)
    | cons p ps => rfl
  have hends : endsWithNewline
      ("<!-- prompt-canvas: \x7b\"version\":\"2.0\"\x7d -->\n".toList ++
        '\n' :: joinlines (sepNN (blocks.map blockLines))) = false :=
    endsWithNewline_header _ _
      (joinlines_endsOK _ (endsOK_canonOut blocks hne hbs))
  rw [if_pos (show ((tn || !(canonPrompts blocks).isEmpty) &&
      !endsWithNewline
        ("<!-- prompt-canvas: \x7b\"version\":\"2.0\"\x7d -->\n".toList ++
          '\n' :: joinlines (sepNN (blocks.map blockLines)))) = true from by
    rw [hpe, hends]
    cases tn <;> rfl)]
  unfold canonOutLines
  have hsep : sepNN (blocks.map blockLines) ≠ [] :=
    sepNN_ne_nil _ (fun h => hne (by simpa using h)) hblne
  rw [joinlines_append (sepNN (blocks.map blockLines)) [[]] hsep (by simp)]
  simp [joinlines]


/-! ### C1: reading the serialized document back -/

theorem trimBlank_concat_blank (L : List Str) :
    trimBlankLines (L ++ [[]]) = trimBlankLines L := by
  unfold trimBlankLines
  rw [List.reverse_append]
  rw [show ([([] : Str)].reverse ++ L.reverse) = ([] : Str) :: L.reverse from
    rfl]
  rw [List.dropWhile_cons,
    if_pos (by decide : ((trim ([] : Str)).isEmpty = true))]

theorem demote_promote_content (c : Str)
    (h : ∀ l ∈ splitlines c, headingLevelOk l = true) :
    demoteContentHeadings (promoteContentHeadings c) = c := by
  rw [promote_as_map, demote_as_map,
    splitlines_joinlines _ (map_ne_nil_of_ne_nil _ _ (splitlines_ne_nil c))
      (fun l hl => by
        rcases List.mem_map.mp hl with ⟨x, hx, rfl⟩
        exact promoteLine_no_newline x (no_newline_of_mem_splitlines c x hx)),
    List.map_map,
    list_map_id_of_mem (demoteLine ∘ promoteLine) _ (fun l hl =>
      demote_promote_line l (h l hl)),
    joinlines_splitlines]

theorem openInv_blank (rec : Prompt) (buf : List Str) (q : Prompt)
    (h : openInv rec buf q) : openInv rec (buf ++ [[]]) q := by
  obtain ⟨h1, h2⟩ := h
  refine ⟨h1, ?_⟩
  intro B hB
  rcases hB with rfl | rfl
  · rw [List.append_nil]
    exact h2 [[]] (Or.inr rfl)
  · rw [trimBlank_concat_blank (buf ++ [[]])]
    have h3 := h2 [[]] (Or.inr rfl)
    exact h3

theorem openInv_v20 (gen : Nat → Str) (now : Str) (m : Nat) (sid : Str)
    (cs : Option Str) (p : Prompt) (hp : pGood p) :
    openInv (v20PromptRec gen now m sid cs p) (bufOf p) p := by
  obtain ⟨hid, ⟨st0, hst, hstne⟩, hcs⟩ := hp
  constructor
  · show getStrOr (promptMetaFields p) "id".toList (gen m) ≠ []
    rw [promptMeta_id p hid]
    exact hid
  · intro B hB
    have hbb : trimBlankLines (bufOf p ++ B) = trimBlankLines (bufOf p) := by
      rcases hB with rfl | rfl
      · rw [List.append_nil]
      · exact trimBlank_concat_blank _
    rw [hbb]
    have hcontent : demoteContentHeadings
        (joinlines (trimBlankLines (bufOf p))) = p.content := by
      unfold bufOf
      by_cases hc : p.content = []
      · rw [if_pos hc, hc]
        rfl
      · rw [if_neg hc]
        rcases hcs with hce | ⟨hhl, hstable, _⟩
        · exact absurd hce hc
        · rw [trimBlank_promote p.content hstable, joinlines_splitlines]
          exact demote_promote_content p.content hhl
    unfold pTriple v20PromptRec
    dsimp only []
    rw [hcontent, promptMeta_id p hid, promptMeta_status p st0 hst hstne, hst]

theorem bufOf_inert (p : Prompt) (hcs : contentSafe p.content) :
    ∀ l ∈ bufOf p, inertLine l := by
  unfold bufOf
  by_cases hc : p.content = []
  · rw [if_pos hc]
    intro l hl
    exact absurd hl (List.not_mem_nil l)
  · rw [if_neg hc]
    rcases hcs with hce | ⟨_, _, hsafe⟩
    · exact absurd hce hc
    · exact hsafe

theorem blank_inert : inertLine ([] : Str) := by
  refine ⟨rfl, rfl, rfl, ?_⟩
  decide

theorem saveCurrentPrompt_none (st : V20State)
    (hcp : st.currentPrompt = none) : saveCurrentPrompt st = st := by
  unfold saveCurrentPrompt
  rw [hcp]

theorem saveCurrentPrompt_some (st : V20State) (rec : Prompt)
    (hcp : st.currentPrompt = some rec) (hid : rec.id ≠ []) :
    saveCurrentPrompt st =
      { st with
        prompts := st.prompts ++
          [{ rec with
              content := demoteContentHeadings (joinlines (trimBlankLines st.buf)) }]
        currentPrompt := none
        buf := [] } := by
  unfold saveCurrentPrompt
  rw [hcp]
  dsimp only []
  rw [if_neg hid]

theorem saveCurrentPrompt_idem (st : V20State) :
    saveCurrentPrompt (saveCurrentPrompt st) = saveCurrentPrompt st := by
  cases hcp : st.currentPrompt with
  | none => rw [saveCurrentPrompt_none st hcp, saveCurrentPrompt_none st hcp]
  | some rec =>
    by_cases hid : rec.id = []
    · have h1 : saveCurrentPrompt st = st := by
        unfold saveCurrentPrompt
        rw [hcp]
        dsimp only []
        rw [if_pos hid]
      rw [h1, h1]
    · rw [saveCurrentPrompt_some st rec hcp hid]
      exact saveCurrentPrompt_none _ rfl

theorem parseV20Go_heading_save (gen : Nat → Str) (now : Str) (line : Str)
    (rest : List Str) (st : V20State)
    (h : matchH1 line ≠ none ∨ matchH2 line ≠ none ∨ matchH3 line ≠ none) :
    parseV20Go gen now (line :: rest) st =
      parseV20Go gen now (line :: rest) (saveCurrentPrompt st) := by
  rw [parseV20Go.eq_def]
  rw [parseV20Go.eq_def]
  dsimp only []
  cases hm1 : matchH1 line with
  | some nm =>
    dsimp only []
    rw [saveCurrentPrompt_idem]
  | none =>
    dsimp only []
    cases hm2 : matchH2 line with
    | some nm =>
      dsimp only []
      rw [saveCurrentPrompt_idem]
    | none =>
      dsimp only []
      cases hm3 : matchH3 line with
      | some nm =>
        dsimp only []
        rw [saveCurrentPrompt_idem]
      | none =>
        rcases h with h | h | h
        · exact absurd hm1 h
        · exact absurd hm2 h
        · exact absurd hm3 h


theorem parseV20Go_session (gen : Nat → Str) (now : Str) (s : Session)
    (R : List Str) (st : V20State) (sid : Str)
    (hset : st.currentSetId = some sid)
    (hcp : st.currentPrompt = none) :
    parseV20Go gen now
        (sessHeadLine s :: metaCommentLine (sessionMetaFields s) :: R) st =
      parseV20Go gen now R
        { st with
          sessions := st.sessions ++
            [{ id := getStrOr (sessionMetaFields s) "id".toList (gen st.n),
                name := headingName (some ((s.name.getD []).dropWhile isWS)),
                setId := sid,
                collapsed := getBoolOpt (sessionMetaFields s) "collapsed".toList }]
          currentSessionId := some (getStrOr (sessionMetaFields s) "id".toList (gen st.n))
          n := st.n + 1 } := by
  rw [parseV20Go.eq_def]
  dsimp only []
  unfold sessHeadLine
  rw [matchH1_sessHead]
  dsimp only []
  rw [matchH2_sessHead]
  dsimp only []
  rw [saveCurrentPrompt_none st hcp]
  rw [metaLookahead_stringify (sessionMetaFields s)
    (sessionMetaFields_flat s) R]
  dsimp only []
  unfold ensureSet
  dsimp only []
  rw [hset]

theorem parseV20Go_set (gen : Nat → Str) (now : Str) (b : PromptSet)
    (R : List Str) (st : V20State)
    (hcp : st.currentPrompt = none) :
    parseV20Go gen now
        (setHeadLine b :: metaCommentLine (setMetaFields b) :: R) st =
      parseV20Go gen now R
        { st with
          sets := st.sets ++
            [{ id := getStrOr (setMetaFields b) "id".toList (gen st.n),
                name := headingName (some ((b.name.getD []).dropWhile isWS)),
                active := getBoolOr (setMetaFields b) "active".toList st.sets.isEmpty,
                collapsed := getBoolOr (setMetaFields b) "collapsed".toList false,
                created := getStrOr (setMetaFields b) "created".toList now,
                folderLink := getStrOpt (setMetaFields b) "folderLink".toList }]
          currentSetId := some (getStrOr (setMetaFields b) "id".toList (gen st.n))
          currentSessionId := none
          n := st.n + 1 } := by
  rw [parseV20Go.eq_def]
  dsimp only []
  unfold setHeadLine
  rw [matchH1_setHead]
  dsimp only []
  rw [saveCurrentPrompt_none st hcp]
  rw [metaLookahead_stringify (setMetaFields b) (setMetaFields_flat b) R]


theorem parseV20Go_nil (gen : Nat → Str) (now : Str) (st : V20State) :
    parseV20Go gen now [] st = saveCurrentPrompt st := by
  rw [parseV20Go.eq_def]

theorem parseV20Go_absorb (gen : Nat → Str) (now : Str) (line : Str)
    (rest : List Str) (st : V20State)
    (h1 : matchH1 line = none) (h2 : matchH2 line = none)
    (h3 : matchH3 line = none)
    (hsep : isSeparatorLine (trim line) = false)
    (hcp : st.currentPrompt.isSome = true) :
    parseV20Go gen now (line :: rest) st =
      parseV20Go gen now rest
        { st with buf := st.buf ++ [line] } := by
  rw [parseV20Go.eq_def]
  dsimp only []
  rw [h1]
  dsimp only []
  rw [h2]
  dsimp only []
  rw [h3]
  dsimp only []
  rw [if_neg (fun hh => Bool.false_ne_true (hsep ▸ hh)), if_pos hcp]

theorem parseV20Go_skip (gen : Nat → Str) (now : Str) (line : Str)
    (rest : List Str) (st : V20State)
    (h1 : matchH1 line = none) (h2 : matchH2 line = none)
    (h3 : matchH3 line = none)
    (hsep : isSeparatorLine (trim line) = false)
    (hcp : st.currentPrompt = none) :
    parseV20Go gen now (line :: rest) st = parseV20Go gen now rest st := by
  rw [parseV20Go.eq_def]
  dsimp only []
  rw [h1]
  dsimp only []
  rw [h2]
  dsimp only []
  rw [h3]
  dsimp only []
  rw [if_neg (fun hh => Bool.false_ne_true (hsep ▸ hh)),
    if_neg (fun hh => by rw [hcp] at hh; exact Bool.false_ne_true hh)]

theorem parseV20Go_prompt (gen : Nat → Str) (now : Str) (p : Prompt)
    (R : List Str) (st : V20State) (sid : Str)
    (hset : st.currentSetId = some sid)
    (hcp : st.currentPrompt = none) :
    parseV20Go gen now
        (promptHeadLine p :: metaCommentLine (promptMetaFields p) :: R) st =
      parseV20Go gen now R
        { st with
          n := st.n + 1
          currentPrompt := some (v20PromptRec gen now st.n sid
            st.currentSessionId p)
          buf := [] } := by
  rw [parseV20Go.eq_def]
  dsimp only []
  unfold promptHeadLine
  rw [matchH1_promptHead]
  dsimp only []
  rw [matchH2_promptHead]
  dsimp only []
  rw [matchH3_promptHead]
  dsimp only []
  rw [saveCurrentPrompt_none st hcp]
  rw [metaLookahead_stringify (promptMetaFields p) (promptMetaFields_flat p) R]
  dsimp only []
  unfold ensureSet
  dsimp only []
  rw [hset]
  dsimp only []
  unfold v20PromptRec
  rfl


theorem sepNN_cons (L : List Str) (Ls : List (List Str)) :
    sepNN (L :: Ls) = L ++ (Ls.map (fun M => ([] : Str) :: M)).flatten := by
  induction Ls generalizing L with
  | nil =>
    rw [show ((List.map (fun M => ([] : Str) :: M)
        ([] : List (List Str))).flatten : List Str) = [] from rfl,
      List.append_nil]
    rfl
  | cons M Ms ih =>
    rw [show sepNN (L :: M :: Ms) = L ++ ([] : Str) :: sepNN (M :: Ms) from
      rfl, ih M, List.map_cons, List.flatten_cons]
    rfl

theorem sepNN_eq_restLines (p : Prompt) (ps : List Prompt) :
    sepNN ((p :: ps).map promptLines) = promptLines p ++ restLines ps := by
  rw [List.map_cons, sepNN_cons, List.map_map]
  rfl

theorem sepNN_eq_restBlockLines (b : CanonBlock) (bs : List CanonBlock) :
    sepNN ((b :: bs).map blockLines) = blockLines b ++ restBlockLines bs := by
  rw [List.map_cons, sepNN_cons, List.map_map]
  rfl

theorem save_pend (st : V20State) (opt : Option Prompt)
    (hpend : pendState st.currentPrompt st.buf opt) :
    ∃ C, saveCurrentPrompt st =
        { st with
          prompts := st.prompts ++ C
          currentPrompt := none
          buf := [] } ∧
      C.map pTriple = opt.toList.map pTriple := by
  cases opt with
  | none =>
    obtain ⟨hcp, hbuf⟩ := hpend
    refine ⟨[], ?_, rfl⟩
    rw [saveCurrentPrompt_none st hcp, List.append_nil]
    obtain ⟨s1, s2, s3, s4, s5, s6, s7, s8⟩ := st
    dsimp only [] at hcp hbuf ⊢
    subst hcp
    subst hbuf
    rfl
  | some q =>
    obtain ⟨rec, hcp, hinv⟩ := hpend
    refine ⟨[{ rec with
        content := demoteContentHeadings (joinlines (trimBlankLines st.buf)) }],
      saveCurrentPrompt_some st rec hcp hinv.1, ?_⟩
    have h2 := hinv.2 [] (Or.inl rfl)
    rw [List.append_nil] at h2
    show [pTriple _] = [pTriple q]
    rw [h2]

theorem parseV20Go_absorb_many (gen : Nat → Str) (now : Str) (ls : List Str)
    (h : ∀ l ∈ ls, inertLine l) :
    ∀ (rest : List Str) (st : V20State), st.currentPrompt.isSome = true →
    parseV20Go gen now (ls ++ rest) st =
      parseV20Go gen now rest { st with buf := st.buf ++ ls } := by
  induction ls with
  | nil =>
    intro rest st _
    rw [List.nil_append, List.append_nil]
  | cons l ls ih =>
    intro rest st hcp
    obtain ⟨h1, h2, h3, hsep⟩ := h l (by simp)
    rw [List.cons_append,
      parseV20Go_absorb gen now l (ls ++ rest) st h1 h2 h3 hsep hcp,
      ih (fun x hx => h x (by simp [hx])) rest
        { st with buf := st.buf ++ [l] } hcp]
    dsimp only []
    rw [List.append_assoc]
    rfl

theorem parseV20Go_set_canon (gen : Nat → Str) (now : Str) (b : PromptSet)
    (R : List Str) (st : V20State)
    (hcp : st.currentPrompt = none) (hid : b.id ≠ [])
    (hnm : lineSafeName b.name) :
    ∃ s' : PromptSet, sQuad s' = sQuad b ∧
      parseV20Go gen now
          (setHeadLine b :: metaCommentLine (setMetaFields b) :: R) st =
        parseV20Go gen now R
          { st with
            sets := st.sets ++ [s']
            currentSetId := some b.id
            currentSessionId := none
            n := st.n + 1 } := by
  refine ⟨{ id := b.id
            name := b.name
            active := b.active
            collapsed := b.collapsed
            created := getStrOr (setMetaFields b) "created".toList now
            folderLink := getStrOpt (setMetaFields b) "folderLink".toList },
    rfl, ?_⟩
  rw [parseV20Go_set gen now b R st hcp, setMeta_id b hid,
    headingName_safe b.name hnm, setMeta_active b, setMeta_collapsed b]

theorem run_ptail (gen : Nat → Str) (now : Str) (sid : Str)
    (ps : List Prompt) :
    ∀ (suffix : List Str) (s0 : List PromptSet) (e0 : List Session)
      (r0 : List Prompt) (cs : Option Str) (rec : Prompt) (buf0 : List Str)
      (n0 : Nat) (q : Prompt),
      (∀ p ∈ ps, pGood p) → openInv rec buf0 q →
    ∃ (P : List Prompt) (rec' : Prompt) (buf' : List Str) (n' : Nat)
      (q' : Prompt),
      parseV20Go gen now (restLines ps ++ suffix)
          ⟨s0, e0, r0, some sid, cs, some rec, buf0, n0⟩ =
        parseV20Go gen now suffix
          ⟨s0, e0, r0 ++ P, some sid, cs, some rec', buf', n'⟩ ∧
      P.map pTriple ++ [pTriple q'] = (q :: ps).map pTriple ∧
      openInv rec' buf' q' := by
  induction ps with
  | nil =>
    intro suffix s0 e0 r0 cs rec buf0 n0 q hps hinv
    refine ⟨[], rec, buf0, n0, q, ?_, by simp, hinv⟩
    rw [show restLines [] = [] from rfl, List.nil_append, List.append_nil]
  | cons p ps' ih =>
    intro suffix s0 e0 r0 cs rec buf0 n0 q hps hinv
    have hlines : restLines (p :: ps') ++ suffix =
        ([] : Str) :: (promptHeadLine p ::
          metaCommentLine (promptMetaFields p) ::
          (bufOf p ++ (restLines ps' ++ suffix))) := by
      unfold restLines promptLines bufOf
      rw [List.map_cons, List.flatten_cons]
      simp
    rw [hlines]
    rw [parseV20Go_absorb gen now [] _
      ⟨s0, e0, r0, some sid, cs, some rec, buf0, n0⟩ blank_inert.1
      blank_inert.2.1 blank_inert.2.2.1 blank_inert.2.2.2 rfl]
    dsimp only []
    have hh3 : matchH3 (promptHeadLine p) =
        some (some ((p.metadata.name.getD []).dropWhile isWS)) := by
      unfold promptHeadLine
      exact matchH3_promptHead _
    rw [parseV20Go_heading_save gen now (promptHeadLine p) _ _
      (Or.inr (Or.inr (by rw [hh3]; exact fun hh => Option.noConfusion hh)))]
    obtain ⟨C, hsave, hC⟩ := save_pend
      ⟨s0, e0, r0, some sid, cs, some rec, buf0 ++ [[]], n0⟩ (some q)
      ⟨rec, rfl, openInv_blank rec buf0 q hinv⟩
    rw [hsave]
    dsimp only []
    rw [parseV20Go_prompt gen now p (bufOf p ++ (restLines ps' ++ suffix))
      ⟨s0, e0, r0 ++ C, some sid, cs, none, [], n0⟩ sid rfl rfl]
    dsimp only []
    rw [parseV20Go_absorb_many gen now (bufOf p)
      (bufOf_inert p (hps p (by simp)).2.2) (restLines ps' ++ suffix)
      ⟨s0, e0, r0 ++ C, some sid, cs,
        some (v20PromptRec gen now n0 sid cs p), [], n0 + 1⟩ rfl]
    dsimp only []
    rw [List.nil_append]
    obtain ⟨P1, rec', buf', n', q', hrun, hmap, hinv'⟩ :=
      ih suffix s0 e0 (r0 ++ C) cs (v20PromptRec gen now n0 sid cs p)
        (bufOf p) (n0 + 1) p
        (fun x hx => hps x (by simp [hx]))
        (openInv_v20 gen now n0 sid cs p (hps p (by simp)))
    rw [hrun]
    refine ⟨C ++ P1, rec', buf', n', q', ?_, ?_, hinv'⟩
    · rw [List.append_assoc]
    · rw [List.map_append, List.append_assoc, hmap, hC]
      rfl

theorem run_groups (gen : Nat → Str) (now : Str) (sid : Str)
    (gs : List CanonGroup) :
    ∀ (suffix : List Str) (s0 : List PromptSet) (e0 : List Session)
      (r0 : List Prompt) (cs : Option Str) (cp : Option Prompt)
      (buf0 : List Str) (n0 : Nat) (opt : Option Prompt),
      (∀ g ∈ gs, g.prompts ≠ [] ∧ ∀ p ∈ g.prompts, pGood p) →
      pendState cp buf0 opt →
      (gs ≠ [] ∨ ∃ q, opt = some q) →
    ∃ (E : List Session) (P : List Prompt) (cs' : Option Str)
      (rec' : Prompt) (buf' : List Str) (n' : Nat) (q' : Prompt),
      parseV20Go gen now ((gs.map groupLines).flatten ++ suffix)
          ⟨s0, e0, r0, some sid, cs, cp, buf0, n0⟩ =
        parseV20Go gen now suffix
          ⟨s0, e0 ++ E, r0 ++ P, some sid, cs', some rec', buf', n'⟩ ∧
      P.map pTriple ++ [pTriple q'] =
        opt.toList.map pTriple ++ (gsPrompts gs).map pTriple ∧
      openInv rec' buf' q' := by
  induction gs with
  | nil =>
    intro suffix s0 e0 r0 cs cp buf0 n0 opt hgs hpend hne
    rcases hne with hne | ⟨q, hopt⟩
    · exact absurd rfl hne
    · subst hopt
      obtain ⟨rec, hcp, hinv⟩ := hpend
      subst hcp
      refine ⟨[], [], cs, rec, buf0, n0, q, ?_, ?_, hinv⟩
      · rw [show ((([] : List CanonGroup).map groupLines).flatten :
            List Str) = [] from rfl, List.nil_append, List.append_nil,
          List.append_nil]
      · show [] ++ [pTriple q] = [pTriple q] ++ (gsPrompts []).map pTriple
        rw [List.nil_append, show (gsPrompts []).map pTriple = [] from rfl,
          List.append_nil]
  | cons g gs' ih =>
    intro suffix s0 e0 r0 cs cp buf0 n0 opt hgs hpend hne
    obtain ⟨hgne, hgood⟩ := hgs g (by simp)
    obtain ⟨p1, pr, hpr⟩ := List.exists_cons_of_ne_nil hgne
    rw [show (((g :: gs').map groupLines).flatten ++ suffix : List Str) =
      groupLines g ++ (((gs'.map groupLines).flatten) ++ suffix) from by
      rw [List.map_cons, List.flatten_cons, List.append_assoc]]
    cases hsess : g.sess with
    | some s =>
      rw [show groupLines g ++ (((gs'.map groupLines).flatten) ++ suffix) =
        sessHeadLine s :: metaCommentLine (sessionMetaFields s) ::
          (([] : Str) :: (sepNN (g.prompts.map promptLines) ++
            (((gs'.map groupLines).flatten) ++ suffix))) from by
        unfold groupLines
        rw [hsess]
        simp]
      have hh2 : matchH2 (sessHeadLine s) =
          some (some ((s.name.getD []).dropWhile isWS)) := by
        unfold sessHeadLine
        exact matchH2_sessHead _
      rw [parseV20Go_heading_save gen now (sessHeadLine s) _ _
        (Or.inr (Or.inl (by rw [hh2]; exact fun hh => Option.noConfusion hh)))]
      obtain ⟨C, hsave, hC⟩ := save_pend
        ⟨s0, e0, r0, some sid, cs, cp, buf0, n0⟩ opt hpend
      rw [hsave]
      dsimp only []
      rw [parseV20Go_session gen now s
        (([] : Str) :: (sepNN (g.prompts.map promptLines) ++
          (((gs'.map groupLines).flatten) ++ suffix)))
        ⟨s0, e0, r0 ++ C, some sid, cs, none, [], n0⟩ sid rfl rfl]
      dsimp only []
      set eRec : Session :=
        { id := getStrOr (sessionMetaFields s) "id".toList (gen n0)
          name := headingName (some ((s.name.getD []).dropWhile isWS))
          setId := sid
          collapsed := getBoolOpt (sessionMetaFields s) "collapsed".toList }
        with heRec
      set eId : Str := getStrOr (sessionMetaFields s) "id".toList (gen n0)
        with heId
      rw [parseV20Go_skip gen now [] _ _ blank_inert.1 blank_inert.2.1
        blank_inert.2.2.1 blank_inert.2.2.2 rfl]
      rw [hpr, sepNN_eq_restLines p1 pr, List.append_assoc]
      rw [show promptLines p1 ++ (restLines pr ++
          (((gs'.map groupLines).flatten) ++ suffix)) =
        promptHeadLine p1 :: metaCommentLine (promptMetaFields p1) ::
          (bufOf p1 ++ (restLines pr ++
            (((gs'.map groupLines).flatten) ++ suffix))) from by
        unfold promptLines bufOf
        simp]
      rw [parseV20Go_prompt gen now p1 _
        ⟨s0, e0 ++ [eRec],
          r0 ++ C, some sid,
          some eId,
          none, [], n0 + 1⟩ sid rfl rfl]
      dsimp only []
      rw [parseV20Go_absorb_many gen now (bufOf p1)
        (bufOf_inert p1 (hgood p1 (by rw [hpr]; simp)).2.2) _
        ⟨s0, e0 ++ [eRec],
          r0 ++ C, some sid,
          some eId,
          some (v20PromptRec gen now (n0 + 1) sid
            (some eId) p1),
          [], n0 + 1 + 1⟩ rfl]
      dsimp only []
      rw [List.nil_append]
      obtain ⟨P1, rec1, buf1, n1, qmid, hrun1, hmap1, hinv1⟩ :=
        run_ptail gen now sid pr (((gs'.map groupLines).flatten) ++ suffix)
          s0
          (e0 ++ [eRec])
          (r0 ++ C)
          (some eId)
          (v20PromptRec gen now (n0 + 1) sid
            (some eId) p1)
          (bufOf p1) (n0 + 1 + 1) p1
          (fun x hx => hgood x (by rw [hpr]; simp [hx]))
          (openInv_v20 gen now (n0 + 1) sid _ p1 (hgood p1 (by rw [hpr]; simp)))
      rw [hrun1]
      obtain ⟨E2, P2, cs2, rec2, buf2, n2, q2, hrun2, hmap2, hinv2⟩ :=
        ih suffix s0
          (e0 ++ [eRec])
          ((r0 ++ C) ++ P1)
          (some eId)
          (some rec1) buf1 n1 (some qmid)
          (fun g2 hg2 => hgs g2 (by simp [hg2]))
          ⟨rec1, rfl, hinv1⟩
          (Or.inr ⟨qmid, rfl⟩)
      rw [hrun2]
      refine ⟨[eRec] ++ E2,
        C ++ P1 ++ P2, cs2, rec2, buf2, n2, q2, ?_, ?_, hinv2⟩
      · rw [List.append_assoc, List.append_assoc, List.append_assoc,
          List.append_assoc C P1 P2]
      · rw [List.map_append, List.map_append, hC]
        rw [show (gsPrompts (g :: gs')).map pTriple =
          (p1 :: pr).map pTriple ++ (gsPrompts gs').map pTriple from by
          unfold gsPrompts
          rw [List.map_cons, List.flatten_cons, hpr, List.map_append]]
        rw [List.append_assoc, List.append_assoc]
        congr 1
        rw [← hmap1, List.append_assoc]
        congr 1
    | none =>
      rw [show groupLines g ++ (((gs'.map groupLines).flatten) ++ suffix) =
        sepNN (g.prompts.map promptLines) ++
          (((gs'.map groupLines).flatten) ++ suffix) from by
        unfold groupLines
        rw [hsess]
        simp]
      rw [hpr, sepNN_eq_restLines p1 pr, List.append_assoc]
      rw [show promptLines p1 ++ (restLines pr ++
          (((gs'.map groupLines).flatten) ++ suffix)) =
        promptHeadLine p1 :: metaCommentLine (promptMetaFields p1) ::
          (bufOf p1 ++ (restLines pr ++
            (((gs'.map groupLines).flatten) ++ suffix))) from by
        unfold promptLines bufOf
        simp]
      have hh3 : matchH3 (promptHeadLine p1) =
          some (some ((p1.metadata.name.getD []).dropWhile isWS)) := by
        unfold promptHeadLine
        exact matchH3_promptHead _
      rw [parseV20Go_heading_save gen now (promptHeadLine p1) _ _
        (Or.inr (Or.inr (by rw [hh3]; exact fun hh => Option.noConfusion hh)))]
      obtain ⟨C, hsave, hC⟩ := save_pend
        ⟨s0, e0, r0, some sid, cs, cp, buf0, n0⟩ opt hpend
      rw [hsave]
      dsimp only []
      rw [parseV20Go_prompt gen now p1 _
        ⟨s0, e0, r0 ++ C, some sid, cs, none, [], n0⟩ sid rfl rfl]
      dsimp only []
      rw [parseV20Go_absorb_many gen now (bufOf p1)
        (bufOf_inert p1 (hgood p1 (by rw [hpr]; simp)).2.2) _
        ⟨s0, e0, r0 ++ C, some sid, cs,
          some (v20PromptRec gen now n0 sid cs p1), [], n0 + 1⟩ rfl]
      dsimp only []
      rw [List.nil_append]
      obtain ⟨P1, rec1, buf1, n1, qmid, hrun1, hmap1, hinv1⟩ :=
        run_ptail gen now sid pr (((gs'.map groupLines).flatten) ++ suffix)
          s0 e0 (r0 ++ C) cs (v20PromptRec gen now n0 sid cs p1)
          (bufOf p1) (n0 + 1) p1
          (fun x hx => hgood x (by rw [hpr]; simp [hx]))
          (openInv_v20 gen now n0 sid cs p1 (hgood p1 (by rw [hpr]; simp)))
      rw [hrun1]
      obtain ⟨E2, P2, cs2, rec2, buf2, n2, q2, hrun2, hmap2, hinv2⟩ :=
        ih suffix s0 e0 ((r0 ++ C) ++ P1) cs (some rec1) buf1 n1 (some qmid)
          (fun g2 hg2 => hgs g2 (by simp [hg2]))
          ⟨rec1, rfl, hinv1⟩
          (Or.inr ⟨qmid, rfl⟩)
      rw [hrun2]
      refine ⟨E2, C ++ P1 ++ P2, cs2, rec2, buf2, n2, q2, ?_, ?_, hinv2⟩
      · rw [List.append_assoc, List.append_assoc,
          List.append_assoc C P1 P2]
      · rw [List.map_append, List.map_append, hC]
        rw [show (gsPrompts (g :: gs')).map pTriple =
          (p1 :: pr).map pTriple ++ (gsPrompts gs').map pTriple from by
          unfold gsPrompts
          rw [List.map_cons, List.flatten_cons, hpr, List.map_append]]
        rw [List.append_assoc, List.append_assoc]
        congr 1
        rw [← hmap1, List.append_assoc]
        congr 1

theorem run_block (gen : Nat → Str) (now : Str) (b : CanonBlock)
    (suffix : List Str) (s0 : List PromptSet) (e0 : List Session)
    (r0 : List Prompt) (csid : Option Str) (cs : Option Str)
    (cp : Option Prompt) (buf0 : List Str) (n0 : Nat) (opt : Option Prompt)
    (hid : b.set.id ≠ []) (hnm : lineSafeName b.set.name)
    (hgne : b.groups ≠ [])
    (hgs : ∀ g ∈ b.groups, g.prompts ≠ [] ∧ ∀ p ∈ g.prompts, pGood p)
    (hpend : pendState cp buf0 opt) :
    ∃ (s' : PromptSet) (E : List Session) (P : List Prompt)
      (cs' : Option Str) (rec' : Prompt) (buf' : List Str) (n' : Nat)
      (q' : Prompt),
      parseV20Go gen now (blockLines b ++ suffix)
          ⟨s0, e0, r0, csid, cs, cp, buf0, n0⟩ =
        parseV20Go gen now suffix
          ⟨s0 ++ [s'], e0 ++ E, r0 ++ P, some b.set.id, cs', some rec',
            buf', n'⟩ ∧
      sQuad s' = sQuad b.set ∧
      P.map pTriple ++ [pTriple q'] =
        opt.toList.map pTriple ++ (gsPrompts b.groups).map pTriple ∧
      openInv rec' buf' q' := by
  rw [show blockLines b ++ suffix = setHeadLine b.set ::
    metaCommentLine (setMetaFields b.set) :: (([] : Str) ::
      ((b.groups.map groupLines).flatten ++ suffix)) from by
    unfold blockLines
    simp]
  have hh1 : matchH1 (setHeadLine b.set) =
      some (some ((b.set.name.getD []).dropWhile isWS)) := by
    unfold setHeadLine
    exact matchH1_setHead _
  rw [parseV20Go_heading_save gen now (setHeadLine b.set) _ _
    (Or.inl (by rw [hh1]; exact fun hh => Option.noConfusion hh))]
  obtain ⟨C, hsave, hC⟩ := save_pend ⟨s0, e0, r0, csid, cs, cp, buf0, n0⟩
    opt hpend
  rw [hsave]
  dsimp only []
  obtain ⟨s', hsQ, hstep⟩ := parseV20Go_set_canon gen now b.set
    (([] : Str) :: ((b.groups.map groupLines).flatten ++ suffix))
    ⟨s0, e0, r0 ++ C, csid, cs, none, [], n0⟩ rfl hid hnm
  rw [hstep]
  dsimp only []
  rw [parseV20Go_skip gen now [] _ _ blank_inert.1 blank_inert.2.1
    blank_inert.2.2.1 blank_inert.2.2.2 rfl]
  obtain ⟨E, P, cs', rec', buf', n', q', hrun, hmap, hinv⟩ :=
    run_groups gen now b.set.id b.groups suffix (s0 ++ [s']) e0 (r0 ++ C)
      none none [] (n0 + 1) none hgs ⟨rfl, rfl⟩ (Or.inl hgne)
  rw [hrun]
  refine ⟨s', E, C ++ P, cs', rec', buf', n', q', ?_, hsQ, ?_, hinv⟩
  · rw [List.append_assoc]
  · rw [List.map_append, List.append_assoc, hmap, hC]
    rfl

theorem run_blockTail (gen : Nat → Str) (now : Str) (bs : List CanonBlock) :
    ∀ (suffix : List Str) (s0 : List PromptSet) (e0 : List Session)
      (r0 : List Prompt) (csid : Option Str) (cs : Option Str)
      (rec : Prompt) (buf0 : List Str) (n0 : Nat) (q : Prompt),
      (∀ b ∈ bs, b.set.id ≠ [] ∧ lineSafeName b.set.name ∧ b.groups ≠ [] ∧
        ∀ g ∈ b.groups, g.prompts ≠ [] ∧ ∀ p ∈ g.prompts, pGood p) →
      openInv rec buf0 q →
    ∃ (S : List PromptSet) (E : List Session) (P : List Prompt)
      (csid' : Option Str) (cs' : Option Str) (rec' : Prompt)
      (buf' : List Str) (n' : Nat) (q' : Prompt),
      parseV20Go gen now (restBlockLines bs ++ suffix)
          ⟨s0, e0, r0, csid, cs, some rec, buf0, n0⟩ =
        parseV20Go gen now suffix
          ⟨s0 ++ S, e0 ++ E, r0 ++ P, csid', cs', some rec', buf', n'⟩ ∧
      S.map sQuad = bs.map (fun b => sQuad b.set) ∧
      P.map pTriple ++ [pTriple q'] =
        pTriple q ::
          ((bs.map (fun b => gsPrompts b.groups)).flatten).map pTriple ∧
      openInv rec' buf' q' := by
  induction bs with
  | nil =>
    intro suffix s0 e0 r0 csid cs rec buf0 n0 q hbs hinv
    refine ⟨[], [], [], csid, cs, rec, buf0, n0, q, ?_, rfl, by simp, hinv⟩
    rw [show restBlockLines [] = [] from rfl, List.nil_append,
      List.append_nil, List.append_nil, List.append_nil]
  | cons b bs' ih =>
    intro suffix s0 e0 r0 csid cs rec buf0 n0 q hbs hinv
    rw [show restBlockLines (b :: bs') ++ suffix =
      ([] : Str) :: (blockLines b ++ (restBlockLines bs' ++ suffix)) from by
      unfold restBlockLines
      rw [List.map_cons, List.flatten_cons]
      simp]
    rw [parseV20Go_absorb gen now [] _
      ⟨s0, e0, r0, csid, cs, some rec, buf0, n0⟩ blank_inert.1
      blank_inert.2.1 blank_inert.2.2.1 blank_inert.2.2.2 rfl]
    dsimp only []
    obtain ⟨hid, hnm, hgne, hgs⟩ := hbs b (by simp)
    obtain ⟨s', E1, P1, cs1, rec1, buf1, n1, q1, hrun1, hsQ1, hmap1, hinv1⟩ :=
      run_block gen now b (restBlockLines bs' ++ suffix) s0 e0 r0 csid cs
        (some rec) (buf0 ++ [[]]) n0 (some q) hid hnm hgne hgs
        ⟨rec, rfl, openInv_blank rec buf0 q hinv⟩
    rw [hrun1]
    obtain ⟨S2, E2, P2, csid2, cs2, rec2, buf2, n2, q2, hrun2, hS2, hmap2,
      hinv2⟩ :=
      ih suffix (s0 ++ [s']) (e0 ++ E1) (r0 ++ P1) (some b.set.id) cs1 rec1
        buf1 n1 q1 (fun b2 hb2 => hbs b2 (by simp [hb2])) hinv1
    rw [hrun2]
    refine ⟨[s'] ++ S2, E1 ++ E2, P1 ++ P2, csid2, cs2, rec2, buf2, n2, q2,
      ?_, ?_, ?_, hinv2⟩
    · rw [List.append_assoc, List.append_assoc, List.append_assoc]
    · rw [List.map_append, hS2]
      rw [show (List.map sQuad [s'] : List (Str × Option Str × Bool × Bool)) =
        [sQuad b.set] from by rw [List.map_cons, List.map_nil, hsQ1]]
      rfl
    · rw [List.map_append, List.append_assoc, hmap2]
      rw [show List.map pTriple P1 ++ (pTriple q1 ::
          ((bs'.map (fun b => gsPrompts b.groups)).flatten).map pTriple) =
        (List.map pTriple P1 ++ [pTriple q1]) ++
          ((bs'.map (fun b => gsPrompts b.groups)).flatten).map pTriple from
        by rw [List.append_assoc]; rfl]
      rw [hmap1]
      rw [show (((b :: bs').map (fun b => gsPrompts b.groups)).flatten).map
          pTriple = (gsPrompts b.groups).map pTriple ++
          ((bs'.map (fun b => gsPrompts b.groups)).flatten).map pTriple from
        by rw [List.map_cons, List.flatten_cons, List.map_append]]
      rw [List.append_assoc]
      rfl

theorem no_nl_nameGetD (nm : Option Str) (h : lineSafeName nm) :
    '\n' ∉ nm.getD [] := by
  cases nm with
  | none => exact List.not_mem_nil '\n'
  | some x => exact h.2.2

theorem no_nl_promptLines (p : Prompt) (hnm : lineSafeName p.metadata.name)
    (hcs : contentSafe p.content) :
    ∀ l ∈ promptLines p, '\n' ∉ l := by
  intro l hl
  unfold promptLines at hl
  rcases List.mem_append.mp hl with h | h
  · rcases List.mem_cons.mp h with rfl | h2
    · show '\n' ∉ promptHeadLine p
      unfold promptHeadLine
      intro hm
      rcases List.mem_cons.mp hm with hc | hm
      · exact absurd hc.symm (by decide)
      rcases List.mem_cons.mp hm with hc | hm
      · exact absurd hc.symm (by decide)
      rcases List.mem_cons.mp hm with hc | hm
      · exact absurd hc.symm (by decide)
      rcases List.mem_cons.mp hm with hc | hm
      · exact absurd hc.symm (by decide)
      · exact no_nl_nameGetD p.metadata.name hnm hm
    · rcases List.mem_cons.mp h2 with rfl | h3
      · exact no_nl_metaCommentLine _ (promptMetaFields_flat p)
      · exact absurd h3 (List.not_mem_nil l)
  · by_cases hc : p.content = []
    · rw [if_pos hc] at h
      exact absurd h (List.not_mem_nil l)
    · rw [if_neg hc] at h
      exact no_newline_of_mem_splitlines _ l h
  
theorem no_nl_groupLines (set : PromptSet) (g : CanonGroup)
    (hg : groupCanon set g) : ∀ l ∈ groupLines g, '\n' ∉ l := by
  intro l hl
  obtain ⟨hpne, hsess, hps⟩ := hg
  unfold groupLines at hl
  rcases List.mem_append.mp hl with h | h
  · cases hgs : g.sess with
    | none =>
      rw [hgs] at h
      exact absurd h (List.not_mem_nil l)
    | some s =>
      rw [hgs] at h hsess
      rcases List.mem_cons.mp h with rfl | h2
      · show '\n' ∉ sessHeadLine s
        unfold sessHeadLine
        intro hm
        rcases List.mem_cons.mp hm with hc | hm
        · exact absurd hc.symm (by decide)
        rcases List.mem_cons.mp hm with hc | hm
        · exact absurd hc.symm (by decide)
        rcases List.mem_cons.mp hm with hc | hm
        · exact absurd hc.symm (by decide)
        · exact no_nl_nameGetD s.name hsess.2.2 hm
      rcases List.mem_cons.mp h2 with rfl | h3
      · exact no_nl_metaCommentLine _ (sessionMetaFields_flat s)
      rcases List.mem_cons.mp h3 with rfl | h4
      · exact List.not_mem_nil '\n'
      · exact absurd h4 (List.not_mem_nil l)
  · rcases mem_sepNN _ _ h with rfl | ⟨L, hL, hmem⟩
    · exact List.not_mem_nil '\n'
    · rcases List.mem_map.mp hL with ⟨p, hp, rfl⟩
      obtain ⟨_, _, _, _, hnm, hcs⟩ := hps p hp
      exact no_nl_promptLines p hnm hcs l hmem

theorem no_nl_blockLines (b : CanonBlock) (hb : blockCanon b) :
    ∀ l ∈ blockLines b, '\n' ∉ l := by
  intro l hl
  obtain ⟨hid, hnm, hgne, hgnd, htail, hgs⟩ := hb
  unfold blockLines at hl
  rcases List.mem_cons.mp hl with rfl | h2
  · show '\n' ∉ setHeadLine b.set
    unfold setHeadLine
    intro hm
    rcases List.mem_cons.mp hm with hc | hm
    · exact absurd hc.symm (by decide)
    rcases List.mem_cons.mp hm with hc | hm
    · exact absurd hc.symm (by decide)
    · exact no_nl_nameGetD b.set.name hnm hm
  rcases List.mem_cons.mp h2 with rfl | h3
  · exact no_nl_metaCommentLine _ (setMetaFields_flat b.set)
  rcases List.mem_cons.mp h3 with rfl | h4
  · exact List.not_mem_nil '\n'
  · rcases List.mem_flatten.mp h4 with ⟨L, hL, hmem⟩
    rcases List.mem_map.mp hL with ⟨g, hg, rfl⟩
    exact no_nl_groupLines b.set g (hgs g hg) l hmem

theorem no_nl_canonOut (blocks : List CanonBlock)
    (hbs : ∀ b ∈ blocks, blockCanon b) :
    ∀ l ∈ canonOutLines blocks, '\n' ∉ l := by
  intro l hl
  unfold canonOutLines at hl
  rcases List.mem_append.mp hl with h | h
  · rcases mem_sepNN _ _ h with rfl | ⟨L, hL, hmem⟩
    · exact List.not_mem_nil '\n'
    · rcases List.mem_map.mp hL with ⟨b, hb, rfl⟩
      exact no_nl_blockLines b (hbs b hb) l hmem
  · rcases List.mem_cons.mp h with rfl | h2
    · exact List.not_mem_nil '\n'
    · exact absurd h2 (List.not_mem_nil l)

theorem canonOutLines_ne_nil (blocks : List CanonBlock) :
    canonOutLines blocks ≠ [] := by
  unfold canonOutLines
  intro h
  rcases List.append_eq_nil.mp h with ⟨_, h2⟩
  exact List.noConfusion h2

theorem splitlines_canonOut (blocks : List CanonBlock)
    (hbs : ∀ b ∈ blocks, blockCanon b) :
    splitlines (joinlines (canonOutLines blocks)) = canonOutLines blocks :=
  splitlines_joinlines _ (canonOutLines_ne_nil blocks) (no_nl_canonOut blocks hbs)

theorem pGood_of_promptCanon (set : PromptSet) (g : CanonGroup) (p : Prompt)
    (h : promptCanon set g p) : pGood p := by
  obtain ⟨hid, _, _, hst, hnm, hcs⟩ := h
  refine ⟨hid, ?_, hcs⟩
  cases hq : p.metadata.status with
  | none => rw [hq] at hst; exact hst.elim
  | some st => rw [hq] at hst; exact ⟨st, rfl, hst⟩

theorem blockCanon_good (b : CanonBlock) (hb : blockCanon b) :
    b.set.id ≠ [] ∧ lineSafeName b.set.name ∧ b.groups ≠ [] ∧
    ∀ g ∈ b.groups, g.prompts ≠ [] ∧ ∀ p ∈ g.prompts, pGood p := by
  obtain ⟨hid, hnm, hgne, _, _, hgs⟩ := hb
  exact ⟨hid, hnm, hgne, fun g hg => ⟨(hgs g hg).1,
    fun p hp => pGood_of_promptCanon b.set g p ((hgs g hg).2.2 p hp)⟩⟩

theorem parseV20Format_canon (gen : Nat → Str) (n₀ : Nat) (now : Str)
    (b0 : CanonBlock) (brest : List CanonBlock)
    (hbs : ∀ b ∈ b0 :: brest, blockCanon b) :
    ∃ (S : List PromptSet) (E : List Session) (P : List Prompt) (n' : Nat),
      parseV20Format gen n₀ now (joinlines (canonOutLines (b0 :: brest))) =
        (ensureActiveSet S, E, P, n') ∧
      S.map sQuad = (b0 :: brest).map (fun b => sQuad b.set) ∧
      P.map pTriple = (canonPrompts (b0 :: brest)).map pTriple := by
  have hsplit := splitlines_canonOut (b0 :: brest) hbs
  have hlines : canonOutLines (b0 :: brest) =
      blockLines b0 ++ (restBlockLines brest ++ [[]]) := by
    unfold canonOutLines
    rw [sepNN_eq_restBlockLines, List.append_assoc]
  obtain ⟨hid0, hnm0, hgne0, hgs0⟩ := blockCanon_good b0 (hbs b0 (by simp))
  obtain ⟨s1, E1, P1, cs1, rec1, buf1, n1, q1, hrun1, hsQ1, hmap1, hinv1⟩ :=
    run_block gen now b0 (restBlockLines brest ++ [[]]) [] [] [] none none
      none [] n₀ none hid0 hnm0 hgne0 hgs0 ⟨rfl, rfl⟩
  obtain ⟨S2, E2, P2, csid2, cs2, rec2, buf2, n2, q2, hrun2, hS2, hmap2,
    hinv2⟩ :=
    run_blockTail gen now brest [[]] ([] ++ [s1]) ([] ++ E1) ([] ++ P1)
      (some b0.set.id) cs1 rec1 buf1 n1 q1
      (fun b hb => blockCanon_good b (hbs b (by simp [hb]))) hinv1
  obtain ⟨Cf, hsaveF, hCf⟩ := save_pend
    ⟨([] ++ [s1]) ++ S2, ([] ++ E1) ++ E2, ([] ++ P1) ++ P2, csid2, cs2,
      some rec2, buf2 ++ [[]], n2⟩ (some q2)
    ⟨rec2, rfl, openInv_blank rec2 buf2 q2 hinv2⟩
  unfold parseV20Format
  rw [hsplit, hlines, hrun1, hrun2]
  rw [parseV20Go_absorb gen now [] []
    ⟨([] ++ [s1]) ++ S2, ([] ++ E1) ++ E2, ([] ++ P1) ++ P2, csid2, cs2,
      some rec2, buf2, n2⟩ blank_inert.1 blank_inert.2.1
    blank_inert.2.2.1 blank_inert.2.2.2 rfl]
  dsimp only []
  rw [parseV20Go_nil, hsaveF]
  dsimp only []
  refine ⟨([] ++ [s1]) ++ S2, ([] ++ E1) ++ E2, (([] ++ P1) ++ P2) ++ Cf,
    n2, rfl, ?_, ?_⟩
  · rw [show (([] : List PromptSet) ++ [s1]) ++ S2 = [s1] ++ S2 from by
      rw [List.nil_append], List.map_append, hS2]
    rw [show (List.map sQuad [s1] : List (Str × Option Str × Bool × Bool)) =
      [sQuad b0.set] from by rw [List.map_cons, List.map_nil, hsQ1]]
    rfl
  · rw [show (([] : List Prompt) ++ P1) ++ P2 = P1 ++ P2 from by
      rw [List.nil_append], List.map_append, List.map_append, hCf]
    rw [show ((some q2).toList.map pTriple :
      List (Str × Str × Option Str)) = [pTriple q2] from rfl]
    rw [show (canonPrompts (b0 :: brest)).map pTriple =
      (gsPrompts b0.groups).map pTriple ++
        ((brest.map (fun b => gsPrompts b.groups)).flatten).map pTriple from
      by
      unfold canonPrompts gsPrompts
      rw [List.map_cons, List.flatten_cons, List.map_append]]
    rw [List.append_assoc, hmap2]
    rw [show List.map pTriple P1 ++ (pTriple q1 ::
        ((brest.map (fun b => gsPrompts b.groups)).flatten).map pTriple) =
      (List.map pTriple P1 ++ [pTriple q1]) ++
        ((brest.map (fun b => gsPrompts b.groups)).flatten).map pTriple from
      by rw [List.append_assoc]; rfl]
    rw [hmap1]
    rfl

theorem joinlines_head_cons (c : Char) (x : Str) (ls : List Str) :
    ∃ t, joinlines ((c :: x) :: ls) = c :: t := by
  cases ls with
  | nil => exact ⟨x, rfl⟩
  | cons m ms => exact ⟨x ++ '\n' :: joinlines (m :: ms), rfl⟩

theorem canonOut_head (b0 : CanonBlock) (brest : List CanonBlock) :
    canonOutLines (b0 :: brest) =
      setHeadLine b0.set :: metaCommentLine (setMetaFields b0.set) ::
        (([] : Str) :: ((b0.groups.map groupLines).flatten ++
          (restBlockLines brest ++ [[]]))) := by
  unfold canonOutLines
  rw [sepNN_eq_restBlockLines, List.append_assoc]
  unfold blockLines
  simp

theorem strippedContent_header (t2 : Str) (c : Char)
    (hc : (c == '\n') = false) (x : Str) (ht : t2 = c :: x) :
    strippedContent
      ("<!-- prompt-canvas: \x7b\"version\":\"2.0\"\x7d -->\n".toList ++
        '\n' :: t2) = t2 := by
  unfold strippedContent
  rw [matchFileMeta_header ('\n' :: t2)]
  dsimp only []
  rw [ht]
  rw [List.dropWhile_cons, if_pos (by decide : (('\n' : Char) == '\n') = true),
    List.dropWhile_cons, if_pos (by decide : (('\n' : Char) == '\n') = true),
    List.dropWhile_cons,
    if_neg (fun hh => Bool.false_ne_true (hc ▸ hh))]

theorem trim_content_ne (c : Char) (x : Str) (hc : isWS c = false) :
    ¬(trim (c :: x) = []) := by
  obtain ⟨y, hy⟩ := trim_cons_head c hc x
  rw [hy]
  exact fun h => List.noConfusion h

theorem detect_canonOut (b0 : CanonBlock) (brest : List CanonBlock)
    (hbs : ∀ b ∈ b0 :: brest, blockCanon b) :
    detectV20Format (joinlines (canonOutLines (b0 :: brest))) = true := by
  unfold detectV20Format
  rw [splitlines_canonOut _ hbs, canonOut_head]
  have hh1 : matchH1 (setHeadLine b0.set) =
      some (some ((b0.set.name.getD []).dropWhile isWS)) := by
    unfold setHeadLine
    exact matchH1_setHead _
  have hmeta : matchMetaLine (metaCommentLine (setMetaFields b0.set)) =
      some (jsonStringify (setMetaFields b0.set)) := by
    unfold metaCommentLine
    exact matchMetaLine_stringify _
  simp only [detectV20Lines]
  rw [hh1, hmeta]
  simp

theorem ensureActiveSet_id (S : List PromptSet)
    (h : S.any (·.active) = true) : ensureActiveSet S = S := by
  cases S with
  | nil => rfl
  | cons s rest =>
    unfold ensureActiveSet
    dsimp only []
    rw [if_pos h]

theorem parse_serialize_canon (gen gen' : Nat → Str) (n₀ n₀' : Nat)
    (now now' : Str) (b0 : CanonBlock) (brest : List CanonBlock) (tn : Bool)
    (hshape : canonShape (b0 :: brest)) :
    ∃ d', parse gen' n₀' now' (serialize gen n₀ now
        (canonDoc (b0 :: brest) tn)) = some d' ∧
      d'.sets.map sQuad = (b0 :: brest).map (fun b => sQuad b.set) ∧
      d'.prompts.map pTriple = (canonPrompts (b0 :: brest)).map pTriple := by
  have hbs : ∀ b ∈ b0 :: brest, blockCanon b := hshape.2.2.2
  rw [serialize_canon gen n₀ now (b0 :: brest) tn hshape (by simp)]
  obtain ⟨t, hJ⟩ : ∃ t, joinlines (canonOutLines (b0 :: brest)) = '#' :: t := by
    rw [canonOut_head]
    exact joinlines_head_cons '#' (' ' :: b0.set.name.getD []) _
  unfold parse
  dsimp only []
  rw [strippedContent_header (joinlines (canonOutLines (b0 :: brest))) '#'
    (by decide) t hJ]
  rw [if_neg (show ¬(trim (joinlines (canonOutLines (b0 :: brest))) = [])
    from by rw [hJ]; exact trim_content_ne '#' t (by decide))]
  rw [if_pos (detect_canonOut b0 brest hbs)]
  obtain ⟨S, E, P, n', hpf, hS, hP⟩ :=
    parseV20Format_canon gen' n₀' now' b0 brest hbs
  rw [hpf]
  dsimp only []
  have hex : ∃ s ∈ S, s.active = true := by
    rcases hshape.2.2.1 with hnil | ⟨b, hb, hba⟩
    · exact absurd hnil (by simp)
    · have hmem : sQuad b.set ∈ S.map sQuad := by
        rw [hS]
        exact List.mem_map_of_mem _ hb
      rcases List.mem_map.mp hmem with ⟨s, hs, hsq⟩
      refine ⟨s, hs, ?_⟩
      have h2 := congrArg (fun x : Str × Option Str × Bool × Bool =>
        x.2.2.1) hsq
      dsimp only [] at h2
      rw [show (sQuad s).2.2.1 = s.active from rfl,
        show (sQuad b.set).2.2.1 = b.set.active from rfl] at h2
      rw [h2]
      exact hba
  have hact : S.any (·.active) = true := by
    rcases hex with ⟨s, hs, ha⟩
    exact List.any_eq_true.mpr ⟨s, hs, by rw [ha]⟩
  refine ⟨_, rfl, ?_, ?_⟩
  · show (ensureActiveSet S).map sQuad = _
    rw [ensureActiveSet_id S hact, hS]
  · exact hP

theorem parseV20Go_sep (gen : Nat → Str) (now : Str) (line : Str)
    (rest : List Str) (st : V20State)
    (h1 : matchH1 line = none) (h2 : matchH2 line = none)
    (h3 : matchH3 line = none)
    (hsep : isSeparatorLine (trim line) = true) :
    parseV20Go gen now (line :: rest) st = parseV20Go gen now rest st := by
  rw [parseV20Go.eq_def]
  dsimp only []
  rw [h1]
  dsimp only []
  rw [h2]
  dsimp only []
  rw [h3]
  dsimp only []
  rw [if_pos hsep]

/-- **C1** (counterexample to the original claim): `dashDoc` is in the
claimed canonical shape — its one prompt's `setId` names the one set, it
has no sessions, and its content `---` uses no heading at all — yet
`parse (serialize dashDoc)` drops the content: the separator-skip of
`parseV20Format` (line 764) discards any `-{3,}` line. -/
theorem claim_C1_counterexample :
    (∀ p ∈ dashDoc.prompts,
      (∃ s ∈ dashDoc.sets, p.metadata.setId = some s.id) ∧
      p.metadata.sessionId = none ∧
      ∀ l ∈ splitlines p.content, headingLevelOk l = true) ∧
    dashDoc.sets ≠ [] ∧ dashDoc.sessions = [] ∧
    (parse wGen 0 wNow (serialize wGen 0 wNow dashDoc)).map
        (fun d => d.prompts.map pTriple) ≠
      some (dashDoc.prompts.map pTriple) := by
  refine ⟨by decide, by decide, rfl, ?_⟩
  unfold parse
  dsimp only []
  rw [if_neg (by decide :
    ¬(trim (strippedContent (serialize wGen 0 wNow dashDoc)) = []))]
  rw [if_pos (by decide :
    detectV20Format (strippedContent (serialize wGen 0 wNow dashDoc)) = true)]
  unfold parseV20Format
  dsimp only []
  rw [show splitlines (strippedContent (serialize wGen 0 wNow dashDoc)) =
    setHeadLine dashSet :: metaCommentLine (setMetaFields dashSet) ::
      ([] : Str) :: promptHeadLine dashPrompt ::
      metaCommentLine (promptMetaFields dashPrompt) ::
      "---".toList :: [([] : Str)] from by decide]
  rw [parseV20Go_set wGen wNow dashSet _ ⟨[], [], [], none, none, none, [], 0⟩
    rfl]
  dsimp only []
  set SID : Str := getStrOr (setMetaFields dashSet) "id".toList (wGen 0)
    with hSID
  set SREC : PromptSet :=
    { id := SID
      name := headingName (some ((dashSet.name.getD []).dropWhile isWS))
      active := getBoolOr (setMetaFields dashSet) "active".toList
        (([] : List PromptSet).isEmpty)
      collapsed := getBoolOr (setMetaFields dashSet) "collapsed".toList false
      created := getStrOr (setMetaFields dashSet) "created".toList wNow
      folderLink := getStrOpt (setMetaFields dashSet) "folderLink".toList }
    with hSREC
  rw [parseV20Go_skip wGen wNow [] _ _ blank_inert.1 blank_inert.2.1
    blank_inert.2.2.1 blank_inert.2.2.2 rfl]
  rw [parseV20Go_prompt wGen wNow dashPrompt _
    ⟨[] ++ [SREC], [], [], some SID, none, none, [], 0 + 1⟩ SID rfl rfl]
  dsimp only []
  rw [parseV20Go_sep wGen wNow ("---".toList) _ _ (by decide) (by decide)
    (by decide) (by decide)]
  rw [parseV20Go_absorb wGen wNow [] _
    ⟨[] ++ [SREC], [], [], some SID, none,
      some (v20PromptRec wGen wNow (0 + 1) SID none dashPrompt), [],
      0 + 1 + 1⟩ blank_inert.1 blank_inert.2.1
    blank_inert.2.2.1 blank_inert.2.2.2 rfl]
  dsimp only []
  rw [parseV20Go_nil]
  rw [saveCurrentPrompt_some _ _ rfl (by rw [hSID]; decide)]
  dsimp only []
  rw [hSREC, hSID]
  decide

theorem parse_serialize_nil (gen gen' : Nat → Str) (n₀ n₀' : Nat)
    (now now' : Str) (tn : Bool) :
    ∃ d', parse gen' n₀' now' (serialize gen n₀ now (canonDoc [] tn)) =
        some d' ∧
      d'.sets.map sQuad = ([] : List CanonBlock).map (fun b => sQuad b.set) ∧
      d'.prompts.map pTriple = (canonPrompts []).map pTriple := by
  cases tn
  · exact ⟨_, rfl, rfl, rfl⟩
  · exact ⟨_, rfl, rfl, rfl⟩

/-- **C1** (amended): for every document in canonical v2.0 shape —
presented as blocks of one set each, the sessionless bucket first and one
bucket per listed session, with distinct set and session ids, an
explicitly active set (or no sets at all), heading-safe names, non-empty
ids and statuses, and prompt content that is blank-edge stable, uses
heading levels 1–3 only, and promotes to no line that reads back as a
heading or as a cosmetic `---` separator — `parse (serialize d)` returns
a document with the same sets (ids, names, active/collapsed flags) and
the same prompts (ids, content, status), in the same order.  The
original, unconditional round-trip claim is refuted by
`claim_C1_counterexample`. -/
theorem claim_C1_roundtrip (gen gen' : Nat → Str) (n₀ n₀' : Nat)
    (now now' : Str) (blocks : List CanonBlock) (tn : Bool)
    (hshape : canonShape blocks) :
    ∃ d', parse gen' n₀' now' (serialize gen n₀ now
        (canonDoc blocks tn)) = some d' ∧
      d'.sets.map sQuad = blocks.map (fun b => sQuad b.set) ∧
      d'.prompts.map pTriple = (canonPrompts blocks).map pTriple := by
  cases blocks with
  | nil => exact parse_serialize_nil gen gen' n₀ n₀' now now' tn
  | cons b0 brest =>
    exact parse_serialize_canon gen gen' n₀ n₀' now now' b0 brest tn hshape

theorem wShape1 : canonShape [wBlock1] := by
  refine ⟨by decide, by decide,
    Or.inr ⟨wBlock1, List.mem_singleton_self wBlock1, rfl⟩, ?_⟩
  intro b hb
  rw [List.mem_singleton.mp hb]
  refine ⟨by decide, ⟨by decide, by decide, by decide⟩,
    fun h => List.noConfusion h, by decide,
    (fun g hg => absurd hg (List.not_mem_nil g)), ?_⟩
  intro g hg
  rw [List.mem_singleton.mp hg]
  refine ⟨fun h => List.noConfusion h, trivial, ?_⟩
  intro p hp
  rw [List.mem_singleton.mp hp]
  refine ⟨by decide, rfl, rfl, ?_, trivial, ?_⟩
  · show ("queue".toList ≠ [])
    decide
  · right
    refine ⟨by decide, by decide, by decide⟩

/-- Witness for `claim_C1_roundtrip`: a one-set, one-prompt canonical
document. -/
theorem claim_C1_witness :
    canonShape [wBlock1] ∧
    ∃ d', parse wGen 7 wNow (serialize wGen 0 wNow
        (canonDoc [wBlock1] true)) = some d' ∧
      d'.sets.map sQuad = [wBlock1].map (fun b => sQuad b.set) ∧
      d'.prompts.map pTriple = (canonPrompts [wBlock1]).map pTriple :=
  ⟨wShape1,
    claim_C1_roundtrip wGen wGen 0 7 wNow wNow [wBlock1] true wShape1⟩

end PromptCanvas
